import Mathlib

/-! The Dirichlet-multinomial, zero-inflated Poisson and half-normal kernels of
extraDistr.

A shallow embedding of `dirichlet-multinomial-distribution.cpp`,
`zero-inflated-poisson-distribution.cpp` and `half-normal-distribution.cpp`.

* A C `double` is a value of `Dbl α`: a NaN, one of the two infinities, or a
  finite number of an ordered field `α`, with exact arithmetic (no signed
  zero).  `α := ℚ` makes every definition evaluable, `α := ℝ` gives the
  reals.  R's `NA_REAL` is a NaN and is represented by `Dbl.nan`.
* Rounding is modelled in one place: the complement `1 - p` of the quantile
  operations, whose result the kernels compare with `0` and `1`, is rounded
  by the backend's `round`.  Every other operation is exact, and a statement
  that rests on an identity of exact arithmetic says so.
* A `NumericVector` taken by value shares the storage of the caller's vector:
  `cpp_qzip`, which writes to its argument `p`, takes `lambda` and `pi` as a
  `Param`, a vector of their own or the very vector passed as `p`.
* The numerical backend (`R::lgammafn`, `R::dpois`, `exp`, ...) and the
  helpers of `shared.h` (`isInteger`, `tol_equal`, `lfactorial`) are fields of
  a record `Prims α` that every kernel takes as its first argument.
* `Rcpp::warning` appends its message to a list of warnings that is threaded
  through the kernels; `Rcpp::stop` and an integer remainder by zero end the
  call with a `Fault`.
-/

namespace ExtraDistr

/-! ## Doubles -/

/-- A double: NaN, minus infinity, plus infinity, or a finite value. -/
inductive Dbl (α : Type) where
  | nan : Dbl α
  | ninf : Dbl α
  | pinf : Dbl α
  | fin (v : α) : Dbl α
deriving DecidableEq, Repr

namespace Dbl

variable {α : Type} [LinearOrderedField α]

/-- The macro `ISNAN`. -/
def isNaN : Dbl α → Bool
  | nan => true
  | _ => false

/-- IEEE addition on exact values. -/
def add : Dbl α → Dbl α → Dbl α
  | nan, _ => nan
  | _, nan => nan
  | pinf, ninf => nan
  | ninf, pinf => nan
  | pinf, _ => pinf
  | _, pinf => pinf
  | ninf, _ => ninf
  | _, ninf => ninf
  | fin a, fin b => fin (a + b)

/-- Unary minus. -/
def neg : Dbl α → Dbl α
  | nan => nan
  | pinf => ninf
  | ninf => pinf
  | fin a => fin (-a)

/-- IEEE subtraction on exact values: the difference is not rounded.  The
complement `1 - p` of the quantile operations, which the kernels compare with
`0` and `1`, is the rounded difference `complement` instead. -/
def sub (a b : Dbl α) : Dbl α := add a (neg b)

/-- The infinity whose sign is that of `s` times the sign of `t` (`s`, `t` non-zero). -/
def signedInf (s t : α) : Dbl α :=
  if (0 < s) = (0 < t) then pinf else ninf

/-- IEEE multiplication on exact values. -/
def mul : Dbl α → Dbl α → Dbl α
  | nan, _ => nan
  | _, nan => nan
  | fin a, fin b => fin (a * b)
  | fin a, pinf => if a = 0 then nan else signedInf a 1
  | fin a, ninf => if a = 0 then nan else signedInf a (-1)
  | pinf, fin b => if b = 0 then nan else signedInf 1 b
  | ninf, fin b => if b = 0 then nan else signedInf (-1) b
  | pinf, pinf => pinf
  | ninf, ninf => pinf
  | pinf, ninf => ninf
  | ninf, pinf => ninf

/-- IEEE division on exact values; a zero divisor counts as `+0`. -/
def div : Dbl α → Dbl α → Dbl α
  | nan, _ => nan
  | _, nan => nan
  | fin a, fin b =>
    if b = 0 then (if a = 0 then nan else signedInf a 1) else fin (a / b)
  | fin _, pinf => fin 0
  | fin _, ninf => fin 0
  | pinf, fin b => if b = 0 then pinf else signedInf 1 b
  | ninf, fin b => if b = 0 then ninf else signedInf (-1) b
  | pinf, pinf => nan
  | ninf, ninf => nan
  | pinf, ninf => nan
  | ninf, pinf => nan

/-- The comparison `a < b` of C: false as soon as one side is NaN. -/
def lt : Dbl α → Dbl α → Bool
  | nan, _ => false
  | _, nan => false
  | _, ninf => false
  | pinf, _ => false
  | ninf, _ => true
  | fin _, pinf => true
  | fin a, fin b => decide (a < b)

/-- The comparison `a <= b` of C: false as soon as one side is NaN. -/
def le : Dbl α → Dbl α → Bool
  | nan, _ => false
  | _, nan => false
  | ninf, _ => true
  | _, pinf => true
  | pinf, _ => false
  | fin _, ninf => false
  | fin a, fin b => decide (a ≤ b)

/-- The comparison `a == b` of C: false as soon as one side is NaN. -/
def eq : Dbl α → Dbl α → Bool
  | nan, _ => false
  | _, nan => false
  | ninf, ninf => true
  | pinf, pinf => true
  | fin a, fin b => decide (a = b)
  | _, _ => false

/-- Absolute value (`std::abs`). -/
def abs : Dbl α → Dbl α
  | nan => nan
  | pinf => pinf
  | ninf => pinf
  | fin a => fin |a|

instance : Add (Dbl α) := ⟨add⟩
instance : Sub (Dbl α) := ⟨sub⟩
instance : Mul (Dbl α) := ⟨mul⟩
instance : Div (Dbl α) := ⟨div⟩
instance : Neg (Dbl α) := ⟨neg⟩

end Dbl

/-! ## The numerical backend and the helpers of `shared.h` -/

/-- The functions the three source files call but do not define: the special
functions of the numerical backend and the helpers declared in `shared.h`.
Every kernel is parametric in this record. -/
structure Prims (α : Type) where
  /-- The call `std::exp`. -/
  exp : Dbl α → Dbl α
  /-- The call `std::log`. -/
  log : Dbl α → Dbl α
  /-- The call `R::lgammafn(x)`. -/
  lgammafn : Dbl α → Dbl α
  /-- The helper `lfactorial(x)` of `shared.h`. -/
  lfactorial : Dbl α → Dbl α
  /-- The helper `isInteger(x)` of `shared.h`. -/
  isInteger : Dbl α → Bool
  /-- The helper `tol_equal(x, y)` of `shared.h`. -/
  tol_equal : Dbl α → Dbl α → Bool
  /-- The call `R::dpois(x, lambda, false)`. -/
  dpois : Dbl α → Dbl α → Dbl α
  /-- The call `R::ppois(x, lambda, true, false)`. -/
  ppois : Dbl α → Dbl α → Dbl α
  /-- The call `R::qpois(p, lambda, true, false)`. -/
  qpois : Dbl α → Dbl α → Dbl α
  /-- The call `R::dnorm(x, mu, sigma, false)`. -/
  dnorm : Dbl α → Dbl α → Dbl α → Dbl α
  /-- The call `R::pnorm(x, mu, sigma, true, false)`. -/
  pnorm : Dbl α → Dbl α → Dbl α → Dbl α
  /-- The call `R::qnorm(p, mu, sigma, true, false)`. -/
  qnorm : Dbl α → Dbl α → Dbl α → Dbl α
  /-- The rounding of an exact finite result to the double the machine stores. -/
  round : α → α

/-- The pseudorandom source: each draw returns a value and the next state of
the generator stream. -/
structure Rng (α : Type) (G : Type) where
  /-- The call `R::runif(0, 1)`. -/
  runif : G → Dbl α × G
  /-- The call `R::rpois(lambda)`. -/
  rpois : Dbl α → G → Dbl α × G
  /-- The call `R::norm_rand()`. -/
  norm_rand : G → Dbl α × G

/-! ## Faults, vectors, matrices, loops -/

/-- The two ways a call ends without returning a vector. -/
inductive Fault where
  /-- The call `Rcpp::stop(msg)`. -/
  | stop (msg : String) : Fault
  /-- An integer remainder `i % 0`: undefined behaviour. -/
  | modZero : Fault
deriving DecidableEq, Repr

/-- The expression `i % n` on `int`s: undefined when `n` is zero. -/
def imod (i n : Nat) : Except Fault Nat :=
  if n = 0 then Except.error Fault.modZero else Except.ok (i % n)

/-- The read `v[i]` of a `NumericVector`. -/
def vget {α : Type} (v : List (Dbl α)) (i : Nat) : Dbl α :=
  v.getD i Dbl.nan

/-- A `NumericMatrix`: its dimensions and its entries `elem i j`. -/
structure NumericMatrix (α : Type) where
  nrow : Nat
  ncol : Nat
  elem : Nat → Nat → Dbl α

/-- The matrix whose rows are the given lists, with `ncol` columns. -/
def NumericMatrix.ofRows {α : Type} (ncol : Nat) (rows : List (List (Dbl α))) :
    NumericMatrix α :=
  ⟨rows.length, ncol, fun i j => vget (rows.getD i []) j⟩

/-- The loop `for (int i = 0; i < n; i++) body`, on a state `σ`. -/
def forLoop {σ : Type} (body : Nat → σ → Except Fault σ) : Nat → σ → Except Fault σ
  | 0, s => Except.ok s
  | k + 1, s =>
    match forLoop body k s with
    | Except.error e => Except.error e
    | Except.ok s₁ => body k s₁

/-- What a call that returns hands back: the output vector and the warnings
it raised, in order. -/
structure Result (α : Type) where
  out : List (Dbl α)
  warnings : List String
deriving DecidableEq, Repr

section Kernels

variable {α : Type} [LinearOrderedField α]

/-! ## `dirichlet-multinomial-distribution.cpp` -/

/-- The locals of one pass of the outer loop of `cpp_ddirmnom`; `p_i` is the
entry `p[i]` of the output vector. -/
structure RowState (α : Type) where
  p_i : Dbl α
  prod_tmp : Dbl α
  sum_alpha : Dbl α
  sum_x : Dbl α
  wrong_alpha : Bool

/-- The inner loop `for (int j = 0; j < m; j++)` of `cpp_ddirmnom` at output
position `i`, from column `j` on, with `r` columns left.  Leaving the
recursion is the `break`. -/
def ddirmnom_cols (P : Prims α) (x alpha : NumericMatrix α) (i : Nat) :
    Nat → Nat → RowState α → Except Fault (RowState α)
  | 0, _, s => Except.ok s
  | r + 1, j, s =>
    match imod i alpha.nrow with
    | Except.error e => Except.error e
    | Except.ok ia =>
      if Dbl.le (alpha.elem ia j) (Dbl.fin 0) then
        Except.ok { s with wrong_alpha := true }
      else
        match imod i x.nrow with
        | Except.error e => Except.error e
        | Except.ok ix =>
          if Dbl.lt (x.elem ix j) (Dbl.fin 0) || !P.isInteger (x.elem ix j) then
            Except.ok { s with p_i := Dbl.ninf }
          else
            ddirmnom_cols P x alpha i r (j + 1)
              { s with
                sum_x := s.sum_x + x.elem ix j
                prod_tmp := s.prod_tmp +
                  (P.lgammafn (x.elem ix j + alpha.elem ia j) -
                    (P.lfactorial (x.elem ix j) + P.lgammafn (alpha.elem ia j)))
                sum_alpha := s.sum_alpha + alpha.elem ia j }

/-- The body of the outer loop of `cpp_ddirmnom` at output position `i`. -/
def ddirmnom_body (P : Prims α) (x : NumericMatrix α) (size : List (Dbl α))
    (alpha : NumericMatrix α) (i : Nat) (st : Result α) : Except Fault (Result α) :=
  match ddirmnom_cols P x alpha i x.ncol 0
      ⟨vget st.out i, Dbl.fin 0, Dbl.fin 0, Dbl.fin 0, false⟩ with
  | Except.error e => Except.error e
  | Except.ok s =>
    if s.wrong_alpha then
      Except.ok ⟨st.out.set i Dbl.nan, st.warnings ++ ["NaNs produced"]⟩
    else
      match imod i size.length with
      | Except.error e => Except.error e
      | Except.ok is =>
        if !P.tol_equal s.sum_x (vget size is) then
          Except.ok ⟨st.out.set i Dbl.nan, st.warnings ++ ["NaNs produced"]⟩
        else
          Except.ok ⟨st.out.set i
            ((P.lfactorial (vget size is) + P.lgammafn s.sum_alpha) -
              P.lgammafn (vget size is + s.sum_alpha) + s.prod_tmp), st.warnings⟩

/-- The body of a loop `p[i] = f(p[i])`. -/
def mapAt (f : Dbl α → Dbl α) (i : Nat) (st : Result α) : Except Fault (Result α) :=
  Except.ok ⟨st.out.set i (f (vget st.out i)), st.warnings⟩

/-- The exported `cpp_ddirmnom(x, size, alpha, log_prob)`. -/
def cpp_ddirmnom (P : Prims α) (x : NumericMatrix α) (size : List (Dbl α))
    (alpha : NumericMatrix α) (log_prob : Bool) : Except Fault (Result α) :=
  let n := x.nrow
  let m := x.ncol
  let k := alpha.ncol
  let na := alpha.nrow
  let ns := size.length
  let Nmax := max n (max na ns)
  let k := min m k
  let p : List (Dbl α) := List.replicate Nmax (Dbl.fin 0)
  if k < 2 then
    Except.error (Fault.stop "Number of columns in 'alpha' should be >= 2.")
  else if m ≠ k then
    Except.error
      (Fault.stop "Number of columns in 'x' does not equal number of columns in 'alpha'.")
  else
    match forLoop (ddirmnom_body P x size alpha) Nmax ⟨p, []⟩ with
    | Except.error e => Except.error e
    | Except.ok st =>
      if !log_prob then forLoop (mapAt P.exp) n st else Except.ok st

/-! ## Rounding and shared storage -/

/-- The double the machine stores for an exact result: a finite value is rounded
by `rnd`, a NaN or an infinity is kept. -/
def Dbl.rounded (rnd : α → α) : Dbl α → Dbl α
  | Dbl.fin a => Dbl.fin (rnd a)
  | v => v

/-- The expression `1 - p` of the quantile operations (`p[i] = 1-p[i]` in
`cpp_qzip`, `pp = 1.0 - pp` in `cpp_qhnorm`) as the machine computes it: the
exact difference, rounded to a double.  Its result goes through the range
test of the kernel, so that the rounding decides between a quantile and a NaN
with a warning; `1 - (-2^-60)` is `1` on the machine.  The difference of `1`
and a double never overflows. -/
def complement (P : Prims α) (v : Dbl α) : Dbl α :=
  Dbl.rounded P.round (Dbl.fin 1 - v)

/-- An argument `lambda` or `pi` of `cpp_qzip`: a vector of its own, or the very
vector that the caller also passes as `p`.  The function takes its vectors by
value, and a `NumericVector` built from the caller's vector shares its
storage: in the second case the argument reads what has been written to `p`. -/
inductive Param (α : Type) where
  | own (v : List (Dbl α)) : Param α
  | shared : Param α

/-- The contents of an argument of `cpp_qzip` when `p` holds the vector `p`. -/
def Param.read (a : Param α) (p : List (Dbl α)) : List (Dbl α) :=
  match a with
  | Param.own v => v
  | Param.shared => p

/-! ## `zero-inflated-poisson-distribution.cpp` -/

/-- The test `lambda <= 0 || pi < 0 || pi > 1` shared by the four kernels. -/
def zip_invalid (lambda pi : Dbl α) : Bool :=
  Dbl.le lambda (Dbl.fin 0) || Dbl.lt pi (Dbl.fin 0) || Dbl.lt (Dbl.fin 1) pi

/-- The kernel `pdf_zip(x, lambda, pi)`; `w` is the list of warnings so far. -/
def pdf_zip (P : Prims α) (x lambda pi : Dbl α) (w : List String) : Dbl α × List String :=
  if zip_invalid lambda pi then (Dbl.nan, w ++ ["NaNs produced"])
  else if Dbl.lt x (Dbl.fin 0) || !P.isInteger x then (Dbl.fin 0, w)
  else if Dbl.eq x (Dbl.fin 0) then (pi + (Dbl.fin 1 - pi) * P.exp (-lambda), w)
  else ((Dbl.fin 1 - pi) * P.dpois x lambda, w)

/-- The kernel `cdf_zip(x, lambda, pi)`. -/
def cdf_zip (P : Prims α) (x lambda pi : Dbl α) (w : List String) : Dbl α × List String :=
  if zip_invalid lambda pi then (Dbl.nan, w ++ ["NaNs produced"])
  else if Dbl.lt x (Dbl.fin 0) then (Dbl.fin 0, w)
  else (pi + (Dbl.fin 1 - pi) * P.ppois x lambda, w)

/-- The kernel `invcdf_zip(p, lambda, pi)`. -/
def invcdf_zip (P : Prims α) (p lambda pi : Dbl α) (w : List String) : Dbl α × List String :=
  if zip_invalid lambda pi || Dbl.lt p (Dbl.fin 0) || Dbl.lt (Dbl.fin 1) p then
    (Dbl.nan, w ++ ["NaNs produced"])
  else if Dbl.lt p pi then (Dbl.fin 0, w)
  else (P.qpois ((p - pi) / (Dbl.fin 1 - pi)) lambda, w)

/-- The kernel `rng_zip(lambda, pi)`; `g` is the state of the generator. -/
def rng_zip {G : Type} (R : Rng α G) (lambda pi : Dbl α) (w : List String) (g : G) :
    Dbl α × List String × G :=
  if zip_invalid lambda pi then (Dbl.nan, w ++ ["NaNs produced"], g)
  else
    let u := R.runif g
    if Dbl.lt u.1 pi then (Dbl.fin 0, w, u.2)
    else
      let r := R.rpois lambda u.2
      (r.1, w, r.2)

/-- The body `p[i] = kernel(x[i % n], lambda[i % nl], pi[i % np])` of the main
loop of `cpp_dzip`, `cpp_pzip` and `cpp_qzip`. -/
def zip_body (kernel : Dbl α → Dbl α → Dbl α → List String → Dbl α × List String)
    (x lambda pi : List (Dbl α)) (i : Nat) (st : Result α) : Except Fault (Result α) :=
  match imod i x.length with
  | Except.error e => Except.error e
  | Except.ok ix =>
    match imod i lambda.length with
    | Except.error e => Except.error e
    | Except.ok il =>
      match imod i pi.length with
      | Except.error e => Except.error e
      | Except.ok ip =>
        let r := kernel (vget x ix) (vget lambda il) (vget pi ip) st.warnings
        Except.ok ⟨st.out.set i r.1, r.2⟩

/-- The exported `cpp_dzip(x, lambda, pi, log_prob)`. -/
def cpp_dzip (P : Prims α) (x lambda pi : List (Dbl α)) (log_prob : Bool) :
    Except Fault (Result α) :=
  let n := x.length
  let np := pi.length
  let nl := lambda.length
  let Nmax := max n (max np nl)
  let p : List (Dbl α) := List.replicate Nmax (Dbl.fin 0)
  match forLoop (zip_body (pdf_zip P) x lambda pi) Nmax ⟨p, []⟩ with
  | Except.error e => Except.error e
  | Except.ok st =>
    if log_prob then forLoop (mapAt P.log) Nmax st else Except.ok st

/-- The exported `cpp_pzip(x, lambda, pi, lower_tail, log_prob)`. -/
def cpp_pzip (P : Prims α) (x lambda pi : List (Dbl α)) (lower_tail log_prob : Bool) :
    Except Fault (Result α) :=
  let n := x.length
  let np := pi.length
  let nl := lambda.length
  let Nmax := max n (max np nl)
  let p : List (Dbl α) := List.replicate Nmax (Dbl.fin 0)
  match forLoop (zip_body (cdf_zip P) x lambda pi) Nmax ⟨p, []⟩ with
  | Except.error e => Except.error e
  | Except.ok st =>
    match (if !lower_tail then forLoop (mapAt (fun v => Dbl.fin 1 - v)) Nmax st
           else Except.ok st) with
    | Except.error e => Except.error e
    | Except.ok st₁ =>
      if log_prob then forLoop (mapAt P.log) Nmax st₁ else Except.ok st₁

/-- What `cpp_qzip` leaves behind: the returned vector with the warnings, and
the contents of the argument `p`, which the function overwrites in place. -/
structure QzipResult (α : Type) where
  res : Result α
  p_after : List (Dbl α)

/-- The exported `cpp_qzip(p, lambda, pi, lower_tail, log_prob)`.  The two
adjustment loops run on `p` itself; the main loop then reads the adjusted `p`,
and reads it also as `lambda` or `pi` when that argument is the vector `p`. -/
def cpp_qzip (P : Prims α) (p : List (Dbl α)) (lambda pi : Param α)
    (lower_tail log_prob : Bool) : Except Fault (QzipResult α) :=
  let n := p.length
  let np := (pi.read p).length
  let nl := (lambda.read p).length
  let Nmax := max n (max np nl)
  let x : List (Dbl α) := List.replicate Nmax (Dbl.fin 0)
  match (if log_prob then forLoop (mapAt P.exp) n ⟨p, []⟩ else Except.ok ⟨p, []⟩) with
  | Except.error e => Except.error e
  | Except.ok s₁ =>
    match (if !lower_tail then forLoop (mapAt (complement P)) n s₁
           else Except.ok s₁) with
    | Except.error e => Except.error e
    | Except.ok s₂ =>
      match forLoop (zip_body (invcdf_zip P) s₂.out (lambda.read s₂.out) (pi.read s₂.out))
          Nmax ⟨x, s₂.warnings⟩ with
      | Except.error e => Except.error e
      | Except.ok st => Except.ok ⟨st, s₂.out⟩

/-- The state of the loop of `cpp_rzip` and `cpp_rhnorm`: the output vector,
the warnings (or the warning flag) and the generator. -/
structure RngState (α : Type) (G : Type) (W : Type) where
  out : List (Dbl α)
  warn : W
  gen : G

/-- The body `x[i] = rng_zip(lambda[i % nl], pi[i % np])` of the loop of `cpp_rzip`. -/
def rzip_body {G : Type} (R : Rng α G) (lambda pi : List (Dbl α)) (i : Nat)
    (st : RngState α G (List String)) : Except Fault (RngState α G (List String)) :=
  match imod i lambda.length with
  | Except.error e => Except.error e
  | Except.ok il =>
    match imod i pi.length with
    | Except.error e => Except.error e
    | Except.ok ip =>
      let r := rng_zip R (vget lambda il) (vget pi ip) st.warn st.gen
      Except.ok ⟨st.out.set i r.1, r.2.1, r.2.2⟩

/-- The exported `cpp_rzip(n, lambda, pi)`, started on the generator state `g`. -/
def cpp_rzip {G : Type} (R : Rng α G) (n : Nat) (lambda pi : List (Dbl α)) (g : G) :
    Except Fault (RngState α G (List String)) :=
  forLoop (rzip_body R lambda pi) n ⟨List.replicate n (Dbl.fin 0), [], g⟩

/-! ## `half-normal-distribution.cpp` -/

/-- Modelled from the spec: the macro `GETV(x, i)` of `shared.h`, which is not
among the sources.  The spec: every per-vector access at output index `i`
uses index `i mod len(vector)`. -/
def GETV (x : List (Dbl α)) (i : Nat) : Except Fault (Dbl α) :=
  match imod i x.length with
  | Except.error e => Except.error e
  | Except.ok ix => Except.ok (vget x ix)

/-- Modelled from the spec: the macro `VALID_PROB(p)` of `shared.h`, which is
not among the sources.  The spec: the quantile requires `p ∈ [0,1]`. -/
def VALID_PROB (p : Dbl α) : Bool :=
  Dbl.le (Dbl.fin 0) p && Dbl.le p (Dbl.fin 1)

/-- The kernel `pdf_hnorm(x, sigma, throw_warning)`: the value returned and
the flag `throw_warning` after the call. -/
def pdf_hnorm (P : Prims α) (x sigma : Dbl α) (throw_warning : Bool) : Dbl α × Bool :=
  if Dbl.isNaN x || Dbl.isNaN sigma then (x + sigma, throw_warning)
  else if Dbl.le sigma (Dbl.fin 0) then (Dbl.nan, true)
  else if Dbl.lt x (Dbl.fin 0) then (Dbl.fin 0, throw_warning)
  else (Dbl.fin 2 * P.dnorm x (Dbl.fin 0) sigma, throw_warning)

/-- The kernel `cdf_hnorm(x, sigma, throw_warning)`. -/
def cdf_hnorm (P : Prims α) (x sigma : Dbl α) (throw_warning : Bool) : Dbl α × Bool :=
  if Dbl.isNaN x || Dbl.isNaN sigma then (x + sigma, throw_warning)
  else if Dbl.le sigma (Dbl.fin 0) then (Dbl.nan, true)
  else if Dbl.lt x (Dbl.fin 0) then (Dbl.fin 0, throw_warning)
  else (Dbl.fin 2 * P.pnorm x (Dbl.fin 0) sigma - Dbl.fin 1, throw_warning)

/-- The kernel `invcdf_hnorm(p, sigma, throw_warning)`. -/
def invcdf_hnorm (P : Prims α) (p sigma : Dbl α) (throw_warning : Bool) : Dbl α × Bool :=
  if Dbl.isNaN p || Dbl.isNaN sigma then (p + sigma, throw_warning)
  else if Dbl.le sigma (Dbl.fin 0) || !VALID_PROB p then (Dbl.nan, true)
  else (P.qnorm ((p + Dbl.fin 1) / Dbl.fin 2) (Dbl.fin 0) sigma, throw_warning)

/-- The kernel `rng_hnorm(sigma, throw_warning)`; `g` is the state of the
generator.  The value `NA_REAL` is a NaN. -/
def rng_hnorm {G : Type} (R : Rng α G) (sigma : Dbl α) (throw_warning : Bool) (g : G) :
    Dbl α × Bool × G :=
  if Dbl.isNaN sigma || Dbl.le sigma (Dbl.fin 0) then (Dbl.nan, true, g)
  else
    let z := R.norm_rand g
    (Dbl.abs z.1 * sigma, throw_warning, z.2)

/-- The state of the main loop of `cpp_dhnorm`, `cpp_phnorm` and `cpp_qhnorm`:
the output vector and the flag `throw_warning`. -/
structure FlagState (α : Type) where
  out : List (Dbl α)
  flag : Bool

/-- The body `p[i] = kernel(GETV(x, i), GETV(sigma, i), throw_warning)`. -/
def hnorm_body (kernel : Dbl α → Dbl α → Bool → Dbl α × Bool)
    (x sigma : List (Dbl α)) (i : Nat) (st : FlagState α) : Except Fault (FlagState α) :=
  match GETV x i with
  | Except.error e => Except.error e
  | Except.ok xi =>
    match GETV sigma i with
    | Except.error e => Except.error e
    | Except.ok si =>
      let r := kernel xi si st.flag
      Except.ok ⟨st.out.set i r.1, r.2⟩

/-- The closing `if (throw_warning) Rcpp::warning(msg)`. -/
def raise (flag : Bool) (msg : String) : List String :=
  if flag then [msg] else []

/-- The exported `cpp_dhnorm(x, sigma, log_prob)`. -/
def cpp_dhnorm (P : Prims α) (x sigma : List (Dbl α)) (log_prob : Bool) :
    Except Fault (Result α) :=
  let Nmax := max x.length sigma.length
  let p : List (Dbl α) := List.replicate Nmax (Dbl.fin 0)
  match forLoop (hnorm_body (pdf_hnorm P) x sigma) Nmax ⟨p, false⟩ with
  | Except.error e => Except.error e
  | Except.ok st =>
    let p₁ := if log_prob then st.out.map P.log else st.out
    Except.ok ⟨p₁, raise st.flag "NaNs produced"⟩

/-- The exported `cpp_phnorm(x, sigma, lower_tail, log_prob)`. -/
def cpp_phnorm (P : Prims α) (x sigma : List (Dbl α)) (lower_tail log_prob : Bool) :
    Except Fault (Result α) :=
  let Nmax := max x.length sigma.length
  let p : List (Dbl α) := List.replicate Nmax (Dbl.fin 0)
  match forLoop (hnorm_body (cdf_hnorm P) x sigma) Nmax ⟨p, false⟩ with
  | Except.error e => Except.error e
  | Except.ok st =>
    let p₁ := if !lower_tail then st.out.map (fun v => Dbl.fin 1 - v) else st.out
    let p₂ := if log_prob then p₁.map P.log else p₁
    Except.ok ⟨p₂, raise st.flag "NaNs produced"⟩

/-- The exported `cpp_qhnorm(p, sigma, lower_tail, log_prob)`; the adjustments
run on the clone `pp` of `p`. -/
def cpp_qhnorm (P : Prims α) (p sigma : List (Dbl α)) (lower_tail log_prob : Bool) :
    Except Fault (Result α) :=
  let Nmax := max p.length sigma.length
  let q : List (Dbl α) := List.replicate Nmax (Dbl.fin 0)
  let pp := p
  let pp₁ := if log_prob then pp.map P.exp else pp
  let pp₂ := if !lower_tail then pp₁.map (complement P) else pp₁
  match forLoop (hnorm_body (invcdf_hnorm P) pp₂ sigma) Nmax ⟨q, false⟩ with
  | Except.error e => Except.error e
  | Except.ok st => Except.ok ⟨st.out, raise st.flag "NaNs produced"⟩

/-- The body `x[i] = rng_hnorm(GETV(sigma, i), throw_warning)` of `cpp_rhnorm`. -/
def rhnorm_body {G : Type} (R : Rng α G) (sigma : List (Dbl α)) (i : Nat)
    (st : RngState α G Bool) : Except Fault (RngState α G Bool) :=
  match GETV sigma i with
  | Except.error e => Except.error e
  | Except.ok si =>
    let r := rng_hnorm R si st.warn st.gen
    Except.ok ⟨st.out.set i r.1, r.2.1, r.2.2⟩

/-- The exported `cpp_rhnorm(n, sigma)`, started on the generator state `g`:
the output vector, the warnings raised and the generator state left. -/
def cpp_rhnorm {G : Type} (R : Rng α G) (n : Nat) (sigma : List (Dbl α)) (g : G) :
    Except Fault (RngState α G (List String)) :=
  match forLoop (rhnorm_body R sigma) n ⟨List.replicate n (Dbl.fin 0), false, g⟩ with
  | Except.error e => Except.error e
  | Except.ok st => Except.ok ⟨st.out, raise st.warn "NAs produced", st.gen⟩

end Kernels

/-! ## A rational backend for evaluating the embedding

Closed-form rational surrogates of the primitives, so that the definitions
above can be run on concrete inputs.  Only what the statements below assume
of a backend is used of them: `lfactorial t = lgammafn (t + 1)`, a Poisson
pair and a normal pair that are mutually inverse with values in `[0,1]`. -/

namespace Q

/-- Surrogate of `exp`: positive, `exp 0 = 1`, without a fixed point. -/
def exp : Dbl ℚ → Dbl ℚ
  | Dbl.nan => Dbl.nan
  | Dbl.ninf => Dbl.fin 0
  | Dbl.pinf => Dbl.pinf
  | Dbl.fin q => Dbl.fin (1 + q + q * q / 2)

/-- Surrogate of `log`: `log 1 = 0`, `log 0 = -inf`, NaN below zero. -/
def log : Dbl ℚ → Dbl ℚ
  | Dbl.nan => Dbl.nan
  | Dbl.ninf => Dbl.nan
  | Dbl.pinf => Dbl.pinf
  | Dbl.fin q => if q < 0 then Dbl.nan else if q = 0 then Dbl.ninf else Dbl.fin (q - 1)

/-- Surrogate of `lgammafn`: zero at `1` and `2`, finite on finite arguments. -/
def lgammafn : Dbl ℚ → Dbl ℚ
  | Dbl.fin q => Dbl.fin ((q - 1) * (q - 2) / 2)
  | Dbl.ninf => Dbl.nan
  | v => v

/-- The helper `isInteger`: a finite value with denominator one. -/
def isInteger : Dbl ℚ → Bool
  | Dbl.fin q => decide (q.den = 1)
  | Dbl.nan => false
  | _ => true

/-- The helper `tol_equal`: `abs(x - y) < 1e-8`. -/
def tol_equal (x y : Dbl ℚ) : Bool :=
  Dbl.lt (Dbl.abs (x - y)) (Dbl.fin (1 / 100000000))

/-- Surrogate of the Poisson cdf: `1 - 1/(x+2)` on `x ≥ 0`, a cdf with
values in `[1/2, 1)` there. -/
def ppois (x _lambda : Dbl ℚ) : Dbl ℚ :=
  match x with
  | Dbl.nan => Dbl.nan
  | Dbl.ninf => Dbl.fin 0
  | Dbl.pinf => Dbl.fin 1
  | Dbl.fin q => if q < 0 then Dbl.fin 0 else Dbl.fin (1 - 1 / (q + 2))

/-- Surrogate of the Poisson pmf: the increment `1/((x+1)(x+2))` of `ppois`. -/
def dpois (x _lambda : Dbl ℚ) : Dbl ℚ :=
  match x with
  | Dbl.nan => Dbl.nan
  | Dbl.fin q => if q < 0 then Dbl.fin 0 else Dbl.fin (1 / ((q + 1) * (q + 2)))
  | _ => Dbl.fin 0

/-- Surrogate of the Poisson quantile: the inverse of `ppois`. -/
def qpois (p _lambda : Dbl ℚ) : Dbl ℚ :=
  match p with
  | Dbl.fin q =>
    if q < 0 ∨ 1 < q then Dbl.nan
    else if q = 1 then Dbl.pinf
    else if q < 1 / 2 then Dbl.fin 0
    else Dbl.fin (1 / (1 - q) - 2)
  | _ => Dbl.nan

/-- Surrogate of the normal cdf: `1/2 + z/(2(1+|z|))` with `z = (x-mu)/sigma`. -/
def pnorm (x mu sigma : Dbl ℚ) : Dbl ℚ :=
  match x, mu, sigma with
  | Dbl.fin a, Dbl.fin m, Dbl.fin s =>
    if s ≤ 0 then Dbl.nan
    else Dbl.fin (1 / 2 + ((a - m) / s) / (2 * (1 + |(a - m) / s|)))
  | _, _, _ => Dbl.nan

/-- Surrogate of the normal density: the derivative of `pnorm`. -/
def dnorm (x mu sigma : Dbl ℚ) : Dbl ℚ :=
  match x, mu, sigma with
  | Dbl.fin a, Dbl.fin m, Dbl.fin s =>
    if s ≤ 0 then Dbl.nan
    else Dbl.fin (1 / (2 * s * (1 + |(a - m) / s|) * (1 + |(a - m) / s|)))
  | _, _, _ => Dbl.nan

/-- Surrogate of the normal quantile: the inverse of `pnorm`. -/
def qnorm (p mu sigma : Dbl ℚ) : Dbl ℚ :=
  match p, mu, sigma with
  | Dbl.fin q, Dbl.fin m, Dbl.fin s =>
    if s ≤ 0 ∨ q < 0 ∨ 1 < q then Dbl.nan
    else if q = 0 then Dbl.ninf
    else if q = 1 then Dbl.pinf
    else Dbl.fin (m + s * ((2 * q - 1) / (1 - |2 * q - 1|)))
  | _, _, _ => Dbl.nan

/-- Surrogate of the rounding to a double: a value within half an ulp of `1`,
that is within `2^-53`, rounds to `1`; any other value is kept. -/
def round (q : ℚ) : ℚ :=
  if |q - 1| < 1 / 2 ^ 53 then 1 else q

/-- The rational backend. -/
def prims : Prims ℚ where
  exp := exp
  log := log
  lgammafn := lgammafn
  lfactorial := fun t => lgammafn (t + Dbl.fin 1)
  isInteger := isInteger
  tol_equal := tol_equal
  dpois := dpois
  ppois := ppois
  qpois := qpois
  dnorm := dnorm
  pnorm := pnorm
  qnorm := qnorm
  round := round

/-- A generator that replays a fixed list of draws, whatever is asked of it. -/
def replay : Rng ℚ (List (Dbl ℚ)) where
  runif := fun g => (g.headD (Dbl.fin 0), g.tail)
  rpois := fun _ g => (g.headD (Dbl.fin 0), g.tail)
  norm_rand := fun g => (g.headD (Dbl.fin 0), g.tail)

end Q

/-! ## The adjusted probability of the quantile operations -/

/-- The probability `cpp_qzip` and `cpp_qhnorm` hand to their kernel for an entry
`p` of the input: exponentiated when `log_prob` is set, then replaced by the
double `1 - p` when `lower_tail` is not. -/
def adjusted {α : Type} [LinearOrderedField α] (P : Prims α) (lower_tail log_prob : Bool)
    (p : Dbl α) : Dbl α :=
  (if lower_tail then id else complement P) ((if log_prob then P.exp else id) p)

/-! ## Concrete inputs -/

namespace Q

/-- The one-row observation matrix `[2, 3]`. -/
def x23 : NumericMatrix ℚ := NumericMatrix.ofRows 2 [[Dbl.fin 2, Dbl.fin 3]]

/-- The one-row concentration matrix `[1, 1]`. -/
def alpha11 : NumericMatrix ℚ := NumericMatrix.ofRows 2 [[Dbl.fin 1, Dbl.fin 1]]

/-- A one-row concentration matrix with three columns, `[1, 1, 7]`. -/
def alpha117 : NumericMatrix ℚ := NumericMatrix.ofRows 3 [[Dbl.fin 1, Dbl.fin 1, Dbl.fin 7]]

/-- A one-row concentration matrix with a negative entry, `[1, -1]`. -/
def alpha1m : NumericMatrix ℚ := NumericMatrix.ofRows 2 [[Dbl.fin 1, Dbl.fin (-1)]]

/-- The one-row observation matrix `[-1, 6]`. -/
def xNeg : NumericMatrix ℚ := NumericMatrix.ofRows 2 [[Dbl.fin (-1), Dbl.fin 6]]

/-- The one-row observation matrix `[2, -1, 0]`. -/
def xLate : NumericMatrix ℚ := NumericMatrix.ofRows 3 [[Dbl.fin 2, Dbl.fin (-1), Dbl.fin 0]]

/-- The one-row concentration matrix `[1, 1, -1]`. -/
def alphaLate : NumericMatrix ℚ :=
  NumericMatrix.ofRows 3 [[Dbl.fin 1, Dbl.fin 1, Dbl.fin (-1)]]

end Q

/-! ## Pure views of the loops -/

/-- The state after the first `n` passes of a loop whose pass `k` maps the
state `s` to `step k s`. -/
def iterSteps {σ : Type} (step : Nat → σ → σ) : Nat → σ → σ
  | 0, s => s
  | k + 1, s => step k (iterSteps step k s)

/-- The state a loop body leaves when it does not fault. -/
def stepOf {σ : Type} (body : Nat → σ → Except Fault σ) (k : Nat) (s : σ) : σ :=
  match body k s with
  | Except.ok t => t
  | Except.error _ => s

/-- Two states of the inner loop of `cpp_ddirmnom` that differ at most in `p_i`. -/
def RowState.agree {α : Type} (s t : RowState α) : Prop :=
  s.prod_tmp = t.prod_tmp ∧ s.sum_alpha = t.sum_alpha ∧ s.sum_x = t.sum_x ∧
    s.wrong_alpha = t.wrong_alpha

/-- Two outcomes of the inner loop of `cpp_ddirmnom` that differ at most in `p_i`. -/
def RowState.agreeOutcome {α : Type} : Except Fault (RowState α) → Except Fault (RowState α) → Prop
  | Except.ok s, Except.ok t => RowState.agree s t
  | Except.error e, Except.error f => e = f
  | _, _ => False

/-- What the pass of the outer loop of `cpp_ddirmnom` at position `i` writes to
`p[i]`, and the warnings it raises: the body run on a fresh vector. -/
def ddirmnom_row {α : Type} [LinearOrderedField α] (P : Prims α) (x : NumericMatrix α)
    (size : List (Dbl α)) (alpha : NumericMatrix α) (i : Nat) : Dbl α × List String :=
  let st := stepOf (ddirmnom_body P x size alpha) i ⟨List.replicate (i + 1) (Dbl.fin 0), []⟩
  (vget st.out i, st.warnings)

/-! ## Row sums and the log-pmf of the specification -/

/-- The sum `((0 + v 0) + v 1) + ... + v (m - 1)` of doubles, in the order in
which the inner loop of `cpp_ddirmnom` accumulates `sum_x`, `sum_alpha` and
`prod_tmp`. -/
def sumTo {α : Type} [LinearOrderedField α] (v : Nat → Dbl α) (m : Nat) : Dbl α :=
  (List.range m).foldl (fun acc j => acc + v j) (Dbl.fin 0)

/-- The log-pmf as the specification writes it, for a log-gamma function `lg`, a
row `xs` of counts and a row `as` of concentrations over `m` columns, and a
size `s`:
`logΓ(s+1) + logΓ(Σα) − logΓ(s+Σα) + Σ_j [logΓ(x_j+α_j) − logΓ(x_j+1) − logΓ(α_j)]`. -/
def logpmf_spec {α : Type} [LinearOrderedField α] (lg : α → α) (m : Nat) (xs as : Nat → α)
    (s : α) : α :=
  lg (s + 1) + lg (Finset.sum (Finset.range m) as) - lg (s + Finset.sum (Finset.range m) as) +
    Finset.sum (Finset.range m) (fun j => lg (xs j + as j) - lg (xs j + 1) - lg (as j))

/-- The log-gamma surrogate of the rational backend, on finite values. -/
def Q.lg (t : ℚ) : ℚ := (t - 1) * (t - 2) / 2

/-- The one-row observation matrix `[2, 2]`. -/
def Q.x22 : NumericMatrix ℚ := NumericMatrix.ofRows 2 [[Dbl.fin 2, Dbl.fin 2]]

set_option linter.unusedSectionVars false

/-! ## Arithmetic of doubles -/

namespace Dbl

@[simp] theorem isNaN_fin {β : Type} (a : β) : isNaN (fin a) = false := rfl

@[simp] theorem isNaN_nan {β : Type} : isNaN (nan : Dbl β) = true := rfl

theorem isNaN_iff {β : Type} (a : Dbl β) : isNaN a = true ↔ a = nan := by
  cases a <;> simp [isNaN]

variable {α : Type} [LinearOrderedField α]

@[simp] theorem fin_add_fin (a b : α) : (fin a + fin b : Dbl α) = fin (a + b) := rfl

@[simp] theorem fin_sub_fin (a b : α) : (fin a - fin b : Dbl α) = fin (a - b) := by
  show add (fin a) (neg (fin b)) = fin (a - b)
  simp [add, neg, sub_eq_add_neg]

@[simp] theorem fin_mul_fin (a b : α) : (fin a * fin b : Dbl α) = fin (a * b) := rfl

@[simp] theorem neg_fin (a : α) : (-(fin a) : Dbl α) = fin (-a) := rfl

theorem fin_div_fin (a b : α) (h : b ≠ 0) : (fin a / fin b : Dbl α) = fin (a / b) := by
  show div (fin a) (fin b) = fin (a / b)
  simp [div, h]

@[simp] theorem fin_zero_div_fin_zero : (fin (0 : α) / fin 0 : Dbl α) = nan := by
  show div (fin 0) (fin 0) = nan
  simp [div]

@[simp] theorem nan_add (b : Dbl α) : (nan + b : Dbl α) = nan := by
  show add nan b = nan
  cases b <;> rfl

@[simp] theorem add_nan (a : Dbl α) : (a + nan : Dbl α) = nan := by
  show add a nan = nan
  cases a <;> rfl

@[simp] theorem lt_fin_fin (a b : α) : lt (fin a) (fin b) = decide (a < b) := rfl

@[simp] theorem le_fin_fin (a b : α) : le (fin a) (fin b) = decide (a ≤ b) := rfl

@[simp] theorem eq_fin_fin (a b : α) : eq (fin a) (fin b) = decide (a = b) := rfl

@[simp] theorem abs_fin (a : α) : abs (fin a) = fin |a| := rfl

theorem le_not_nan (a b : Dbl α) (h : le a b = true) : isNaN a = false := by
  cases a <;> simp_all [le, isNaN]

end Dbl

/-! ## Loop lemmas -/

theorem forLoop_eq_iter {σ : Type} (body : Nat → σ → Except Fault σ) (n : Nat)
    (h : ∀ k, k < n → ∀ s, ∃ t, body k s = Except.ok t) (s : σ) :
    forLoop body n s = Except.ok (iterSteps (stepOf body) n s) := by
  induction n with
  | zero => rfl
  | succ k ih =>
    have ih₁ := ih (fun j hj => h j (Nat.lt_succ_of_lt hj))
    obtain ⟨t, ht⟩ := h k (Nat.lt_succ_self k) (iterSteps (stepOf body) k s)
    simp only [forLoop, ih₁, iterSteps, stepOf, ht]

theorem forLoop_fault_first {σ : Type} (body : Nat → σ → Except Fault σ) (e : Fault)
    (s : σ) (h : body 0 s = Except.error e) (n : Nat) (hn : 0 < n) :
    forLoop body n s = Except.error e := by
  induction n with
  | zero => exact absurd hn (Nat.lt_irrefl 0)
  | succ k ih =>
    cases k with
    | zero => simp only [forLoop, h]
    | succ j => simp only [forLoop] at ih ⊢; rw [ih (Nat.succ_pos j)]

theorem iter_out {σ β : Type} (out : σ → List β) (step : Nat → σ → σ) (v : Nat → σ → β)
    (h : ∀ k s, out (step k s) = (out s).set k (v k s)) (n : Nat) (s : σ)
    (hn : n ≤ (out s).length) :
    out (iterSteps step n s) =
      (List.range n).map (fun i => v i (iterSteps step i s)) ++ (out s).drop n := by
  induction n with
  | zero => simp [iterSteps]
  | succ k ih =>
    have hk : k < (out s).length := hn
    have ih₁ := ih (Nat.le_of_lt hk)
    simp only [iterSteps, h, ih₁]
    rw [List.range_succ, List.map_append, List.set_append_right _ _ (by simp)]
    simp only [List.length_map, List.length_range, Nat.sub_self, List.map_cons, List.map_nil,
      List.append_assoc]
    rw [List.drop_eq_getElem_cons hk, List.set_cons_zero]
    rfl

theorem iter_append {σ β : Type} (acc : σ → List β) (step : Nat → σ → σ) (g : Nat → List β)
    (h : ∀ k s, acc (step k s) = acc s ++ g k) (n : Nat) (s : σ) :
    acc (iterSteps step n s) = acc s ++ ((List.range n).map g).flatten := by
  induction n with
  | zero => simp [iterSteps]
  | succ k ih => simp [iterSteps, h, ih, List.range_succ]

theorem iter_or {σ : Type} (flag : σ → Bool) (step : Nat → σ → σ) (g : Nat → Bool)
    (h : ∀ k s, flag (step k s) = (flag s || g k)) (n : Nat) (s : σ) :
    flag (iterSteps step n s) = (flag s || (List.range n).any g) := by
  induction n with
  | zero => simp [iterSteps]
  | succ k ih => simp [iterSteps, h, ih, List.range_succ, Bool.or_assoc]

theorem imod_pos (i n : Nat) (h : 0 < n) : imod i n = Except.ok (i % n) := by
  simp [imod, Nat.pos_iff_ne_zero.mp h]

theorem imod_zero (i : Nat) : imod i 0 = Except.error Fault.modZero := by
  simp [imod]

theorem vget_set_self {α : Type} (p : List (Dbl α)) (i : Nat) (v : Dbl α) (h : i < p.length) :
    vget (p.set i v) i = v := by
  simp [vget, List.getD, h]

theorem vget_range_map {α : Type} (f : Nat → Dbl α) (n i : Nat) (h : i < n) :
    vget ((List.range n).map f) i = f i := by
  simp [vget, List.getD, h]

theorem forLoop_result {α : Type} (body : Nat → Result α → Except Fault (Result α))
    (f : Nat → Dbl α) (g : Nat → List String)
    (h : ∀ i st, body i st = Except.ok ⟨st.out.set i (f i), st.warnings ++ g i⟩)
    (n : Nat) (st : Result α) (hn : n ≤ st.out.length) :
    forLoop body n st =
      Except.ok ⟨(List.range n).map f ++ st.out.drop n,
        st.warnings ++ ((List.range n).map g).flatten⟩ := by
  rw [forLoop_eq_iter body n (fun k _ s => ⟨_, h k s⟩) st]
  have hstep : ∀ k s, stepOf body k s = ⟨s.out.set k (f k), s.warnings ++ g k⟩ := by
    intro k s; simp only [stepOf, h]
  have h₁ := iter_out Result.out (stepOf body) (fun k _ => f k)
    (fun k s => by rw [hstep]) n st hn
  have h₂ := iter_append Result.warnings (stepOf body) g (fun k s => by rw [hstep]) n st
  rw [← h₁, ← h₂]

theorem forLoop_mapAt {α : Type} (f : Dbl α → Dbl α) (n : Nat) (p : List (Dbl α))
    (w : List String) (hn : n ≤ p.length) :
    forLoop (mapAt f) n ⟨p, w⟩ = Except.ok ⟨(p.take n).map f ++ p.drop n, w⟩ := by
  induction n with
  | zero => simp [forLoop]
  | succ k ih =>
    have hk : k < p.length := hn
    simp only [forLoop, ih (Nat.le_of_lt hk), mapAt]
    have hlen : ((p.take k).map f).length = k := by
      simp [Nat.min_eq_left (Nat.le_of_lt hk)]
    have hv : vget ((p.take k).map f ++ p.drop k) k = p[k] := by
      rw [vget, List.getD_eq_getElem?_getD, List.getElem?_append_right (by rw [hlen]), hlen,
        Nat.sub_self]
      simp [hk]
    rw [hv, List.set_append_right _ _ (by rw [hlen]), hlen, Nat.sub_self,
      List.drop_eq_getElem_cons hk, List.set_cons_zero]
    rw [List.take_succ, List.getElem?_eq_getElem hk, List.map_append]
    simp

theorem forLoop_mapAt_full {α : Type} (f : Dbl α → Dbl α) (p : List (Dbl α))
    (w : List String) :
    forLoop (mapAt f) p.length ⟨p, w⟩ = Except.ok ⟨p.map f, w⟩ := by
  rw [forLoop_mapAt f p.length p w (Nat.le_refl _)]
  simp

/-! ## The loops of `cpp_ddirmnom` -/

section Dirmnom

variable {α : Type} [LinearOrderedField α]

theorem ddirmnom_cols_agree (P : Prims α) (x alpha : NumericMatrix α) (i : Nat) :
    ∀ (r j : Nat) (s t : RowState α), RowState.agree s t →
      RowState.agreeOutcome (ddirmnom_cols P x alpha i r j s) (ddirmnom_cols P x alpha i r j t) := by
  intro r
  induction r with
  | zero => intro j s t h; exact h
  | succ r ih =>
    intro j s t h
    obtain ⟨h₁, h₂, h₃, h₄⟩ := h
    simp only [ddirmnom_cols]
    cases imod i alpha.nrow with
    | error e => exact rfl
    | ok ia =>
      by_cases ha : Dbl.le (alpha.elem ia j) (Dbl.fin 0) = true
      · simp only [ha, if_true]
        exact ⟨h₁, h₂, h₃, rfl⟩
      · simp only [ha]
        cases imod i x.nrow with
        | error e => exact rfl
        | ok ix =>
          by_cases hx : (Dbl.lt (x.elem ix j) (Dbl.fin 0) || !P.isInteger (x.elem ix j)) = true
          · simp only [hx, if_true]
            exact ⟨h₁, h₂, h₃, h₄⟩
          · simp only [hx]
            apply ih
            exact ⟨by simp only [h₁], by simp only [h₂], by simp only [h₃], h₄⟩

theorem ddirmnom_cols_ok (P : Prims α) (x alpha : NumericMatrix α) (i : Nat)
    (hn : 0 < x.nrow) (hna : 0 < alpha.nrow) :
    ∀ (r j : Nat) (s : RowState α), ∃ t, ddirmnom_cols P x alpha i r j s = Except.ok t := by
  intro r
  induction r with
  | zero => intro j s; exact ⟨s, rfl⟩
  | succ r ih =>
    intro j s
    simp only [ddirmnom_cols, imod_pos i _ hna, imod_pos i _ hn]
    split
    · exact ⟨_, rfl⟩
    · split
      · exact ⟨_, rfl⟩
      · exact ih _ _

theorem ddirmnom_body_eq (P : Prims α) (x : NumericMatrix α) (size : List (Dbl α))
    (alpha : NumericMatrix α) (hn : 0 < x.nrow) (hna : 0 < alpha.nrow)
    (hns : 0 < size.length) (i : Nat) (st : Result α) :
    ddirmnom_body P x size alpha i st =
      Except.ok ⟨st.out.set i (ddirmnom_row P x size alpha i).1,
        st.warnings ++ (ddirmnom_row P x size alpha i).2⟩ := by
  obtain ⟨t₁, h₁⟩ := ddirmnom_cols_ok P x alpha i hn hna x.ncol 0
    ⟨vget st.out i, Dbl.fin 0, Dbl.fin 0, Dbl.fin 0, false⟩
  obtain ⟨t₂, h₂⟩ := ddirmnom_cols_ok P x alpha i hn hna x.ncol 0
    ⟨vget (List.replicate (i + 1) (Dbl.fin 0)) i, Dbl.fin 0, Dbl.fin 0, Dbl.fin 0, false⟩
  have hag := ddirmnom_cols_agree P x alpha i x.ncol 0
    ⟨vget st.out i, Dbl.fin 0, Dbl.fin 0, Dbl.fin 0, false⟩
    ⟨vget (List.replicate (i + 1) (Dbl.fin 0)) i, Dbl.fin 0, Dbl.fin 0, Dbl.fin 0, false⟩
    ⟨rfl, rfl, rfl, rfl⟩
  rw [h₁, h₂] at hag
  obtain ⟨a₁, a₂, a₃, a₄⟩ := hag
  have hlen : i < (List.replicate (i + 1) (Dbl.fin (0 : α))).length := by simp
  simp only [ddirmnom_row, stepOf, ddirmnom_body, h₁, h₂, imod_pos i _ hns, a₁, a₂, a₃, a₄]
  by_cases hw : t₂.wrong_alpha = true
  · simp [hw, vget_set_self _ _ _ hlen]
  · by_cases ht : P.tol_equal t₂.sum_x (vget size (i % size.length)) = true
    · simp [hw, ht, vget_set_self _ _ _ hlen]
    · simp [hw, ht, vget_set_self _ _ _ hlen]

/-- The log-scale vector `cpp_ddirmnom` builds in its main loop. -/
theorem ddirmnom_run (P : Prims α) (x : NumericMatrix α) (size : List (Dbl α))
    (alpha : NumericMatrix α) (log_prob : Bool) (hn : 0 < x.nrow) (hna : 0 < alpha.nrow)
    (hns : 0 < size.length) (hm : 2 ≤ x.ncol) (hk : x.ncol ≤ alpha.ncol) :
    cpp_ddirmnom P x size alpha log_prob =
      Except.ok
        ⟨if log_prob then
            (List.range (max x.nrow (max alpha.nrow size.length))).map
              (fun i => (ddirmnom_row P x size alpha i).1)
          else
            (((List.range (max x.nrow (max alpha.nrow size.length))).map
              (fun i => (ddirmnom_row P x size alpha i).1)).take x.nrow).map P.exp ++
            ((List.range (max x.nrow (max alpha.nrow size.length))).map
              (fun i => (ddirmnom_row P x size alpha i).1)).drop x.nrow,
          ((List.range (max x.nrow (max alpha.nrow size.length))).map
            (fun i => (ddirmnom_row P x size alpha i).2)).flatten⟩ := by
  have hmin : min x.ncol alpha.ncol = x.ncol := Nat.min_eq_left hk
  have hloop := forLoop_result (ddirmnom_body P x size alpha)
    (fun i => (ddirmnom_row P x size alpha i).1) (fun i => (ddirmnom_row P x size alpha i).2)
    (ddirmnom_body_eq P x size alpha hn hna hns)
    (max x.nrow (max alpha.nrow size.length))
    ⟨List.replicate (max x.nrow (max alpha.nrow size.length)) (Dbl.fin 0), []⟩ (by simp)
  simp only [cpp_ddirmnom, hmin, hloop]
  have h2 : ¬ x.ncol < 2 := Nat.not_lt.mpr hm
  simp only [h2, if_false, ne_eq, not_true_eq_false, List.drop_replicate, Nat.sub_self,
    List.replicate_zero, List.append_nil, List.nil_append]
  cases log_prob with
  | true => simp
  | false =>
    simp only [Bool.not_false, if_true]
    rw [forLoop_mapAt]
    · simp
    · simp

theorem ddirmnom_cols_wrong_alpha (P : Prims α) (x alpha : NumericMatrix α) (i : Nat)
    (hn : 0 < x.nrow) (hna : 0 < alpha.nrow) :
    ∀ (r j₀ : Nat) (s : RowState α),
      (∃ j, j₀ ≤ j ∧ j < j₀ + r ∧
        Dbl.le (alpha.elem (i % alpha.nrow) j) (Dbl.fin 0) = true ∧
        ∀ c, j₀ ≤ c → c < j →
          (Dbl.lt (x.elem (i % x.nrow) c) (Dbl.fin 0) ||
            !P.isInteger (x.elem (i % x.nrow) c)) = false) →
      ∃ t, ddirmnom_cols P x alpha i r j₀ s = Except.ok t ∧ t.wrong_alpha = true := by
  intro r
  induction r with
  | zero =>
    intro j₀ s h
    obtain ⟨j, h₁, h₂, _⟩ := h
    omega
  | succ r ih =>
    intro j₀ s h
    obtain ⟨j, h₁, h₂, h₃, h₄⟩ := h
    simp only [ddirmnom_cols, imod_pos i _ hna, imod_pos i _ hn]
    by_cases ha : Dbl.le (alpha.elem (i % alpha.nrow) j₀) (Dbl.fin 0) = true
    · simp only [ha, if_true]
      exact ⟨_, rfl, rfl⟩
    · have hne : j₀ ≠ j := fun e => ha (e ▸ h₃)
      have hlt : j₀ < j := Nat.lt_of_le_of_ne h₁ hne
      simp only [ha, h₄ j₀ (Nat.le_refl _) hlt]
      exact ih (j₀ + 1) _ ⟨j, hlt, by omega, h₃, fun c hc₁ hc₂ => h₄ c (by omega) hc₂⟩

theorem ddirmnom_row_wrong_alpha (P : Prims α) (x : NumericMatrix α) (size : List (Dbl α))
    (alpha : NumericMatrix α) (i : Nat) (hn : 0 < x.nrow) (hna : 0 < alpha.nrow)
    (j : Nat) (hj : j < x.ncol)
    (hα : Dbl.le (alpha.elem (i % alpha.nrow) j) (Dbl.fin 0) = true)
    (hx : ∀ c, c < j →
      (Dbl.lt (x.elem (i % x.nrow) c) (Dbl.fin 0) ||
        !P.isInteger (x.elem (i % x.nrow) c)) = false) :
    ddirmnom_row P x size alpha i = (Dbl.nan, ["NaNs produced"]) := by
  obtain ⟨t, ht, hw⟩ := ddirmnom_cols_wrong_alpha P x alpha i hn hna x.ncol 0
    ⟨vget (List.replicate (i + 1) (Dbl.fin 0)) i, Dbl.fin 0, Dbl.fin 0, Dbl.fin 0, false⟩
    ⟨j, Nat.zero_le _, by omega, hα, fun c _ hc => hx c hc⟩
  have hlen : i < (List.replicate (i + 1) (Dbl.fin (0 : α))).length := by simp
  simp [ddirmnom_row, stepOf, ddirmnom_body, ht, hw, vget_set_self _ _ _ hlen]

theorem vget_take_map_drop {β : Type} (f : Dbl β → Dbl β) (l : List (Dbl β)) (n i : Nat)
    (hn : n ≤ l.length) :
    vget ((l.take n).map f ++ l.drop n) i = if i < n then f (vget l i) else vget l i := by
  have hlen : ((l.take n).map f).length = n := by simp [Nat.min_eq_left hn]
  by_cases hi : i < n
  · have hil : i < l.length := Nat.lt_of_lt_of_le hi hn
    simp only [vget, List.getD_eq_getElem?_getD, hi, if_true]
    rw [List.getElem?_append_left (by rw [hlen]; exact hi)]
    simp [List.getElem?_take, hi, hil]
  · simp only [vget, List.getD_eq_getElem?_getD, hi, if_false]
    rw [List.getElem?_append_right (by rw [hlen]; exact Nat.le_of_not_lt hi), hlen]
    simp
    congr 2
    omega

end Dirmnom

/-! ## The loops of the zero-inflated Poisson operations -/

section Zip

variable {α : Type} [LinearOrderedField α]

/-- The warnings one kernel call of the zero-inflated Poisson family adds. -/
theorem pdf_zip_split (P : Prims α) (x lambda pi : Dbl α) (w : List String) :
    pdf_zip P x lambda pi w =
      ((pdf_zip P x lambda pi []).1,
        w ++ if zip_invalid lambda pi then ["NaNs produced"] else []) := by
  unfold pdf_zip
  split
  · simp
  · split
    · simp
    · split <;> simp

theorem cdf_zip_split (P : Prims α) (x lambda pi : Dbl α) (w : List String) :
    cdf_zip P x lambda pi w =
      ((cdf_zip P x lambda pi []).1,
        w ++ if zip_invalid lambda pi then ["NaNs produced"] else []) := by
  unfold cdf_zip
  split
  · simp
  · split <;> simp

theorem invcdf_zip_split (P : Prims α) (p lambda pi : Dbl α) (w : List String) :
    invcdf_zip P p lambda pi w =
      ((invcdf_zip P p lambda pi []).1,
        w ++ if zip_invalid lambda pi || Dbl.lt p (Dbl.fin 0) || Dbl.lt (Dbl.fin 1) p
          then ["NaNs produced"] else []) := by
  unfold invcdf_zip
  split
  · simp
  · split <;> simp

theorem rng_zip_warn {G : Type} (R : Rng α G) (lambda pi : Dbl α) (w : List String) (g : G) :
    (rng_zip R lambda pi w g).2.1 =
      w ++ if zip_invalid lambda pi then ["NaNs produced"] else [] := by
  unfold rng_zip
  split
  · simp
  · simp only []
    split <;> simp

theorem zip_body_eq (kernel : Dbl α → Dbl α → Dbl α → List String → Dbl α × List String)
    (bad : Dbl α → Dbl α → Dbl α → Bool)
    (hk : ∀ a b c w, kernel a b c w =
      ((kernel a b c []).1, w ++ if bad a b c then ["NaNs produced"] else []))
    (x lambda pi : List (Dbl α)) (hx : 0 < x.length) (hl : 0 < lambda.length)
    (hp : 0 < pi.length) (i : Nat) (st : Result α) :
    zip_body kernel x lambda pi i st =
      Except.ok ⟨st.out.set i
          (kernel (vget x (i % x.length)) (vget lambda (i % lambda.length))
            (vget pi (i % pi.length)) []).1,
        st.warnings ++
          if bad (vget x (i % x.length)) (vget lambda (i % lambda.length))
            (vget pi (i % pi.length)) then ["NaNs produced"] else []⟩ := by
  simp only [zip_body, imod_pos i _ hx, imod_pos i _ hl, imod_pos i _ hp]
  rw [hk]

theorem zip_loop (kernel : Dbl α → Dbl α → Dbl α → List String → Dbl α × List String)
    (bad : Dbl α → Dbl α → Dbl α → Bool)
    (hk : ∀ a b c w, kernel a b c w =
      ((kernel a b c []).1, w ++ if bad a b c then ["NaNs produced"] else []))
    (x lambda pi : List (Dbl α)) (hx : 0 < x.length) (hl : 0 < lambda.length)
    (hp : 0 < pi.length) (n : Nat) (w : List String) :
    forLoop (zip_body kernel x lambda pi) n ⟨List.replicate n (Dbl.fin 0), w⟩ =
      Except.ok ⟨(List.range n).map (fun i =>
          (kernel (vget x (i % x.length)) (vget lambda (i % lambda.length))
            (vget pi (i % pi.length)) []).1),
        w ++ ((List.range n).map (fun i =>
          if bad (vget x (i % x.length)) (vget lambda (i % lambda.length))
            (vget pi (i % pi.length)) then ["NaNs produced"] else [])).flatten⟩ := by
  rw [forLoop_result _ _ _ (zip_body_eq kernel bad hk x lambda pi hx hl hp) n _ (by simp)]
  simp

/-- The number of warnings in a list of per-position warnings, each empty or a
single message. -/
theorem length_flatten_ite {β : Type} (l : List Nat) (c : Nat → Bool) (m : β) :
    ((l.map (fun i => if c i then [m] else [])).flatten).length = l.countP c := by
  induction l with
  | nil => rfl
  | cons a t ih =>
    by_cases h : c a = true
    · simp [h, ih, List.countP_cons_of_pos, Nat.add_comm]
    · simp [h, ih]

theorem forLoop_mapAt_len {β : Type} (f : Dbl β → Dbl β) (n : Nat) (p : List (Dbl β))
    (w : List String) (h : p.length = n) :
    forLoop (mapAt f) n ⟨p, w⟩ = Except.ok ⟨p.map f, w⟩ := by
  subst h
  exact forLoop_mapAt_full f p w

/-- The vector and the warnings `cpp_dzip` returns on non-empty inputs. -/
theorem cpp_dzip_run (P : Prims α) (x lambda pi : List (Dbl α)) (log_prob : Bool)
    (hx : 0 < x.length) (hl : 0 < lambda.length) (hp : 0 < pi.length) :
    cpp_dzip P x lambda pi log_prob =
      Except.ok
        ⟨(List.range (max x.length (max pi.length lambda.length))).map (fun i =>
            (if log_prob then P.log else id)
              (pdf_zip P (vget x (i % x.length)) (vget lambda (i % lambda.length))
                (vget pi (i % pi.length)) []).1),
          ((List.range (max x.length (max pi.length lambda.length))).map (fun i =>
            if zip_invalid (vget lambda (i % lambda.length)) (vget pi (i % pi.length))
              then ["NaNs produced"] else [])).flatten⟩ := by
  simp only [cpp_dzip]
  rw [zip_loop (pdf_zip P) (fun _ b c => zip_invalid b c) (pdf_zip_split P) x lambda pi hx hl hp]
  cases log_prob with
  | false => simp
  | true =>
    simp only [if_true, List.nil_append]
    rw [forLoop_mapAt_len _ _ _ _ (by simp)]
    simp

/-- The vector and the warnings `cpp_pzip` returns on non-empty inputs. -/
theorem cpp_pzip_run (P : Prims α) (x lambda pi : List (Dbl α)) (lower_tail log_prob : Bool)
    (hx : 0 < x.length) (hl : 0 < lambda.length) (hp : 0 < pi.length) :
    cpp_pzip P x lambda pi lower_tail log_prob =
      Except.ok
        ⟨(List.range (max x.length (max pi.length lambda.length))).map (fun i =>
            (if log_prob then P.log else id)
              ((if lower_tail then id else fun v => Dbl.fin 1 - v)
                (cdf_zip P (vget x (i % x.length)) (vget lambda (i % lambda.length))
                  (vget pi (i % pi.length)) []).1)),
          ((List.range (max x.length (max pi.length lambda.length))).map (fun i =>
            if zip_invalid (vget lambda (i % lambda.length)) (vget pi (i % pi.length))
              then ["NaNs produced"] else [])).flatten⟩ := by
  simp only [cpp_pzip]
  rw [zip_loop (cdf_zip P) (fun _ b c => zip_invalid b c) (cdf_zip_split P) x lambda pi hx hl hp]
  cases lower_tail <;> cases log_prob <;>
    simp [forLoop_mapAt_len]

theorem map_adjusted (P : Prims α) (lower_tail log_prob : Bool) (p : List (Dbl α)) :
    p.map (adjusted P lower_tail log_prob) =
      (if lower_tail then id else List.map (complement P))
        ((if log_prob then List.map P.exp else id) p) := by
  have h : adjusted P lower_tail log_prob =
      (if lower_tail then id else complement P) ∘ (if log_prob then P.exp else id) := rfl
  rw [h, ← List.map_map]
  cases lower_tail <;> cases log_prob <;> simp

theorem Param.read_length_map (a : Param α) (f : Dbl α → Dbl α) (p : List (Dbl α)) :
    (a.read (p.map f)).length = (a.read p).length := by
  cases a <;> simp [Param.read]

theorem vget_map_mod (f : Dbl α → Dbl α) (p : List (Dbl α)) (hx : 0 < p.length) (i : Nat) :
    vget (p.map f) (i % (p.map f).length) = f (vget p (i % p.length)) := by
  have hmod : i % p.length < p.length := Nat.mod_lt _ hx
  simp [vget, List.getD_eq_getElem?_getD, hmod]

/-- The adjustment loops of `cpp_qzip` leave in `p` the adjusted probabilities. -/
theorem cpp_qzip_adjust (P : Prims α) (p : List (Dbl α)) (lambda pi : Param α)
    (lower_tail log_prob : Bool) :
    cpp_qzip P p lambda pi lower_tail log_prob =
      match forLoop (zip_body (invcdf_zip P) (p.map (adjusted P lower_tail log_prob))
          (lambda.read (p.map (adjusted P lower_tail log_prob)))
          (pi.read (p.map (adjusted P lower_tail log_prob))))
          (max p.length (max (pi.read p).length (lambda.read p).length))
          ⟨List.replicate (max p.length (max (pi.read p).length (lambda.read p).length))
            (Dbl.fin 0), []⟩ with
      | Except.error e => Except.error e
      | Except.ok st => Except.ok ⟨st, p.map (adjusted P lower_tail log_prob)⟩ := by
  rw [map_adjusted]
  simp only [cpp_qzip]
  cases lower_tail <;> cases log_prob <;>
    simp only [forLoop_mapAt_full, forLoop_mapAt_len, List.length_map, if_true, if_false,
      Bool.not_true, Bool.not_false, Bool.false_eq_true, id]

/-- The vector and the warnings `cpp_qzip` returns on non-empty inputs, and the
contents of `p` after the call. -/
theorem cpp_qzip_run (P : Prims α) (p : List (Dbl α)) (lambda pi : Param α)
    (lower_tail log_prob : Bool)
    (hx : 0 < p.length) (hl : 0 < (lambda.read p).length) (hp : 0 < (pi.read p).length) :
    cpp_qzip P p lambda pi lower_tail log_prob =
      Except.ok
        ⟨⟨(List.range (max p.length (max (pi.read p).length (lambda.read p).length))).map
            (fun i =>
              (invcdf_zip P (adjusted P lower_tail log_prob (vget p (i % p.length)))
                (vget (lambda.read (p.map (adjusted P lower_tail log_prob)))
                  (i % (lambda.read p).length))
                (vget (pi.read (p.map (adjusted P lower_tail log_prob)))
                  (i % (pi.read p).length)) []).1),
          ((List.range (max p.length (max (pi.read p).length (lambda.read p).length))).map
            (fun i =>
              if zip_invalid
                    (vget (lambda.read (p.map (adjusted P lower_tail log_prob)))
                      (i % (lambda.read p).length))
                    (vget (pi.read (p.map (adjusted P lower_tail log_prob)))
                      (i % (pi.read p).length)) ||
                  Dbl.lt (adjusted P lower_tail log_prob (vget p (i % p.length))) (Dbl.fin 0) ||
                  Dbl.lt (Dbl.fin 1) (adjusted P lower_tail log_prob (vget p (i % p.length)))
              then ["NaNs produced"] else [])).flatten⟩,
          p.map (adjusted P lower_tail log_prob)⟩ := by
  rw [cpp_qzip_adjust,
    zip_loop (invcdf_zip P)
      (fun a b c => zip_invalid b c || Dbl.lt a (Dbl.fin 0) || Dbl.lt (Dbl.fin 1) a)
      (invcdf_zip_split P) _ _ _ (by simpa using hx)
      (by rw [Param.read_length_map]; exact hl) (by rw [Param.read_length_map]; exact hp)]
  simp only [vget_map_mod _ _ hx, Param.read_length_map, List.nil_append]

end Zip

/-! ## The loops of the random generators and of the half-normal operations -/

section Hnorm

variable {α : Type} [LinearOrderedField α]

/-- The warnings `cpp_rzip` raises on non-empty parameters. -/
theorem cpp_rzip_run {G : Type} (R : Rng α G) (n : Nat) (lambda pi : List (Dbl α)) (g : G)
    (hl : 0 < lambda.length) (hp : 0 < pi.length) :
    ∃ st, cpp_rzip R n lambda pi g = Except.ok st ∧
      st.warn = ((List.range n).map (fun i =>
        if zip_invalid (vget lambda (i % lambda.length)) (vget pi (i % pi.length))
          then ["NaNs produced"] else [])).flatten := by
  have hbody : ∀ k (s : RngState α G (List String)),
      rzip_body R lambda pi k s =
        Except.ok ⟨s.out.set k
            (rng_zip R (vget lambda (k % lambda.length)) (vget pi (k % pi.length)) s.warn s.gen).1,
          (rng_zip R (vget lambda (k % lambda.length)) (vget pi (k % pi.length)) s.warn s.gen).2.1,
          (rng_zip R (vget lambda (k % lambda.length)) (vget pi (k % pi.length)) s.warn s.gen).2.2⟩ := by
    intro k s
    simp only [rzip_body, imod_pos k _ hl, imod_pos k _ hp]
  refine ⟨_, forLoop_eq_iter _ n (fun k _ s => ⟨_, hbody k s⟩) _, ?_⟩
  have h := iter_append RngState.warn (stepOf (rzip_body R lambda pi))
    (fun i => if zip_invalid (vget lambda (i % lambda.length)) (vget pi (i % pi.length))
      then ["NaNs produced"] else [])
    (fun k s => by simp only [stepOf, hbody, rng_zip_warn]) n
    ⟨List.replicate n (Dbl.fin 0), [], g⟩
  simpa using h

theorem pdf_hnorm_split (P : Prims α) (x sigma : Dbl α) (t : Bool) :
    pdf_hnorm P x sigma t =
      ((pdf_hnorm P x sigma false).1,
        t || (!(Dbl.isNaN x || Dbl.isNaN sigma) && Dbl.le sigma (Dbl.fin 0))) := by
  unfold pdf_hnorm
  cases hx : Dbl.isNaN x <;> cases hs : Dbl.isNaN sigma <;>
    cases hl : Dbl.le sigma (Dbl.fin 0) <;> simp
  split <;> simp

theorem cdf_hnorm_split (P : Prims α) (x sigma : Dbl α) (t : Bool) :
    cdf_hnorm P x sigma t =
      ((cdf_hnorm P x sigma false).1,
        t || (!(Dbl.isNaN x || Dbl.isNaN sigma) && Dbl.le sigma (Dbl.fin 0))) := by
  unfold cdf_hnorm
  cases hx : Dbl.isNaN x <;> cases hs : Dbl.isNaN sigma <;>
    cases hl : Dbl.le sigma (Dbl.fin 0) <;> simp
  split <;> simp

theorem invcdf_hnorm_split (P : Prims α) (p sigma : Dbl α) (t : Bool) :
    invcdf_hnorm P p sigma t =
      ((invcdf_hnorm P p sigma false).1,
        t || (!(Dbl.isNaN p || Dbl.isNaN sigma) &&
          (Dbl.le sigma (Dbl.fin 0) || !VALID_PROB p))) := by
  unfold invcdf_hnorm
  cases hx : Dbl.isNaN p <;> cases hs : Dbl.isNaN sigma <;>
    cases hl : Dbl.le sigma (Dbl.fin 0) <;> cases hv : VALID_PROB p <;> simp

theorem rng_hnorm_flag {G : Type} (R : Rng α G) (sigma : Dbl α) (t : Bool) (g : G) :
    (rng_hnorm R sigma t g).2.1 = (t || (Dbl.isNaN sigma || Dbl.le sigma (Dbl.fin 0))) := by
  unfold rng_hnorm
  split
  · simp_all
  · simp_all

theorem GETV_pos (x : List (Dbl α)) (i : Nat) (h : 0 < x.length) :
    GETV x i = Except.ok (vget x (i % x.length)) := by
  simp only [GETV, imod_pos i _ h]

theorem forLoop_flag (body : Nat → FlagState α → Except Fault (FlagState α))
    (f : Nat → Dbl α) (g : Nat → Bool)
    (h : ∀ i st, body i st = Except.ok ⟨st.out.set i (f i), st.flag || g i⟩)
    (n : Nat) (st : FlagState α) (hn : n ≤ st.out.length) :
    forLoop body n st =
      Except.ok ⟨(List.range n).map f ++ st.out.drop n, st.flag || (List.range n).any g⟩ := by
  rw [forLoop_eq_iter body n (fun k _ s => ⟨_, h k s⟩) st]
  have hstep : ∀ k s, stepOf body k s = ⟨s.out.set k (f k), s.flag || g k⟩ := by
    intro k s; simp only [stepOf, h]
  have h₁ := iter_out FlagState.out (stepOf body) (fun k _ => f k)
    (fun k s => by rw [hstep]) n st hn
  have h₂ := iter_or FlagState.flag (stepOf body) g (fun k s => by rw [hstep]) n st
  rw [← h₁, ← h₂]

theorem hnorm_loop (kernel : Dbl α → Dbl α → Bool → Dbl α × Bool)
    (bad : Dbl α → Dbl α → Bool)
    (hk : ∀ a b t, kernel a b t = ((kernel a b false).1, t || bad a b))
    (x sigma : List (Dbl α)) (hx : 0 < x.length) (hs : 0 < sigma.length) (n : Nat) :
    forLoop (hnorm_body kernel x sigma) n ⟨List.replicate n (Dbl.fin 0), false⟩ =
      Except.ok ⟨(List.range n).map (fun i =>
          (kernel (vget x (i % x.length)) (vget sigma (i % sigma.length)) false).1),
        (List.range n).any (fun i =>
          bad (vget x (i % x.length)) (vget sigma (i % sigma.length)))⟩ := by
  rw [forLoop_flag _
    (fun i => (kernel (vget x (i % x.length)) (vget sigma (i % sigma.length)) false).1)
    (fun i => bad (vget x (i % x.length)) (vget sigma (i % sigma.length)))
    (fun i st => by
      simp only [hnorm_body, GETV_pos x i hx, GETV_pos sigma i hs]
      rw [hk]) n _ (by simp)]
  simp

/-- The vector and the warnings `cpp_dhnorm` returns on non-empty inputs. -/
theorem cpp_dhnorm_run (P : Prims α) (x sigma : List (Dbl α)) (log_prob : Bool)
    (hx : 0 < x.length) (hs : 0 < sigma.length) :
    cpp_dhnorm P x sigma log_prob =
      Except.ok
        ⟨(List.range (max x.length sigma.length)).map (fun i =>
            (if log_prob then P.log else id)
              (pdf_hnorm P (vget x (i % x.length)) (vget sigma (i % sigma.length)) false).1),
          raise ((List.range (max x.length sigma.length)).any (fun i =>
            !(Dbl.isNaN (vget x (i % x.length)) || Dbl.isNaN (vget sigma (i % sigma.length))) &&
              Dbl.le (vget sigma (i % sigma.length)) (Dbl.fin 0))) "NaNs produced"⟩ := by
  simp only [cpp_dhnorm]
  rw [hnorm_loop (pdf_hnorm P) _ (pdf_hnorm_split P) x sigma hx hs]
  cases log_prob <;> simp

/-- The vector and the warnings `cpp_phnorm` returns on non-empty inputs. -/
theorem cpp_phnorm_run (P : Prims α) (x sigma : List (Dbl α)) (lower_tail log_prob : Bool)
    (hx : 0 < x.length) (hs : 0 < sigma.length) :
    cpp_phnorm P x sigma lower_tail log_prob =
      Except.ok
        ⟨(List.range (max x.length sigma.length)).map (fun i =>
            (if log_prob then P.log else id)
              ((if lower_tail then id else fun v => Dbl.fin 1 - v)
                (cdf_hnorm P (vget x (i % x.length)) (vget sigma (i % sigma.length)) false).1)),
          raise ((List.range (max x.length sigma.length)).any (fun i =>
            !(Dbl.isNaN (vget x (i % x.length)) || Dbl.isNaN (vget sigma (i % sigma.length))) &&
              Dbl.le (vget sigma (i % sigma.length)) (Dbl.fin 0))) "NaNs produced"⟩ := by
  simp only [cpp_phnorm]
  rw [hnorm_loop (cdf_hnorm P) _ (cdf_hnorm_split P) x sigma hx hs]
  cases lower_tail <;> cases log_prob <;> simp

/-- The vector and the warnings `cpp_qhnorm` returns on non-empty inputs. -/
theorem cpp_qhnorm_run (P : Prims α) (p sigma : List (Dbl α)) (lower_tail log_prob : Bool)
    (hx : 0 < p.length) (hs : 0 < sigma.length) :
    cpp_qhnorm P p sigma lower_tail log_prob =
      Except.ok
        ⟨(List.range (max p.length sigma.length)).map (fun i =>
            (invcdf_hnorm P (adjusted P lower_tail log_prob (vget p (i % p.length)))
              (vget sigma (i % sigma.length)) false).1),
          raise ((List.range (max p.length sigma.length)).any (fun i =>
            !(Dbl.isNaN (adjusted P lower_tail log_prob (vget p (i % p.length))) ||
              Dbl.isNaN (vget sigma (i % sigma.length))) &&
              (Dbl.le (vget sigma (i % sigma.length)) (Dbl.fin 0) ||
                !VALID_PROB (adjusted P lower_tail log_prob (vget p (i % p.length))))))
            "NaNs produced"⟩ := by
  have hpp : (if !lower_tail then
        (if log_prob then p.map P.exp else p).map (complement P)
      else (if log_prob then p.map P.exp else p)) = p.map (adjusted P lower_tail log_prob) := by
    rw [map_adjusted]
    cases lower_tail <;> cases log_prob <;> simp
  simp only [cpp_qhnorm, hpp]
  rw [hnorm_loop (invcdf_hnorm P) _ (invcdf_hnorm_split P) _ sigma (by simpa using hx) hs]
  simp only [vget_map_mod _ _ hx]

/-- The warnings `cpp_rhnorm` raises on a non-empty `sigma`. -/
theorem cpp_rhnorm_run {G : Type} (R : Rng α G) (n : Nat) (sigma : List (Dbl α)) (g : G)
    (hs : 0 < sigma.length) :
    ∃ st, cpp_rhnorm R n sigma g = Except.ok st ∧
      st.warn = raise ((List.range n).any (fun i =>
        Dbl.isNaN (vget sigma (i % sigma.length)) ||
          Dbl.le (vget sigma (i % sigma.length)) (Dbl.fin 0))) "NAs produced" := by
  have hbody : ∀ k (s : RngState α G Bool),
      rhnorm_body R sigma k s =
        Except.ok ⟨s.out.set k (rng_hnorm R (vget sigma (k % sigma.length)) s.warn s.gen).1,
          (rng_hnorm R (vget sigma (k % sigma.length)) s.warn s.gen).2.1,
          (rng_hnorm R (vget sigma (k % sigma.length)) s.warn s.gen).2.2⟩ := by
    intro k s
    simp only [rhnorm_body, GETV_pos sigma k hs]
  have hrun := forLoop_eq_iter (rhnorm_body R sigma) n (fun k _ s => ⟨_, hbody k s⟩)
    ⟨List.replicate n (Dbl.fin 0), false, g⟩
  have h := iter_or RngState.warn (stepOf (rhnorm_body R sigma))
    (fun i => Dbl.isNaN (vget sigma (i % sigma.length)) ||
      Dbl.le (vget sigma (i % sigma.length)) (Dbl.fin 0))
    (fun k s => by simp only [stepOf, hbody, rng_hnorm_flag]) n
    ⟨List.replicate n (Dbl.fin 0), false, g⟩
  simp only [cpp_rhnorm, hrun]
  refine ⟨_, rfl, ?_⟩
  simp only [h, Bool.false_or]

theorem raise_length_le (b : Bool) (m : String) : (raise b m).length ≤ 1 := by
  cases b <;> simp [raise]

theorem raise_length_eq_one (b : Bool) (m : String) : (raise b m).length = 1 ↔ b = true := by
  cases b <;> simp [raise]

theorem ddirmnom_row_warn (P : Prims α) (x : NumericMatrix α) (size : List (Dbl α))
    (alpha : NumericMatrix α) (i : Nat) :
    (ddirmnom_row P x size alpha i).2 =
      if decide ((ddirmnom_row P x size alpha i).2 ≠ []) then ["NaNs produced"] else [] := by
  have key : (ddirmnom_row P x size alpha i).2 = [] ∨
      (ddirmnom_row P x size alpha i).2 = ["NaNs produced"] := by
    simp only [ddirmnom_row, stepOf, ddirmnom_body]
    generalize ddirmnom_cols P x alpha i x.ncol 0 _ = c
    cases c with
    | error e => exact Or.inl rfl
    | ok s =>
      by_cases hw : s.wrong_alpha = true
      · simp [hw]
      · cases hmod : imod i size.length with
        | error e => simp [hw]
        | ok k =>
          by_cases ht : P.tol_equal s.sum_x (vget size k) = true
          · simp [hw, ht]
          · simp [hw, ht]
  rcases key with h | h <;> simp [h]

theorem zip_body_fault (kernel : Dbl α → Dbl α → Dbl α → List String → Dbl α × List String)
    (x lambda pi : List (Dbl α)) (h : x = [] ∨ lambda = [] ∨ pi = []) (i : Nat)
    (st : Result α) :
    zip_body kernel x lambda pi i st = Except.error Fault.modZero := by
  unfold zip_body
  cases x with
  | nil => simp [imod]
  | cons a x =>
    cases lambda with
    | nil => simp [imod]
    | cons b lambda =>
      cases pi with
      | nil => simp [imod]
      | cons c pi => simp at h

theorem hnorm_body_fault (kernel : Dbl α → Dbl α → Bool → Dbl α × Bool)
    (x sigma : List (Dbl α)) (h : x = [] ∨ sigma = []) (i : Nat) (st : FlagState α) :
    hnorm_body kernel x sigma i st = Except.error Fault.modZero := by
  unfold hnorm_body GETV
  cases x with
  | nil => simp [imod]
  | cons a x =>
    cases sigma with
    | nil => simp [imod]
    | cons b sigma => simp at h

end Hnorm

/-! ## Valid rows of `cpp_ddirmnom` -/

section DirmnomValid

variable {α : Type} [LinearOrderedField α]

theorem Dbl.le_zero_of_pos (a : Dbl α) (h : Dbl.lt (Dbl.fin 0) a = true) :
    Dbl.le a (Dbl.fin 0) = false := by
  cases a with
  | nan => rfl
  | ninf => simp [Dbl.lt] at h
  | pinf => rfl
  | fin v =>
    simp only [Dbl.lt_fin_fin, decide_eq_true_eq] at h
    simp [not_le.mpr h]

/-- On a row that passes both tests in every column the inner loop runs to the
end and leaves the three sums over the columns it was given. -/
theorem ddirmnom_cols_valid (P : Prims α) (x alpha : NumericMatrix α) (i : Nat)
    (hn : 0 < x.nrow) (hna : 0 < alpha.nrow) :
    ∀ (r j₀ : Nat) (s : RowState α),
      (∀ c, j₀ ≤ c → c < j₀ + r →
        Dbl.le (alpha.elem (i % alpha.nrow) c) (Dbl.fin 0) = false ∧
        (Dbl.lt (x.elem (i % x.nrow) c) (Dbl.fin 0) ||
          !P.isInteger (x.elem (i % x.nrow) c)) = false) →
      ddirmnom_cols P x alpha i r j₀ s =
        Except.ok
          ⟨s.p_i,
            (List.range' j₀ r).foldl (fun acc j => acc +
              (P.lgammafn (x.elem (i % x.nrow) j + alpha.elem (i % alpha.nrow) j) -
                (P.lfactorial (x.elem (i % x.nrow) j) +
                  P.lgammafn (alpha.elem (i % alpha.nrow) j)))) s.prod_tmp,
            (List.range' j₀ r).foldl (fun acc j => acc + alpha.elem (i % alpha.nrow) j)
              s.sum_alpha,
            (List.range' j₀ r).foldl (fun acc j => acc + x.elem (i % x.nrow) j) s.sum_x,
            s.wrong_alpha⟩ := by
  intro r
  induction r with
  | zero => intro j₀ s _; rfl
  | succ r ih =>
    intro j₀ s h
    obtain ⟨ha, hx⟩ := h j₀ (Nat.le_refl _) (by omega)
    simp only [ddirmnom_cols, imod_pos i _ hna, imod_pos i _ hn, ha, hx]
    rw [ih (j₀ + 1) _ (fun c hc₁ hc₂ => h c (by omega) (by omega))]
    simp [List.range'_succ]

/-- What the pass at a position with a valid row writes and raises. -/
theorem ddirmnom_row_valid (P : Prims α) (x : NumericMatrix α) (size : List (Dbl α))
    (alpha : NumericMatrix α) (i : Nat) (hn : 0 < x.nrow) (hna : 0 < alpha.nrow)
    (hns : 0 < size.length)
    (h : ∀ c, c < x.ncol →
      Dbl.le (alpha.elem (i % alpha.nrow) c) (Dbl.fin 0) = false ∧
      (Dbl.lt (x.elem (i % x.nrow) c) (Dbl.fin 0) ||
        !P.isInteger (x.elem (i % x.nrow) c)) = false) :
    ddirmnom_row P x size alpha i =
      if P.tol_equal (sumTo (fun j => x.elem (i % x.nrow) j) x.ncol)
          (vget size (i % size.length)) then
        ((P.lfactorial (vget size (i % size.length)) +
            P.lgammafn (sumTo (fun j => alpha.elem (i % alpha.nrow) j) x.ncol)) -
          P.lgammafn (vget size (i % size.length) +
            sumTo (fun j => alpha.elem (i % alpha.nrow) j) x.ncol) +
          sumTo (fun j =>
            P.lgammafn (x.elem (i % x.nrow) j + alpha.elem (i % alpha.nrow) j) -
              (P.lfactorial (x.elem (i % x.nrow) j) +
                P.lgammafn (alpha.elem (i % alpha.nrow) j))) x.ncol, [])
      else (Dbl.nan, ["NaNs produced"]) := by
  have hcols := ddirmnom_cols_valid P x alpha i hn hna x.ncol 0
    ⟨vget (List.replicate (i + 1) (Dbl.fin 0)) i, Dbl.fin 0, Dbl.fin 0, Dbl.fin 0, false⟩
    (fun c _ hc => h c (by omega))
  have hlen : i < (List.replicate (i + 1) (Dbl.fin (0 : α))).length := by simp
  simp only [ddirmnom_row, stepOf, ddirmnom_body, hcols, imod_pos i _ hns, sumTo,
    List.range_eq_range']
  by_cases ht : P.tol_equal
      ((List.range' 0 x.ncol).foldl (fun acc j => acc + x.elem (i % x.nrow) j) (Dbl.fin 0))
      (vget size (i % size.length)) = true
  · simp [ht, vget_set_self _ _ _ hlen]
  · simp [ht, vget_set_self _ _ _ hlen]

theorem sumTo_fin (f : Nat → α) (m : Nat) :
    sumTo (fun j => Dbl.fin (f j)) m = Dbl.fin (Finset.sum (Finset.range m) f) := by
  induction m with
  | zero => simp [sumTo]
  | succ k ih =>
    simp only [sumTo] at ih
    simp [sumTo, List.range_succ, ih, Finset.sum_range_succ]

theorem sumTo_congr (u v : Nat → Dbl α) (m : Nat) (h : ∀ j, j < m → u j = v j) :
    sumTo u m = sumTo v m := by
  induction m with
  | zero => rfl
  | succ k ih =>
    have ih₁ := ih (fun j hj => h j (Nat.lt_succ_of_lt hj))
    simp only [sumTo] at ih₁
    simp [sumTo, List.range_succ, ih₁, h k (Nat.lt_succ_self k)]

/-- The log-scale value at a position whose row is valid and finite. -/
theorem ddirmnom_logpmf_at (P : Prims α) (lg : α → α) (x : NumericMatrix α)
    (size : List (Dbl α)) (alpha : NumericMatrix α)
    (hn : 0 < x.nrow) (hna : 0 < alpha.nrow) (hns : 0 < size.length)
    (hm : 2 ≤ x.ncol) (hk : x.ncol ≤ alpha.ncol)
    (i : Nat) (hi : i < max x.nrow (max alpha.nrow size.length))
    (xs as : Nat → α) (s : α)
    (hlg : ∀ t, 0 < t → P.lgammafn (Dbl.fin t) = Dbl.fin (lg t))
    (hlf : ∀ t, 0 ≤ t → P.lfactorial (Dbl.fin t) = P.lgammafn (Dbl.fin (t + 1)))
    (hx : ∀ j, j < x.ncol → x.elem (i % x.nrow) j = Dbl.fin (xs j) ∧ 0 ≤ xs j ∧
      P.isInteger (Dbl.fin (xs j)) = true)
    (ha : ∀ j, j < x.ncol → alpha.elem (i % alpha.nrow) j = Dbl.fin (as j) ∧ 0 < as j)
    (hsz : vget size (i % size.length) = Dbl.fin s) (hs : 0 ≤ s)
    (htol : P.tol_equal (Dbl.fin (Finset.sum (Finset.range x.ncol) xs)) (Dbl.fin s) = true) :
    ∃ r, cpp_ddirmnom P x size alpha true = Except.ok r ∧
      vget r.out i = Dbl.fin (logpmf_spec lg x.ncol xs as s) ∧
      (ddirmnom_row P x size alpha i).2 = [] ∧
      r.warnings = ((List.range (max x.nrow (max alpha.nrow size.length))).map
        (fun k => (ddirmnom_row P x size alpha k).2)).flatten := by
  have hvalid : ∀ c, c < x.ncol →
      Dbl.le (alpha.elem (i % alpha.nrow) c) (Dbl.fin 0) = false ∧
      (Dbl.lt (x.elem (i % x.nrow) c) (Dbl.fin 0) ||
        !P.isInteger (x.elem (i % x.nrow) c)) = false := by
    intro c hc
    obtain ⟨hx₁, hx₂, hx₃⟩ := hx c hc
    obtain ⟨ha₁, ha₂⟩ := ha c hc
    rw [hx₁, ha₁]
    simp [not_le.mpr ha₂, not_lt.mpr hx₂, hx₃]
  have hsx : sumTo (fun j => x.elem (i % x.nrow) j) x.ncol =
      Dbl.fin (Finset.sum (Finset.range x.ncol) xs) := by
    rw [sumTo_congr _ (fun j => Dbl.fin (xs j)) _ (fun j hj => (hx j hj).1), sumTo_fin]
  have hsa : sumTo (fun j => alpha.elem (i % alpha.nrow) j) x.ncol =
      Dbl.fin (Finset.sum (Finset.range x.ncol) as) := by
    rw [sumTo_congr _ (fun j => Dbl.fin (as j)) _ (fun j hj => (ha j hj).1), sumTo_fin]
  have hst : sumTo (fun j =>
      P.lgammafn (x.elem (i % x.nrow) j + alpha.elem (i % alpha.nrow) j) -
        (P.lfactorial (x.elem (i % x.nrow) j) +
          P.lgammafn (alpha.elem (i % alpha.nrow) j))) x.ncol =
      Dbl.fin (Finset.sum (Finset.range x.ncol)
        (fun j => lg (xs j + as j) - lg (xs j + 1) - lg (as j))) := by
    rw [sumTo_congr _ (fun j => Dbl.fin (lg (xs j + as j) - lg (xs j + 1) - lg (as j))) _ ?_,
      sumTo_fin]
    intro j hj
    obtain ⟨hx₁, hx₂, _⟩ := hx j hj
    obtain ⟨ha₁, ha₂⟩ := ha j hj
    rw [hx₁, ha₁, Dbl.fin_add_fin, hlf _ hx₂, hlg _ (by linarith), hlg _ (by linarith),
      hlg _ ha₂, Dbl.fin_add_fin, Dbl.fin_sub_fin]
    simp only [sub_sub]
  have hApos : 0 < Finset.sum (Finset.range x.ncol) as :=
    Finset.sum_pos (fun j hj => (ha j (Finset.mem_range.mp hj)).2)
      ⟨0, Finset.mem_range.mpr (by omega)⟩
  have hrow : ddirmnom_row P x size alpha i =
      (Dbl.fin (logpmf_spec lg x.ncol xs as s), []) := by
    rw [ddirmnom_row_valid P x size alpha i hn hna hns hvalid, hsx, hsa, hst, hsz, htol]
    simp only [if_true]
    rw [hlf _ hs, hlg _ (by linarith), hlg _ hApos, Dbl.fin_add_fin, Dbl.fin_add_fin,
      hlg _ (by linarith)]
    simp [logpmf_spec]
  rw [ddirmnom_run P x size alpha true hn hna hns hm hk]
  refine ⟨_, rfl, ?_, by rw [hrow], rfl⟩
  simp only [if_true]
  rw [vget_range_map _ _ _ hi, hrow]

end DirmnomValid

/-! ## Positions with invalid parameters -/

section Invalid

variable {α : Type} [LinearOrderedField α]

theorem Dbl.sub_nan (a : Dbl α) : (a - Dbl.nan : Dbl α) = Dbl.nan := by
  show Dbl.add a (Dbl.neg Dbl.nan) = Dbl.nan
  cases a <;> rfl

theorem pdf_zip_invalid (P : Prims α) (x lambda pi : Dbl α) (w : List String)
    (h : zip_invalid lambda pi = true) : (pdf_zip P x lambda pi w).1 = Dbl.nan := by
  simp [pdf_zip, h]

theorem cdf_zip_invalid (P : Prims α) (x lambda pi : Dbl α) (w : List String)
    (h : zip_invalid lambda pi = true) : (cdf_zip P x lambda pi w).1 = Dbl.nan := by
  simp [cdf_zip, h]

theorem invcdf_zip_invalid (P : Prims α) (p lambda pi : Dbl α) (w : List String)
    (h : (zip_invalid lambda pi || Dbl.lt p (Dbl.fin 0) || Dbl.lt (Dbl.fin 1) p) = true) :
    (invcdf_zip P p lambda pi w).1 = Dbl.nan := by
  simp only [invcdf_zip, h, if_true]

theorem rng_zip_invalid {G : Type} (R : Rng α G) (lambda pi : Dbl α) (w : List String) (g : G)
    (h : zip_invalid lambda pi = true) :
    rng_zip R lambda pi w g = (Dbl.nan, w ++ ["NaNs produced"], g) := by
  simp [rng_zip, h]

theorem pdf_hnorm_nonpos (P : Prims α) (x sigma : Dbl α) (t : Bool)
    (h : Dbl.le sigma (Dbl.fin 0) = true) : (pdf_hnorm P x sigma t).1 = Dbl.nan := by
  unfold pdf_hnorm
  cases hx : Dbl.isNaN x
  · simp [Dbl.le_not_nan _ _ h, h]
  · simp [(Dbl.isNaN_iff x).mp hx]

theorem cdf_hnorm_nonpos (P : Prims α) (x sigma : Dbl α) (t : Bool)
    (h : Dbl.le sigma (Dbl.fin 0) = true) : (cdf_hnorm P x sigma t).1 = Dbl.nan := by
  unfold cdf_hnorm
  cases hx : Dbl.isNaN x
  · simp [Dbl.le_not_nan _ _ h, h]
  · simp [(Dbl.isNaN_iff x).mp hx]

theorem invcdf_hnorm_invalid (P : Prims α) (p sigma : Dbl α) (t : Bool)
    (h : (Dbl.le sigma (Dbl.fin 0) || !VALID_PROB p) = true)
    (hs : Dbl.isNaN sigma = false) : (invcdf_hnorm P p sigma t).1 = Dbl.nan := by
  unfold invcdf_hnorm
  cases hx : Dbl.isNaN p
  · simp only [hs, Bool.or_self, Bool.false_eq_true, if_false, h, if_true]
  · simp [(Dbl.isNaN_iff p).mp hx]

theorem rng_hnorm_invalid {G : Type} (R : Rng α G) (sigma : Dbl α) (t : Bool) (g : G)
    (h : (Dbl.isNaN sigma || Dbl.le sigma (Dbl.fin 0)) = true) :
    rng_hnorm R sigma t g = (Dbl.nan, true, g) := by
  simp only [rng_hnorm, h, if_true]

theorem rzip_body_eq {G : Type} (R : Rng α G) (lambda pi : List (Dbl α))
    (hl : 0 < lambda.length) (hp : 0 < pi.length) (k : Nat) (s : RngState α G (List String)) :
    rzip_body R lambda pi k s =
      Except.ok ⟨s.out.set k
          (rng_zip R (vget lambda (k % lambda.length)) (vget pi (k % pi.length)) s.warn s.gen).1,
        (rng_zip R (vget lambda (k % lambda.length)) (vget pi (k % pi.length)) s.warn s.gen).2.1,
        (rng_zip R (vget lambda (k % lambda.length)) (vget pi (k % pi.length)) s.warn s.gen).2.2⟩ := by
  simp only [rzip_body, imod_pos k _ hl, imod_pos k _ hp]

theorem rhnorm_body_eq {G : Type} (R : Rng α G) (sigma : List (Dbl α))
    (hs : 0 < sigma.length) (k : Nat) (s : RngState α G Bool) :
    rhnorm_body R sigma k s =
      Except.ok ⟨s.out.set k (rng_hnorm R (vget sigma (k % sigma.length)) s.warn s.gen).1,
        (rng_hnorm R (vget sigma (k % sigma.length)) s.warn s.gen).2.1,
        (rng_hnorm R (vget sigma (k % sigma.length)) s.warn s.gen).2.2⟩ := by
  simp only [rhnorm_body, GETV_pos sigma k hs]

/-- The entry a loop writes at position `i` is still there at the end. -/
theorem iter_out_at {σ : Type} (out : σ → List (Dbl α)) (step : Nat → σ → σ)
    (v : Nat → σ → Dbl α) (h : ∀ k s, out (step k s) = (out s).set k (v k s))
    (n : Nat) (s : σ) (hn : n ≤ (out s).length) (i : Nat) (hi : i < n) :
    vget (out (iterSteps step n s)) i = v i (iterSteps step i s) := by
  rw [iter_out out step v h n s hn]
  have hlen : ((List.range n).map (fun i => v i (iterSteps step i s))).length = n := by simp
  rw [vget, List.getD_eq_getElem?_getD, List.getElem?_append_left (by rw [hlen]; exact hi)]
  simp [hi]

theorem iter_out_length {σ β : Type} (out : σ → List β) (step : Nat → σ → σ)
    (v : Nat → σ → β) (h : ∀ k s, out (step k s) = (out s).set k (v k s))
    (n : Nat) (s : σ) : (out (iterSteps step n s)).length = (out s).length := by
  induction n with
  | zero => rfl
  | succ k ih => simp [iterSteps, h, ih]

/-- The values `cpp_rzip` returns at positions with invalid parameters. -/
theorem cpp_rzip_values {G : Type} (R : Rng α G) (n : Nat) (lambda pi : List (Dbl α)) (g : G)
    (hl : 0 < lambda.length) (hp : 0 < pi.length) :
    ∃ st, cpp_rzip R n lambda pi g = Except.ok st ∧ st.out.length = n ∧
      ∀ i, i < n →
        zip_invalid (vget lambda (i % lambda.length)) (vget pi (i % pi.length)) = true →
        vget st.out i = Dbl.nan := by
  have hstep : ∀ k (s : RngState α G (List String)),
      (stepOf (rzip_body R lambda pi) k s).out = s.out.set k
        (rng_zip R (vget lambda (k % lambda.length)) (vget pi (k % pi.length))
          s.warn s.gen).1 := by
    intro k s
    simp only [stepOf, rzip_body_eq R lambda pi hl hp]
  refine ⟨_, forLoop_eq_iter _ n (fun k _ s => ⟨_, rzip_body_eq R lambda pi hl hp k s⟩) _, ?_, ?_⟩
  · rw [iter_out_length RngState.out _ _ hstep]
    simp
  · intro i hi hbad
    rw [iter_out_at RngState.out _ _ hstep n _ (by simp) i hi, rng_zip_invalid R _ _ _ _ hbad]

/-- The generator `cpp_rzip` leaves does not depend on the output vector, and a
position with invalid parameters does not move it. -/
theorem cpp_rzip_no_draw {G : Type} (R : Rng α G) (n : Nat) (lambda pi : List (Dbl α)) (g : G)
    (hl : 0 < lambda.length) (hp : 0 < pi.length)
    (hbad : zip_invalid (vget lambda (n % lambda.length)) (vget pi (n % pi.length)) = true) :
    ∃ s t, cpp_rzip R (n + 1) lambda pi g = Except.ok s ∧
      cpp_rzip R n lambda pi g = Except.ok t ∧ s.gen = t.gen := by
  have hstep : ∀ k (s : RngState α G (List String)),
      stepOf (rzip_body R lambda pi) k s = ⟨s.out.set k
          (rng_zip R (vget lambda (k % lambda.length)) (vget pi (k % pi.length)) s.warn s.gen).1,
        (rng_zip R (vget lambda (k % lambda.length)) (vget pi (k % pi.length)) s.warn s.gen).2.1,
        (rng_zip R (vget lambda (k % lambda.length)) (vget pi (k % pi.length)) s.warn s.gen).2.2⟩ := by
    intro k s
    simp only [stepOf, rzip_body_eq R lambda pi hl hp]
  have hind : ∀ (m : Nat) (a b : RngState α G (List String)), a.warn = b.warn → a.gen = b.gen →
      (iterSteps (stepOf (rzip_body R lambda pi)) m a).warn =
        (iterSteps (stepOf (rzip_body R lambda pi)) m b).warn ∧
      (iterSteps (stepOf (rzip_body R lambda pi)) m a).gen =
        (iterSteps (stepOf (rzip_body R lambda pi)) m b).gen := by
    intro m
    induction m with
    | zero => intro a b hw hg; exact ⟨hw, hg⟩
    | succ k ih =>
      intro a b hw hg
      obtain ⟨h₁, h₂⟩ := ih a b hw hg
      simp only [iterSteps, hstep, h₁, h₂, and_self]
  refine ⟨_, _, forLoop_eq_iter _ (n + 1) (fun k _ s => ⟨_, rzip_body_eq R lambda pi hl hp k s⟩) _,
    forLoop_eq_iter _ n (fun k _ s => ⟨_, rzip_body_eq R lambda pi hl hp k s⟩) _, ?_⟩
  simp only [iterSteps, hstep, rng_zip_invalid R _ _ _ _ hbad]
  exact (hind n ⟨List.replicate (n + 1) (Dbl.fin 0), [], g⟩
    ⟨List.replicate n (Dbl.fin 0), [], g⟩ rfl rfl).2

/-- The values `cpp_rhnorm` returns at positions with an invalid `sigma`. -/
theorem cpp_rhnorm_values {G : Type} (R : Rng α G) (n : Nat) (sigma : List (Dbl α)) (g : G)
    (hs : 0 < sigma.length) :
    ∃ st, cpp_rhnorm R n sigma g = Except.ok st ∧ st.out.length = n ∧
      st.warn = raise ((List.range n).any (fun i =>
        Dbl.isNaN (vget sigma (i % sigma.length)) ||
          Dbl.le (vget sigma (i % sigma.length)) (Dbl.fin 0))) "NAs produced" ∧
      ∀ i, i < n →
        (Dbl.isNaN (vget sigma (i % sigma.length)) ||
          Dbl.le (vget sigma (i % sigma.length)) (Dbl.fin 0)) = true →
        vget st.out i = Dbl.nan := by
  have hstep : ∀ k (s : RngState α G Bool),
      (stepOf (rhnorm_body R sigma) k s).out = s.out.set k
        (rng_hnorm R (vget sigma (k % sigma.length)) s.warn s.gen).1 := by
    intro k s
    simp only [stepOf, rhnorm_body_eq R sigma hs]
  have hrun := forLoop_eq_iter (rhnorm_body R sigma) n
    (fun k _ s => ⟨_, rhnorm_body_eq R sigma hs k s⟩) ⟨List.replicate n (Dbl.fin 0), false, g⟩
  have hflag := iter_or RngState.warn (stepOf (rhnorm_body R sigma))
    (fun i => Dbl.isNaN (vget sigma (i % sigma.length)) ||
      Dbl.le (vget sigma (i % sigma.length)) (Dbl.fin 0))
    (fun k s => by simp only [stepOf, rhnorm_body_eq R sigma hs, rng_hnorm_flag]) n
    ⟨List.replicate n (Dbl.fin 0), false, g⟩
  simp only [cpp_rhnorm, hrun]
  refine ⟨_, rfl, ?_, ?_, ?_⟩
  · simp only []
    rw [iter_out_length RngState.out _ _ hstep]
    simp
  · simp only [hflag, Bool.false_or]
  · intro i hi hbad
    simp only []
    rw [iter_out_at RngState.out _ _ hstep n _ (by simp) i hi, rng_hnorm_invalid R _ _ _ hbad]

theorem Dbl.lt_left_not_nan (a b : Dbl α) (h : Dbl.lt a b = true) : Dbl.isNaN a = false := by
  cases a <;> cases b <;> simp_all [Dbl.lt, Dbl.isNaN]

theorem Dbl.lt_right_not_nan (a b : Dbl α) (h : Dbl.lt a b = true) : Dbl.isNaN b = false := by
  cases a <;> cases b <;> simp_all [Dbl.lt, Dbl.isNaN]

theorem Dbl.le_false_of_lt (a b : Dbl α) (h : Dbl.lt a b = true) : Dbl.le b a = false := by
  cases a <;> cases b <;> simp_all [Dbl.lt, Dbl.le]

theorem VALID_PROB_false_of_outside (p : Dbl α)
    (h : Dbl.lt p (Dbl.fin 0) = true ∨ Dbl.lt (Dbl.fin 1) p = true) :
    VALID_PROB p = false := by
  rcases h with h | h
  · simp [VALID_PROB, Dbl.le_false_of_lt _ _ h]
  · simp [VALID_PROB, Dbl.le_false_of_lt _ _ h]

/-- The sum of the zero-inflated masses is the inflated sum of the Poisson masses. -/
theorem sum_zip_masses (pi : α) (d : Nat → α) (n : Nat) :
    Finset.sum (Finset.range (n + 1))
        (fun k => if k = 0 then pi + (1 - pi) * d 0 else (1 - pi) * d k) =
      pi + (1 - pi) * Finset.sum (Finset.range (n + 1)) d := by
  induction n with
  | zero => simp
  | succ k ih =>
    rw [Finset.sum_range_succ, ih, Finset.sum_range_succ _ (k + 1)]
    simp only [Nat.succ_ne_zero, if_false]
    ring

end Invalid

/-! ## The claims -/

section Claims

variable {α : Type} [LinearOrderedField α]

/-- C1 (what the code does): `cpp_ddirmnom` stops with an error when `alpha` has
fewer columns than `x`, but when `alpha` has more columns than `x` (and `x` has at
least two, the inputs being non-empty) the call returns an output vector of
length `Nmax`: the column-count mismatch goes undetected. -/
theorem cpp_ddirmnom_wider_alpha_returns (P : Prims α) (x : NumericMatrix α)
    (size : List (Dbl α)) (alpha : NumericMatrix α) (log_prob : Bool)
    (hm : 2 ≤ x.ncol) (hk : x.ncol < alpha.ncol) (hn : 0 < x.nrow) (hna : 0 < alpha.nrow)
    (hns : 0 < size.length) :
    (∃ r, cpp_ddirmnom P x size alpha log_prob = Except.ok r ∧
      r.out.length = max x.nrow (max alpha.nrow size.length)) ∧
    (∀ narrow : NumericMatrix α, narrow.ncol < x.ncol →
      ∃ msg, cpp_ddirmnom P x size narrow log_prob = Except.error (Fault.stop msg)) := by
  refine ⟨?_, ?_⟩
  · rw [ddirmnom_run P x size alpha log_prob hn hna hns hm (Nat.le_of_lt hk)]
    refine ⟨_, rfl, ?_⟩
    cases log_prob with
    | true => simp
    | false =>
      simp only [Bool.false_eq_true, if_false, List.length_append, List.length_map,
        List.length_take, List.length_drop, List.length_range]
      omega
  · intro narrow hlt
    have hmin : min x.ncol narrow.ncol = narrow.ncol := Nat.min_eq_right (Nat.le_of_lt hlt)
    have hne : x.ncol ≠ narrow.ncol := Nat.ne_of_gt hlt
    simp only [cpp_ddirmnom, hmin]
    by_cases h2 : narrow.ncol < 2
    · simp only [h2, if_true]
      exact ⟨_, rfl⟩
    · simp only [h2, if_false, ne_eq, hne, not_false_eq_true, if_true]
      exact ⟨_, rfl⟩

/-- Witness of C1: `x = [2, 3]` (two columns) against `alpha = [1, 1, 7]` (three). -/
theorem cpp_ddirmnom_wider_alpha_returns_witness :
    (∃ r, cpp_ddirmnom Q.prims Q.x23 [Dbl.fin 5] Q.alpha117 true = Except.ok r ∧
      r.out.length = max Q.x23.nrow (max Q.alpha117.nrow [Dbl.fin (5 : ℚ)].length)) ∧
    (∀ narrow : NumericMatrix ℚ, narrow.ncol < Q.x23.ncol →
      ∃ msg, cpp_ddirmnom Q.prims Q.x23 [Dbl.fin 5] narrow true =
        Except.error (Fault.stop msg)) :=
  cpp_ddirmnom_wider_alpha_returns Q.prims Q.x23 [Dbl.fin 5] Q.alpha117 true
    (by decide) (by decide) (by decide) (by decide) (by decide)

/-- C2 (the code at the failing input): for `x = [-1, 6]`, `size = 5`,
`alpha = [1, 1]` the inner loop writes `-inf` to `p[0]` and breaks, but the test
after the loop overwrites it: the call returns NaN with one warning, under both
settings of `log_prob`, instead of `-inf` (or `0`) without a warning. -/
theorem cpp_ddirmnom_negative_x_overwritten :
    cpp_ddirmnom Q.prims Q.xNeg [Dbl.fin 5] Q.alpha11 true =
      Except.ok ⟨[Dbl.nan], ["NaNs produced"]⟩ ∧
    cpp_ddirmnom Q.prims Q.xNeg [Dbl.fin 5] Q.alpha11 false =
      Except.ok ⟨[Dbl.nan], ["NaNs produced"]⟩ := by
  constructor <;>
    norm_num [cpp_ddirmnom, Q.xNeg, Q.alpha11, NumericMatrix.ofRows, forLoop, ddirmnom_body,
      ddirmnom_cols, imod, vget, Q.prims, mapAt, Q.exp, Q.tol_equal, Q.isInteger, Q.lgammafn]

/-- C3 (counterexample): for `x = [2, -1, 0]`, `size = 2`, `alpha = [1, 1, -1]` the
alpha row has the entry `-1 <= 0` in its last column, yet the call returns the
finite value `0` on the log scale and raises no warning: the inner loop breaks at
the negative `x` of the second column before it reads the third alpha. -/
theorem cpp_ddirmnom_late_alpha_unseen :
    cpp_ddirmnom Q.prims Q.xLate [Dbl.fin 2] Q.alphaLate true =
      Except.ok ⟨[Dbl.fin 0], []⟩ := by
  norm_num [cpp_ddirmnom, Q.xLate, Q.alphaLate, NumericMatrix.ofRows, forLoop, ddirmnom_body,
    ddirmnom_cols, imod, vget, Q.prims, mapAt, Q.exp, Q.tol_equal, Q.isInteger, Q.lgammafn]

/-- C3 (amended): at every output position `i` whose recycled alpha row has an
entry `alpha_j <= 0` at a column `j` such that the entries of the recycled `x`
row in the columns before `j` are all nonnegative integers, the result is NaN
and the warning "NaNs produced" is raised, whatever the size and the rest of the
`x` row are, under both settings of `log_prob` (`exp` maps NaN to NaN). -/
theorem cpp_ddirmnom_nonpositive_alpha (P : Prims α) (x : NumericMatrix α)
    (size : List (Dbl α)) (alpha : NumericMatrix α) (log_prob : Bool)
    (hexp : P.exp Dbl.nan = Dbl.nan)
    (hn : 0 < x.nrow) (hna : 0 < alpha.nrow) (hns : 0 < size.length)
    (hm : 2 ≤ x.ncol) (hk : x.ncol ≤ alpha.ncol)
    (i : Nat) (hi : i < max x.nrow (max alpha.nrow size.length))
    (j : Nat) (hj : j < x.ncol)
    (hα : Dbl.le (alpha.elem (i % alpha.nrow) j) (Dbl.fin 0) = true)
    (hx : ∀ c, c < j →
      (Dbl.lt (x.elem (i % x.nrow) c) (Dbl.fin 0) ||
        !P.isInteger (x.elem (i % x.nrow) c)) = false) :
    ∃ r, cpp_ddirmnom P x size alpha log_prob = Except.ok r ∧
      vget r.out i = Dbl.nan ∧ "NaNs produced" ∈ r.warnings := by
  have hrow := ddirmnom_row_wrong_alpha P x size alpha i hn hna j hj hα hx
  rw [ddirmnom_run P x size alpha log_prob hn hna hns hm hk]
  refine ⟨_, rfl, ?_, ?_⟩
  · cases log_prob with
    | true =>
      simp only [if_true]
      rw [vget_range_map _ _ _ hi, hrow]
    | false =>
      simp only [Bool.false_eq_true, if_false]
      rw [vget_take_map_drop _ _ _ _ (by simp), vget_range_map _ _ _ hi, hrow]
      simp [hexp]
  · simp only [List.mem_flatten, List.mem_map, List.mem_range]
    exact ⟨_, ⟨i, hi, rfl⟩, by rw [hrow]; simp⟩

/-- Witness of C3 (amended): `x = [2, 3]`, `size = 5`, `alpha = [1, -1]`, position `0`,
column `1`. -/
theorem cpp_ddirmnom_nonpositive_alpha_witness :
    ∃ r, cpp_ddirmnom Q.prims Q.x23 [Dbl.fin 5] Q.alpha1m false = Except.ok r ∧
      vget r.out 0 = Dbl.nan ∧ "NaNs produced" ∈ r.warnings :=
  cpp_ddirmnom_nonpositive_alpha Q.prims Q.x23 [Dbl.fin 5] Q.alpha1m false rfl
    (by decide) (by decide) (by decide) (by decide) (by decide) 0 (by decide) 1 (by decide)
    (by norm_num [Q.alpha1m, NumericMatrix.ofRows, vget])
    (by
      intro c hc
      have hc0 : c = 0 := by omega
      subst hc0
      norm_num [Q.x23, NumericMatrix.ofRows, vget, Q.prims, Q.isInteger])

/-- C4 (what the code does): on non-empty inputs of matching shape the call with
`log_prob = false` returns, at every position `i < n` (`n` the number of rows of
`x`), `exp` of the value the call with `log_prob = true` returns there, and at
every position `n <= i < Nmax` the log-scale value itself, not its `exp`: the
closing loop runs over `i < n` instead of `i < Nmax`. -/
theorem cpp_ddirmnom_exp_only_below_nrow (P : Prims α) (x : NumericMatrix α)
    (size : List (Dbl α)) (alpha : NumericMatrix α)
    (hn : 0 < x.nrow) (hna : 0 < alpha.nrow) (hns : 0 < size.length)
    (hm : 2 ≤ x.ncol) (hk : x.ncol ≤ alpha.ncol) :
    ∃ rl rn, cpp_ddirmnom P x size alpha true = Except.ok rl ∧
      cpp_ddirmnom P x size alpha false = Except.ok rn ∧
      rl.out.length = max x.nrow (max alpha.nrow size.length) ∧
      rn.out.length = max x.nrow (max alpha.nrow size.length) ∧
      ∀ i, i < max x.nrow (max alpha.nrow size.length) →
        vget rn.out i = if i < x.nrow then P.exp (vget rl.out i) else vget rl.out i := by
  rw [ddirmnom_run P x size alpha true hn hna hns hm hk,
    ddirmnom_run P x size alpha false hn hna hns hm hk]
  refine ⟨_, _, rfl, rfl, ?_, ?_, ?_⟩
  · simp
  · simp only [Bool.false_eq_true, if_false, List.length_append, List.length_map,
      List.length_take, List.length_drop, List.length_range]
    omega
  · intro i _
    simp only [Bool.false_eq_true, if_false, if_true]
    rw [vget_take_map_drop _ _ _ _ (by simp)]

/-- Witness of C4: `x = [2, 3]` (one row), `size = [5, 5]`, `alpha = [1, 1]`, so that
`Nmax = 2` and position `1` is left on the log scale. -/
theorem cpp_ddirmnom_exp_only_below_nrow_witness :
    ∃ rl rn, cpp_ddirmnom Q.prims Q.x23 [Dbl.fin 5, Dbl.fin 5] Q.alpha11 true = Except.ok rl ∧
      cpp_ddirmnom Q.prims Q.x23 [Dbl.fin 5, Dbl.fin 5] Q.alpha11 false = Except.ok rn ∧
      rl.out.length = max Q.x23.nrow (max Q.alpha11.nrow [Dbl.fin (5 : ℚ), Dbl.fin 5].length) ∧
      rn.out.length = max Q.x23.nrow (max Q.alpha11.nrow [Dbl.fin (5 : ℚ), Dbl.fin 5].length) ∧
      ∀ i, i < max Q.x23.nrow (max Q.alpha11.nrow [Dbl.fin (5 : ℚ), Dbl.fin 5].length) →
        vget rn.out i =
          if i < Q.x23.nrow then Q.prims.exp (vget rl.out i) else vget rl.out i :=
  cpp_ddirmnom_exp_only_below_nrow Q.prims Q.x23 [Dbl.fin 5, Dbl.fin 5] Q.alpha11
    (by decide) (by decide) (by decide) (by decide) (by decide)

/-- C5 (the code at the failing input): `cpp_dzip` on `x = [0]`, `lambda = [-1, -2]`,
`pi = [1/2]` has two output positions with an invalid `lambda`; `pdf_zip` calls
`Rcpp::warning` at each of them, and the call raises two warnings, not one. -/
theorem cpp_dzip_two_warnings :
    cpp_dzip Q.prims [Dbl.fin 0] [Dbl.fin (-1), Dbl.fin (-2)] [Dbl.fin (1 / 2)] false =
      Except.ok ⟨[Dbl.nan, Dbl.nan], ["NaNs produced", "NaNs produced"]⟩ := by
  norm_num [cpp_dzip, forLoop, zip_body, imod, vget, pdf_zip, zip_invalid, List.replicate]

/-- Warnings per call, for every backend: on non-empty inputs `cpp_dzip`,
`cpp_pzip` and `cpp_rzip` return having raised one warning for each output
position whose recycled `lambda` is `<= 0` or whose recycled `pi` is `< 0` or
`> 1`, and `cpp_ddirmnom` one for each output position when every recycled
alpha row starts with an entry `<= 0`; the four half-normal operations, which
set a flag in the loop and warn after it, raise at most one. -/
theorem warnings_per_invalid_position {G : Type} (P : Prims α) (R : Rng α G) :
    (∀ (x lambda pi : List (Dbl α)) (lp : Bool),
      0 < x.length → 0 < lambda.length → 0 < pi.length →
      ∃ r, cpp_dzip P x lambda pi lp = Except.ok r ∧
        r.warnings.length =
          (List.range (max x.length (max pi.length lambda.length))).countP (fun i =>
            zip_invalid (vget lambda (i % lambda.length)) (vget pi (i % pi.length)))) ∧
    (∀ (x lambda pi : List (Dbl α)) (lt lp : Bool),
      0 < x.length → 0 < lambda.length → 0 < pi.length →
      ∃ r, cpp_pzip P x lambda pi lt lp = Except.ok r ∧
        r.warnings.length =
          (List.range (max x.length (max pi.length lambda.length))).countP (fun i =>
            zip_invalid (vget lambda (i % lambda.length)) (vget pi (i % pi.length)))) ∧
    (∀ (n : Nat) (lambda pi : List (Dbl α)) (g : G), 0 < lambda.length → 0 < pi.length →
      ∃ st, cpp_rzip R n lambda pi g = Except.ok st ∧
        st.warn.length =
          (List.range n).countP (fun i =>
            zip_invalid (vget lambda (i % lambda.length)) (vget pi (i % pi.length)))) ∧
    (∀ (x : NumericMatrix α) (size : List (Dbl α)) (alpha : NumericMatrix α) (lp : Bool),
      0 < x.nrow → 0 < alpha.nrow → 0 < size.length → 2 ≤ x.ncol → x.ncol ≤ alpha.ncol →
      (∀ i, i < max x.nrow (max alpha.nrow size.length) →
        Dbl.le (alpha.elem (i % alpha.nrow) 0) (Dbl.fin 0) = true) →
      ∃ r, cpp_ddirmnom P x size alpha lp = Except.ok r ∧
        r.warnings.length = max x.nrow (max alpha.nrow size.length)) ∧
    (∀ (x sigma : List (Dbl α)) (lp : Bool), 0 < x.length → 0 < sigma.length →
      ∃ r, cpp_dhnorm P x sigma lp = Except.ok r ∧ r.warnings.length ≤ 1) ∧
    (∀ (x sigma : List (Dbl α)) (lt lp : Bool), 0 < x.length → 0 < sigma.length →
      ∃ r, cpp_phnorm P x sigma lt lp = Except.ok r ∧ r.warnings.length ≤ 1) ∧
    (∀ (p sigma : List (Dbl α)) (lt lp : Bool), 0 < p.length → 0 < sigma.length →
      ∃ r, cpp_qhnorm P p sigma lt lp = Except.ok r ∧ r.warnings.length ≤ 1) ∧
    (∀ (n : Nat) (sigma : List (Dbl α)) (g : G), 0 < sigma.length →
      ∃ st, cpp_rhnorm R n sigma g = Except.ok st ∧ st.warn.length ≤ 1) := by
  refine ⟨?_, ?_, ?_, ?_, ?_, ?_, ?_, ?_⟩
  · intro x lambda pi lp hx hl hp
    exact ⟨_, cpp_dzip_run P x lambda pi lp hx hl hp, length_flatten_ite _ _ _⟩
  · intro x lambda pi lt lp hx hl hp
    exact ⟨_, cpp_pzip_run P x lambda pi lt lp hx hl hp, length_flatten_ite _ _ _⟩
  · intro n lambda pi g hl hp
    obtain ⟨st, hst, hw⟩ := cpp_rzip_run R n lambda pi g hl hp
    exact ⟨st, hst, by rw [hw]; exact length_flatten_ite _ _ _⟩
  · intro x size alpha lp hn hna hns hm hk hbad
    refine ⟨_, ddirmnom_run P x size alpha lp hn hna hns hm hk, ?_⟩
    simp only []
    have hrows : (List.range (max x.nrow (max alpha.nrow size.length))).map
        (fun i => (ddirmnom_row P x size alpha i).2) =
        (List.range (max x.nrow (max alpha.nrow size.length))).map
          (fun i => if (fun _ => true) i then ["NaNs produced"] else []) := by
      apply List.map_congr_left
      intro i hi
      rw [ddirmnom_row_wrong_alpha P x size alpha i hn hna 0 (by omega)
        (hbad i (List.mem_range.mp hi)) (fun c hc => absurd hc (Nat.not_lt_zero c))]
      rfl
    rw [hrows, length_flatten_ite]
    simp
  · intro x sigma lp hx hs
    exact ⟨_, cpp_dhnorm_run P x sigma lp hx hs, raise_length_le _ _⟩
  · intro x sigma lt lp hx hs
    exact ⟨_, cpp_phnorm_run P x sigma lt lp hx hs, raise_length_le _ _⟩
  · intro p sigma lt lp hx hs
    exact ⟨_, cpp_qhnorm_run P p sigma lt lp hx hs, raise_length_le _ _⟩
  · intro n sigma g hs
    obtain ⟨st, hst, hw⟩ := cpp_rhnorm_run R n sigma g hs
    exact ⟨st, hst, by rw [hw]; exact raise_length_le _ _⟩

/-- C6: on non-empty inputs `cpp_dzip`, `cpp_pzip`, `cpp_dhnorm` and `cpp_phnorm`
return a vector of length `Nmax`, the largest input length, whose element `i` is
the scalar kernel applied to each input at index `i mod` its own length (followed
by the complement when `lower_tail` is off and by `log` when `log_prob` is on),
whether or not the lengths divide `Nmax`. -/
theorem recycled_kernel_values (P : Prims α) :
    (∀ (x lambda pi : List (Dbl α)) (lp : Bool),
      0 < x.length → 0 < lambda.length → 0 < pi.length →
      ∃ r, cpp_dzip P x lambda pi lp = Except.ok r ∧
        r.out.length = max x.length (max pi.length lambda.length) ∧
        ∀ i, i < max x.length (max pi.length lambda.length) →
          vget r.out i = (if lp then P.log else id)
            (pdf_zip P (vget x (i % x.length)) (vget lambda (i % lambda.length))
              (vget pi (i % pi.length)) []).1) ∧
    (∀ (x lambda pi : List (Dbl α)) (lt lp : Bool),
      0 < x.length → 0 < lambda.length → 0 < pi.length →
      ∃ r, cpp_pzip P x lambda pi lt lp = Except.ok r ∧
        r.out.length = max x.length (max pi.length lambda.length) ∧
        ∀ i, i < max x.length (max pi.length lambda.length) →
          vget r.out i = (if lp then P.log else id)
            ((if lt then id else fun v => Dbl.fin 1 - v)
              (cdf_zip P (vget x (i % x.length)) (vget lambda (i % lambda.length))
                (vget pi (i % pi.length)) []).1)) ∧
    (∀ (x sigma : List (Dbl α)) (lp : Bool), 0 < x.length → 0 < sigma.length →
      ∃ r, cpp_dhnorm P x sigma lp = Except.ok r ∧
        r.out.length = max x.length sigma.length ∧
        ∀ i, i < max x.length sigma.length →
          vget r.out i = (if lp then P.log else id)
            (pdf_hnorm P (vget x (i % x.length)) (vget sigma (i % sigma.length)) false).1) ∧
    (∀ (x sigma : List (Dbl α)) (lt lp : Bool), 0 < x.length → 0 < sigma.length →
      ∃ r, cpp_phnorm P x sigma lt lp = Except.ok r ∧
        r.out.length = max x.length sigma.length ∧
        ∀ i, i < max x.length sigma.length →
          vget r.out i = (if lp then P.log else id)
            ((if lt then id else fun v => Dbl.fin 1 - v)
              (cdf_hnorm P (vget x (i % x.length)) (vget sigma (i % sigma.length)) false).1)) := by
  refine ⟨?_, ?_, ?_, ?_⟩
  · intro x lambda pi lp hx hl hp
    refine ⟨_, cpp_dzip_run P x lambda pi lp hx hl hp, by simp, ?_⟩
    intro i hi
    exact vget_range_map _ _ _ hi
  · intro x lambda pi lt lp hx hl hp
    refine ⟨_, cpp_pzip_run P x lambda pi lt lp hx hl hp, by simp, ?_⟩
    intro i hi
    exact vget_range_map _ _ _ hi
  · intro x sigma lp hx hs
    refine ⟨_, cpp_dhnorm_run P x sigma lp hx hs, by simp, ?_⟩
    intro i hi
    exact vget_range_map _ _ _ hi
  · intro x sigma lt lp hx hs
    refine ⟨_, cpp_phnorm_run P x sigma lt lp hx hs, by simp, ?_⟩
    intro i hi
    exact vget_range_map _ _ _ hi

/-- Witness of C6: `cpp_dhnorm` on `x = [1, 2, 3]` and `sigma = [1, 4]` returns three
values, computed with `sigma[0]`, `sigma[1]`, `sigma[0]`. -/
theorem recycled_kernel_values_witness :
    ∃ r, cpp_dhnorm Q.prims [Dbl.fin 1, Dbl.fin 2, Dbl.fin 3] [Dbl.fin 1, Dbl.fin 4] false =
        Except.ok r ∧
      r.out.length = max [Dbl.fin (1 : ℚ), Dbl.fin 2, Dbl.fin 3].length
        [Dbl.fin (1 : ℚ), Dbl.fin 4].length ∧
      ∀ i, i < max [Dbl.fin (1 : ℚ), Dbl.fin 2, Dbl.fin 3].length
          [Dbl.fin (1 : ℚ), Dbl.fin 4].length →
        vget r.out i = (if false then Q.prims.log else id)
          (pdf_hnorm Q.prims
            (vget [Dbl.fin 1, Dbl.fin 2, Dbl.fin 3]
              (i % [Dbl.fin (1 : ℚ), Dbl.fin 2, Dbl.fin 3].length))
            (vget [Dbl.fin 1, Dbl.fin 4] (i % [Dbl.fin (1 : ℚ), Dbl.fin 4].length)) false).1 :=
  (recycled_kernel_values Q.prims).2.2.1 [Dbl.fin 1, Dbl.fin 2, Dbl.fin 3]
    [Dbl.fin 1, Dbl.fin 4] false (by decide) (by decide)

/-- C7 (what the code does): when one input vector of `cpp_dzip`, `cpp_pzip`,
`cpp_qzip`, `cpp_dhnorm`, `cpp_phnorm` or `cpp_qhnorm` is empty and another is
not, `Nmax` is the largest length, not `0`, and the first pass of the main loop
computes an index modulo zero: the call ends in that fault instead of returning
an empty vector.  For `cpp_qzip` this holds whether `lambda` and `pi` are
vectors of their own or the vector `p` itself. -/
theorem empty_input_faults (P : Prims α) :
    (∀ (x lambda pi : List (Dbl α)) (lp : Bool), (x = [] ∨ lambda = [] ∨ pi = []) →
      0 < max x.length (max pi.length lambda.length) →
      cpp_dzip P x lambda pi lp = Except.error Fault.modZero) ∧
    (∀ (x lambda pi : List (Dbl α)) (lt lp : Bool), (x = [] ∨ lambda = [] ∨ pi = []) →
      0 < max x.length (max pi.length lambda.length) →
      cpp_pzip P x lambda pi lt lp = Except.error Fault.modZero) ∧
    (∀ (p : List (Dbl α)) (lambda pi : Param α) (lt lp : Bool),
      (p = [] ∨ lambda.read p = [] ∨ pi.read p = []) →
      0 < max p.length (max (pi.read p).length (lambda.read p).length) →
      cpp_qzip P p lambda pi lt lp = Except.error Fault.modZero) ∧
    (∀ (x sigma : List (Dbl α)) (lp : Bool), (x = [] ∨ sigma = []) →
      0 < max x.length sigma.length →
      cpp_dhnorm P x sigma lp = Except.error Fault.modZero) ∧
    (∀ (x sigma : List (Dbl α)) (lt lp : Bool), (x = [] ∨ sigma = []) →
      0 < max x.length sigma.length →
      cpp_phnorm P x sigma lt lp = Except.error Fault.modZero) ∧
    (∀ (p sigma : List (Dbl α)) (lt lp : Bool), (p = [] ∨ sigma = []) →
      0 < max p.length sigma.length →
      cpp_qhnorm P p sigma lt lp = Except.error Fault.modZero) := by
  refine ⟨?_, ?_, ?_, ?_, ?_, ?_⟩
  · intro x lambda pi lp h hN
    simp only [cpp_dzip]
    rw [forLoop_fault_first _ _ _ (zip_body_fault _ x lambda pi h 0 _) _ hN]
  · intro x lambda pi lt lp h hN
    simp only [cpp_pzip]
    rw [forLoop_fault_first _ _ _ (zip_body_fault _ x lambda pi h 0 _) _ hN]
  · intro p lambda pi lt lp h hN
    have hadj : p.map (adjusted P lt lp) = [] ∨
        lambda.read (p.map (adjusted P lt lp)) = [] ∨
        pi.read (p.map (adjusted P lt lp)) = [] := by
      rcases h with h | h | h
      · exact Or.inl (by simp [h])
      · exact Or.inr (Or.inl (List.length_eq_zero.mp
          (by rw [Param.read_length_map, h]; rfl)))
      · exact Or.inr (Or.inr (List.length_eq_zero.mp
          (by rw [Param.read_length_map, h]; rfl)))
    rw [cpp_qzip_adjust, forLoop_fault_first _ _ _ (zip_body_fault _ _ _ _ hadj 0 _) _ hN]
  · intro x sigma lp h hN
    simp only [cpp_dhnorm]
    rw [forLoop_fault_first _ _ _ (hnorm_body_fault _ x sigma h 0 _) _ hN]
  · intro x sigma lt lp h hN
    simp only [cpp_phnorm]
    rw [forLoop_fault_first _ _ _ (hnorm_body_fault _ x sigma h 0 _) _ hN]
  · intro p sigma lt lp h hN
    have hadj : ∀ q : List (Dbl α), q.length = p.length → (q = [] ∨ sigma = []) := by
      intro q hq
      rcases h with h | h
      · exact Or.inl (List.length_eq_zero.mp (by rw [hq, h]; rfl))
      · exact Or.inr h
    simp only [cpp_qhnorm]
    rw [forLoop_fault_first _ _ _ (hnorm_body_fault _ _ sigma (hadj _ ?_) 0 _) _ hN]
    cases lt <;> cases lp <;> simp

/-- Witness of C7: `cpp_dzip` on an empty `x` with `lambda = [1]`, `pi = [1/2]`. -/
theorem empty_input_faults_witness :
    cpp_dzip Q.prims [] [Dbl.fin 1] [Dbl.fin (1 / 2)] false = Except.error Fault.modZero :=
  (empty_input_faults Q.prims).1 [] [Dbl.fin 1] [Dbl.fin (1 / 2)] false
    (Or.inl rfl) (by decide)

/-- C9: for every `x >= 0` and `sigma > 0`, if the normal cdf primitive returns at
`x` a value `F` in `[1/2, 1]` that the normal quantile primitive maps back to
`x`, then `cdf_hnorm(x, sigma) = 2F - 1` is a valid probability,
`invcdf_hnorm(cdf_hnorm(x, sigma), sigma) = x`, and both calls leave the warning
flag as they found it. -/
theorem invcdf_cdf_hnorm (P : Prims α) (x sigma F : α) (t : Bool)
    (hx : 0 ≤ x) (hs : 0 < sigma)
    (hF : P.pnorm (Dbl.fin x) (Dbl.fin 0) (Dbl.fin sigma) = Dbl.fin F)
    (hF₀ : 1 / 2 ≤ F) (hF₁ : F ≤ 1)
    (hq : P.qnorm (Dbl.fin F) (Dbl.fin 0) (Dbl.fin sigma) = Dbl.fin x) :
    cdf_hnorm P (Dbl.fin x) (Dbl.fin sigma) t = (Dbl.fin (2 * F - 1), t) ∧
    VALID_PROB (Dbl.fin (2 * F - 1)) = true ∧
    invcdf_hnorm P (cdf_hnorm P (Dbl.fin x) (Dbl.fin sigma) t).1 (Dbl.fin sigma)
      (cdf_hnorm P (Dbl.fin x) (Dbl.fin sigma) t).2 = (Dbl.fin x, t) := by
  have hcdf : cdf_hnorm P (Dbl.fin x) (Dbl.fin sigma) t = (Dbl.fin (2 * F - 1), t) := by
    simp [cdf_hnorm, not_le.mpr hs, not_lt.mpr hx, hF]
  have hvalid : VALID_PROB (Dbl.fin (2 * F - 1)) = true := by
    have h₀ : (0 : α) ≤ 2 * F - 1 := by linarith
    have h₁ : 2 * F - 1 ≤ (1 : α) := by linarith
    simp [VALID_PROB, h₀, h₁]
  have h2 : (2 : α) ≠ 0 := two_ne_zero
  have harg : (2 * F - 1 + 1) / 2 = F := by
    field_simp
  refine ⟨hcdf, hvalid, ?_⟩
  rw [hcdf]
  simp [invcdf_hnorm, not_le.mpr hs, hvalid, Dbl.fin_div_fin _ _ h2, harg, hq]

/-- Witness of C9: `x = 1`, `sigma = 1`, where the rational backend has `pnorm = 3/4`. -/
theorem invcdf_cdf_hnorm_witness :
    cdf_hnorm Q.prims (Dbl.fin 1) (Dbl.fin 1) false = (Dbl.fin (2 * (3 / 4) - 1), false) ∧
    VALID_PROB (Dbl.fin (2 * (3 / 4 : ℚ) - 1)) = true ∧
    invcdf_hnorm Q.prims (cdf_hnorm Q.prims (Dbl.fin 1) (Dbl.fin 1) false).1 (Dbl.fin 1)
      (cdf_hnorm Q.prims (Dbl.fin 1) (Dbl.fin 1) false).2 = (Dbl.fin 1, false) :=
  invcdf_cdf_hnorm Q.prims 1 1 (3 / 4) false (by norm_num) (by norm_num)
    (by norm_num [Q.prims, Q.pnorm]) (by norm_num) (by norm_num)
    (by norm_num [Q.prims, Q.qnorm, abs_of_pos])

/-- C10 (counterexample): `rng_hnorm` called with a NaN `sigma` and the flag off
returns with the flag on. -/
theorem rng_hnorm_nan_sets_flag :
    rng_hnorm Q.replay Dbl.nan false [] = (Dbl.nan, true, []) := by
  simp [rng_hnorm]

/-- C10 (amended): when `x` (or `p`) or `sigma` is NaN, `pdf_hnorm`, `cdf_hnorm`
and `invcdf_hnorm` return NaN and leave the warning flag as they found it;
`rng_hnorm` with a NaN `sigma` returns the NaN `NA_REAL`, draws nothing and sets
the warning flag. -/
theorem hnorm_nan_propagation {G : Type} (P : Prims α) (R : Rng α G) (x sigma : Dbl α)
    (t : Bool) (g : G) (h : Dbl.isNaN x = true ∨ Dbl.isNaN sigma = true) :
    pdf_hnorm P x sigma t = (Dbl.nan, t) ∧
    cdf_hnorm P x sigma t = (Dbl.nan, t) ∧
    invcdf_hnorm P x sigma t = (Dbl.nan, t) ∧
    (Dbl.isNaN sigma = true → rng_hnorm R sigma t g = (Dbl.nan, true, g)) := by
  have hsum : x + sigma = Dbl.nan := by
    rcases h with h | h
    · rw [(Dbl.isNaN_iff x).mp h]; exact Dbl.nan_add _
    · rw [(Dbl.isNaN_iff sigma).mp h]; exact Dbl.add_nan _
  have hor : (Dbl.isNaN x || Dbl.isNaN sigma) = true := by
    rcases h with h | h <;> simp [h]
  refine ⟨?_, ?_, ?_, ?_⟩
  · simp only [pdf_hnorm, hor, if_true, hsum]
  · simp only [cdf_hnorm, hor, if_true, hsum]
  · simp only [invcdf_hnorm, hor, if_true, hsum]
  · intro hs
    simp [rng_hnorm, hs]

/-- Witness of C10 (amended): a NaN `x` with `sigma = 1`. -/
theorem hnorm_nan_propagation_witness :
    pdf_hnorm Q.prims Dbl.nan (Dbl.fin 1) false = (Dbl.nan, false) ∧
    cdf_hnorm Q.prims Dbl.nan (Dbl.fin 1) false = (Dbl.nan, false) ∧
    invcdf_hnorm Q.prims Dbl.nan (Dbl.fin 1) false = (Dbl.nan, false) ∧
    (Dbl.isNaN (Dbl.fin (1 : ℚ)) = true →
      rng_hnorm Q.replay (Dbl.fin 1) false [] = (Dbl.nan, true, [])) :=
  hnorm_nan_propagation Q.prims Q.replay Dbl.nan (Dbl.fin 1) false [] (Or.inl rfl)

/-- C12: at every output position of `cpp_ddirmnom` with `log_prob = true` whose
recycled alpha row is finite and `> 0`, whose recycled `x` row consists of finite
nonnegative integers and whose row sum is `tol_equal` to the recycled size
`s >= 0`, the result is the log-pmf of the specification,
`lg(s+1) + lg(Σα) − lg(s+Σα) + Σ_j [lg(x_j+α_j) − lg(x_j+1) − lg(α_j)]`, for a
backend whose `lgammafn` is the finite function `lg` on positive arguments and
whose `lfactorial(t)` is `lgammafn(t+1)`; the pass at that position raises no
warning.  For `x = [2, 3]`, `size = 5`, `alpha = [1, 1]` the value is
`lg 6 − lg 7` when `lg 1 = lg 2 = 0`, which for the log-gamma function is
`log(5!/6!) = log(1/6)`, and the call raises no warning. -/
theorem cpp_ddirmnom_log_pmf (P : Prims α) (lg : α → α) (x : NumericMatrix α)
    (size : List (Dbl α)) (alpha : NumericMatrix α)
    (hn : 0 < x.nrow) (hna : 0 < alpha.nrow) (hns : 0 < size.length)
    (hm : 2 ≤ x.ncol) (hk : x.ncol ≤ alpha.ncol)
    (i : Nat) (hi : i < max x.nrow (max alpha.nrow size.length))
    (xs as : Nat → α) (s : α)
    (hlg : ∀ t, 0 < t → P.lgammafn (Dbl.fin t) = Dbl.fin (lg t))
    (hlf : ∀ t, 0 ≤ t → P.lfactorial (Dbl.fin t) = P.lgammafn (Dbl.fin (t + 1)))
    (hx : ∀ j, j < x.ncol → x.elem (i % x.nrow) j = Dbl.fin (xs j) ∧ 0 ≤ xs j ∧
      P.isInteger (Dbl.fin (xs j)) = true)
    (ha : ∀ j, j < x.ncol → alpha.elem (i % alpha.nrow) j = Dbl.fin (as j) ∧ 0 < as j)
    (hsz : vget size (i % size.length) = Dbl.fin s) (hs : 0 ≤ s)
    (htol : P.tol_equal (Dbl.fin (Finset.sum (Finset.range x.ncol) xs)) (Dbl.fin s) = true) :
    (∃ r, cpp_ddirmnom P x size alpha true = Except.ok r ∧
      vget r.out i = Dbl.fin (logpmf_spec lg x.ncol xs as s) ∧
      (ddirmnom_row P x size alpha i).2 = [] ∧
      r.warnings = ((List.range (max x.nrow (max alpha.nrow size.length))).map
        (fun k => (ddirmnom_row P x size alpha k).2)).flatten) ∧
    (P.isInteger (Dbl.fin 2) = true → P.isInteger (Dbl.fin 3) = true →
      P.tol_equal (Dbl.fin 5) (Dbl.fin 5) = true → lg 1 = 0 → lg 2 = 0 →
      ∃ r, cpp_ddirmnom P (NumericMatrix.ofRows 2 [[Dbl.fin 2, Dbl.fin 3]]) [Dbl.fin 5]
          (NumericMatrix.ofRows 2 [[Dbl.fin 1, Dbl.fin 1]]) true = Except.ok r ∧
        vget r.out 0 = Dbl.fin (lg 6 - lg 7) ∧ r.warnings = []) := by
  refine ⟨ddirmnom_logpmf_at P lg x size alpha hn hna hns hm hk i hi xs as s hlg hlf hx ha
    hsz hs htol, ?_⟩
  intro h2 h3 h5 hl1 hl2
  obtain ⟨r, hr, hv, hw, hws⟩ := ddirmnom_logpmf_at P lg
    (NumericMatrix.ofRows 2 [[Dbl.fin 2, Dbl.fin 3]]) [Dbl.fin 5]
    (NumericMatrix.ofRows 2 [[Dbl.fin 1, Dbl.fin 1]])
    (by simp [NumericMatrix.ofRows]) (by simp [NumericMatrix.ofRows]) (by simp)
    (by simp [NumericMatrix.ofRows]) (by simp [NumericMatrix.ofRows]) 0
    (by simp [NumericMatrix.ofRows])
    (fun j => if j = 0 then 2 else 3) (fun _ => 1) 5 hlg hlf
    (by
      intro j hj
      have hj2 : j < 2 := hj
      interval_cases j
      · simp [NumericMatrix.ofRows, vget, h2]
      · simp [NumericMatrix.ofRows, vget, h3])
    (by
      intro j hj
      have hj2 : j < 2 := hj
      interval_cases j <;> simp [NumericMatrix.ofRows, vget])
    (by simp [vget]) (by norm_num)
    (by
      have e : Finset.sum (Finset.range (NumericMatrix.ofRows 2
          [[Dbl.fin (2 : α), Dbl.fin 3]]).ncol) (fun j => if j = 0 then (2 : α) else 3) = 5 := by
        simp [NumericMatrix.ofRows, Finset.sum_range_succ]
        norm_num
      rw [e]
      exact h5)
  refine ⟨r, hr, ?_, ?_⟩
  · rw [hv]
    congr 1
    simp [logpmf_spec, NumericMatrix.ofRows, Finset.sum_range_succ]
    norm_num [hl1, hl2]
  · have hN : max (NumericMatrix.ofRows 2 [[Dbl.fin (2 : α), Dbl.fin 3]]).nrow
        (max (NumericMatrix.ofRows 2 [[Dbl.fin (1 : α), Dbl.fin 1]]).nrow
          [Dbl.fin (5 : α)].length) = 1 := by
      simp [NumericMatrix.ofRows]
    have hr1 : List.range 1 = [0] := rfl
    rw [hws, hN, hr1, List.map_singleton, hw]
    rfl

/-- Witness of C12: `x = [2, 3]`, `size = 5`, `alpha = [1, 1]` on the rational
backend. -/
theorem cpp_ddirmnom_log_pmf_witness :
    ∃ r, cpp_ddirmnom Q.prims Q.x23 [Dbl.fin 5] Q.alpha11 true = Except.ok r ∧
      vget r.out 0 = Dbl.fin (logpmf_spec Q.lg Q.x23.ncol
        (fun j => if j = 0 then 2 else 3) (fun _ => 1) 5) ∧
      (ddirmnom_row Q.prims Q.x23 [Dbl.fin 5] Q.alpha11 0).2 = [] ∧
      r.warnings = ((List.range (max Q.x23.nrow
          (max Q.alpha11.nrow [Dbl.fin (5 : ℚ)].length))).map
        (fun k => (ddirmnom_row Q.prims Q.x23 [Dbl.fin 5] Q.alpha11 k).2)).flatten :=
  (cpp_ddirmnom_log_pmf Q.prims Q.lg Q.x23 [Dbl.fin 5] Q.alpha11
    (by decide) (by decide) (by decide) (by decide) (by decide) 0 (by decide)
    (fun j => if j = 0 then 2 else 3) (fun _ => 1) 5
    (fun _ _ => rfl) (fun _ _ => rfl)
    (by
      intro j hj
      have hj2 : j < 2 := hj
      interval_cases j <;>
        norm_num [Q.x23, NumericMatrix.ofRows, vget, Q.prims, Q.isInteger])
    (by
      intro j hj
      have hj2 : j < 2 := hj
      interval_cases j <;> norm_num [Q.alpha11, NumericMatrix.ofRows, vget])
    (by simp [vget]) (by norm_num)
    (by
      norm_num [Q.x23, NumericMatrix.ofRows, Finset.sum_range_succ, Q.prims,
        Q.tol_equal])).1

/-- C13: at every output position of `cpp_ddirmnom` whose recycled alpha row is all
`> 0` and whose recycled `x` row is all nonnegative integers but whose row sum
is not `tol_equal` to the recycled size, the result is NaN under both settings
of `log_prob` (`exp` maps NaN to NaN) and the pass at that position raises the
warning "NaNs produced". -/
theorem cpp_ddirmnom_sum_mismatch (P : Prims α) (x : NumericMatrix α)
    (size : List (Dbl α)) (alpha : NumericMatrix α) (log_prob : Bool)
    (hexp : P.exp Dbl.nan = Dbl.nan)
    (hn : 0 < x.nrow) (hna : 0 < alpha.nrow) (hns : 0 < size.length)
    (hm : 2 ≤ x.ncol) (hk : x.ncol ≤ alpha.ncol)
    (i : Nat) (hi : i < max x.nrow (max alpha.nrow size.length))
    (ha : ∀ j, j < x.ncol → Dbl.lt (Dbl.fin 0) (alpha.elem (i % alpha.nrow) j) = true)
    (hx : ∀ j, j < x.ncol → Dbl.lt (x.elem (i % x.nrow) j) (Dbl.fin 0) = false ∧
      P.isInteger (x.elem (i % x.nrow) j) = true)
    (htol : P.tol_equal (sumTo (fun j => x.elem (i % x.nrow) j) x.ncol)
      (vget size (i % size.length)) = false) :
    ∃ r, cpp_ddirmnom P x size alpha log_prob = Except.ok r ∧
      vget r.out i = Dbl.nan ∧ "NaNs produced" ∈ r.warnings ∧
      (ddirmnom_row P x size alpha i).2 = ["NaNs produced"] := by
  have hrow : ddirmnom_row P x size alpha i = (Dbl.nan, ["NaNs produced"]) := by
    rw [ddirmnom_row_valid P x size alpha i hn hna hns
      (fun c hc => ⟨Dbl.le_zero_of_pos _ (ha c hc), by simp [(hx c hc).1, (hx c hc).2]⟩), htol]
    simp
  rw [ddirmnom_run P x size alpha log_prob hn hna hns hm hk]
  refine ⟨_, rfl, ?_, ?_, by rw [hrow]⟩
  · cases log_prob with
    | true =>
      simp only [if_true]
      rw [vget_range_map _ _ _ hi, hrow]
    | false =>
      simp only [Bool.false_eq_true, if_false]
      rw [vget_take_map_drop _ _ _ _ (by simp), vget_range_map _ _ _ hi, hrow]
      simp [hexp]
  · simp only [List.mem_flatten, List.mem_map, List.mem_range]
    exact ⟨_, ⟨i, hi, rfl⟩, by rw [hrow]; simp⟩

/-- Witness of C13: `x = [2, 2]`, `size = 5`, `alpha = [1, 1]`, whose row sum is `4`. -/
theorem cpp_ddirmnom_sum_mismatch_witness :
    ∃ r, cpp_ddirmnom Q.prims Q.x22 [Dbl.fin 5] Q.alpha11 false = Except.ok r ∧
      vget r.out 0 = Dbl.nan ∧ "NaNs produced" ∈ r.warnings ∧
      (ddirmnom_row Q.prims Q.x22 [Dbl.fin 5] Q.alpha11 0).2 = ["NaNs produced"] :=
  cpp_ddirmnom_sum_mismatch Q.prims Q.x22 [Dbl.fin 5] Q.alpha11 false rfl
    (by decide) (by decide) (by decide) (by decide) (by decide) 0 (by decide)
    (by
      intro j hj
      have hj2 : j < 2 := hj
      interval_cases j <;> norm_num [Q.alpha11, NumericMatrix.ofRows, vget])
    (by
      intro j hj
      have hj2 : j < 2 := hj
      interval_cases j <;>
        norm_num [Q.x22, NumericMatrix.ofRows, vget, Q.prims, Q.isInteger])
    (by
      norm_num [Q.x22, NumericMatrix.ofRows, vget, sumTo, List.range_succ, Q.prims,
        Q.tol_equal])

/-- C11 (counterexample): `cpp_dhnorm` on a NaN `x` with `sigma = -1` has a position
whose `sigma` is `<= 0`, returns NaN there and raises no warning. -/
theorem cpp_dhnorm_nan_x_silent :
    cpp_dhnorm Q.prims [Dbl.nan] [Dbl.fin (-1)] false = Except.ok ⟨[Dbl.nan], []⟩ := by
  norm_num [cpp_dhnorm, forLoop, hnorm_body, GETV, imod, vget, pdf_hnorm, raise, Dbl.isNaN,
    List.replicate]

/-- C11 (amended): on non-empty inputs, every output position of `cpp_dhnorm`,
`cpp_phnorm`, `cpp_qhnorm` and `cpp_rhnorm` whose recycled `sigma` is `<= 0`
holds NaN (`log` maps NaN to NaN), whatever `x` or `p` is there; the call raises
exactly one warning whenever at least one such position has an `x` (for the
quantile an adjusted `p`) that is not NaN, and for `cpp_rhnorm` whenever at
least one such position exists. -/
theorem hnorm_nonpositive_sigma {G : Type} (P : Prims α) (R : Rng α G)
    (hlog : P.log Dbl.nan = Dbl.nan) :
    (∀ (x sigma : List (Dbl α)) (lp : Bool), 0 < x.length → 0 < sigma.length →
      ∃ r, cpp_dhnorm P x sigma lp = Except.ok r ∧
        (∀ i, i < max x.length sigma.length →
          Dbl.le (vget sigma (i % sigma.length)) (Dbl.fin 0) = true →
          vget r.out i = Dbl.nan) ∧
        ((∃ i, i < max x.length sigma.length ∧
            Dbl.le (vget sigma (i % sigma.length)) (Dbl.fin 0) = true ∧
            Dbl.isNaN (vget x (i % x.length)) = false) →
          r.warnings = ["NaNs produced"])) ∧
    (∀ (x sigma : List (Dbl α)) (lt lp : Bool), 0 < x.length → 0 < sigma.length →
      ∃ r, cpp_phnorm P x sigma lt lp = Except.ok r ∧
        (∀ i, i < max x.length sigma.length →
          Dbl.le (vget sigma (i % sigma.length)) (Dbl.fin 0) = true →
          vget r.out i = Dbl.nan) ∧
        ((∃ i, i < max x.length sigma.length ∧
            Dbl.le (vget sigma (i % sigma.length)) (Dbl.fin 0) = true ∧
            Dbl.isNaN (vget x (i % x.length)) = false) →
          r.warnings = ["NaNs produced"])) ∧
    (∀ (p sigma : List (Dbl α)) (lt lp : Bool), 0 < p.length → 0 < sigma.length →
      ∃ r, cpp_qhnorm P p sigma lt lp = Except.ok r ∧
        (∀ i, i < max p.length sigma.length →
          Dbl.le (vget sigma (i % sigma.length)) (Dbl.fin 0) = true →
          vget r.out i = Dbl.nan) ∧
        ((∃ i, i < max p.length sigma.length ∧
            Dbl.le (vget sigma (i % sigma.length)) (Dbl.fin 0) = true ∧
            Dbl.isNaN (adjusted P lt lp (vget p (i % p.length))) = false) →
          r.warnings = ["NaNs produced"])) ∧
    (∀ (n : Nat) (sigma : List (Dbl α)) (g : G), 0 < sigma.length →
      ∃ st, cpp_rhnorm R n sigma g = Except.ok st ∧
        (∀ i, i < n → Dbl.le (vget sigma (i % sigma.length)) (Dbl.fin 0) = true →
          vget st.out i = Dbl.nan) ∧
        ((∃ i, i < n ∧ Dbl.le (vget sigma (i % sigma.length)) (Dbl.fin 0) = true) →
          st.warn = ["NAs produced"])) := by
  refine ⟨?_, ?_, ?_, ?_⟩
  · intro x sigma lp hx hs
    refine ⟨_, cpp_dhnorm_run P x sigma lp hx hs, ?_, ?_⟩
    · intro i hi hle
      simp only []
      rw [vget_range_map _ _ _ hi, pdf_hnorm_nonpos P _ _ _ hle]
      cases lp <;> simp [hlog]
    · rintro ⟨i, hi, hle, hnan⟩
      have hany : (List.range (max x.length sigma.length)).any (fun i =>
          !(Dbl.isNaN (vget x (i % x.length)) || Dbl.isNaN (vget sigma (i % sigma.length))) &&
            Dbl.le (vget sigma (i % sigma.length)) (Dbl.fin 0)) = true :=
        List.any_eq_true.mpr ⟨i, List.mem_range.mpr hi,
          by simp [hnan, hle, Dbl.le_not_nan _ _ hle]⟩
      simp only [hany, raise, if_true]
  · intro x sigma lt lp hx hs
    refine ⟨_, cpp_phnorm_run P x sigma lt lp hx hs, ?_, ?_⟩
    · intro i hi hle
      simp only []
      rw [vget_range_map _ _ _ hi, cdf_hnorm_nonpos P _ _ _ hle]
      cases lt <;> cases lp <;> simp [hlog, Dbl.sub_nan]
    · rintro ⟨i, hi, hle, hnan⟩
      have hany : (List.range (max x.length sigma.length)).any (fun i =>
          !(Dbl.isNaN (vget x (i % x.length)) || Dbl.isNaN (vget sigma (i % sigma.length))) &&
            Dbl.le (vget sigma (i % sigma.length)) (Dbl.fin 0)) = true :=
        List.any_eq_true.mpr ⟨i, List.mem_range.mpr hi,
          by simp [hnan, hle, Dbl.le_not_nan _ _ hle]⟩
      simp only [hany, raise, if_true]
  · intro p sigma lt lp hx hs
    refine ⟨_, cpp_qhnorm_run P p sigma lt lp hx hs, ?_, ?_⟩
    · intro i hi hle
      simp only []
      rw [vget_range_map _ _ _ hi]
      exact invcdf_hnorm_invalid P _ _ _ (by simp [hle]) (Dbl.le_not_nan _ _ hle)
    · rintro ⟨i, hi, hle, hnan⟩
      have hany : (List.range (max p.length sigma.length)).any (fun i =>
          !(Dbl.isNaN (adjusted P lt lp (vget p (i % p.length))) ||
            Dbl.isNaN (vget sigma (i % sigma.length))) &&
            (Dbl.le (vget sigma (i % sigma.length)) (Dbl.fin 0) ||
              !VALID_PROB (adjusted P lt lp (vget p (i % p.length))))) = true :=
        List.any_eq_true.mpr ⟨i, List.mem_range.mpr hi,
          by simp [hnan, hle, Dbl.le_not_nan _ _ hle]⟩
      simp only [hany, raise, if_true]
  · intro n sigma g hs
    obtain ⟨st, hst, _, hw, hv⟩ := cpp_rhnorm_values R n sigma g hs
    refine ⟨st, hst, ?_, ?_⟩
    · intro i hi hle
      exact hv i hi (by simp [hle])
    · rintro ⟨i, hi, hle⟩
      have hany : (List.range n).any (fun i =>
          Dbl.isNaN (vget sigma (i % sigma.length)) ||
            Dbl.le (vget sigma (i % sigma.length)) (Dbl.fin 0)) = true :=
        List.any_eq_true.mpr ⟨i, List.mem_range.mpr hi, by simp [hle]⟩
      rw [hw, hany]
      rfl

/-- Witness of C11 (amended): `cpp_dhnorm` on `x = [1, 2]`, `sigma = [-1]` with
`log_prob` on. -/
theorem hnorm_nonpositive_sigma_witness :
    ∃ r, cpp_dhnorm Q.prims [Dbl.fin 1, Dbl.fin 2] [Dbl.fin (-1)] true = Except.ok r ∧
      (∀ i, i < max [Dbl.fin (1 : ℚ), Dbl.fin 2].length [Dbl.fin (-1 : ℚ)].length →
        Dbl.le (vget [Dbl.fin (-1 : ℚ)] (i % [Dbl.fin (-1 : ℚ)].length)) (Dbl.fin 0) = true →
        vget r.out i = Dbl.nan) ∧
      ((∃ i, i < max [Dbl.fin (1 : ℚ), Dbl.fin 2].length [Dbl.fin (-1 : ℚ)].length ∧
          Dbl.le (vget [Dbl.fin (-1 : ℚ)] (i % [Dbl.fin (-1 : ℚ)].length)) (Dbl.fin 0) = true ∧
          Dbl.isNaN (vget [Dbl.fin (1 : ℚ), Dbl.fin 2]
            (i % [Dbl.fin (1 : ℚ), Dbl.fin 2].length)) = false) →
        r.warnings = ["NaNs produced"]) :=
  (hnorm_nonpositive_sigma Q.prims Q.replay rfl).1 [Dbl.fin 1, Dbl.fin 2] [Dbl.fin (-1)] true
    (by decide) (by decide)

/-- Invalid parameters of the zero-inflated Poisson operations, for every backend:
on non-empty inputs, every output position of `cpp_dzip`, `cpp_pzip`,
`cpp_rzip`, and of `cpp_qzip` when `lambda` and `pi` are vectors of their own,
whose recycled `lambda` is `<= 0` or whose recycled `pi` is `< 0` or `> 1` holds
NaN, under every setting of `log_prob` and `lower_tail` and whatever `x` or `p`
is (`log` maps NaN to NaN); `rng_zip` on such parameters hands back the
generator it was given, so that `cpp_rzip` over `n + 1` positions whose last
one is invalid leaves the generator where `cpp_rzip` over `n` positions leaves
it. -/
theorem zip_invalid_parameters {G : Type} (P : Prims α) (R : Rng α G)
    (hlog : P.log Dbl.nan = Dbl.nan) :
    (∀ (x lambda pi : List (Dbl α)) (lp : Bool),
      0 < x.length → 0 < lambda.length → 0 < pi.length →
      ∃ r, cpp_dzip P x lambda pi lp = Except.ok r ∧
        ∀ i, i < max x.length (max pi.length lambda.length) →
          zip_invalid (vget lambda (i % lambda.length)) (vget pi (i % pi.length)) = true →
          vget r.out i = Dbl.nan) ∧
    (∀ (x lambda pi : List (Dbl α)) (lt lp : Bool),
      0 < x.length → 0 < lambda.length → 0 < pi.length →
      ∃ r, cpp_pzip P x lambda pi lt lp = Except.ok r ∧
        ∀ i, i < max x.length (max pi.length lambda.length) →
          zip_invalid (vget lambda (i % lambda.length)) (vget pi (i % pi.length)) = true →
          vget r.out i = Dbl.nan) ∧
    (∀ (p lambda pi : List (Dbl α)) (lt lp : Bool),
      0 < p.length → 0 < lambda.length → 0 < pi.length →
      ∃ r, cpp_qzip P p (Param.own lambda) (Param.own pi) lt lp = Except.ok r ∧
        ∀ i, i < max p.length (max pi.length lambda.length) →
          zip_invalid (vget lambda (i % lambda.length)) (vget pi (i % pi.length)) = true →
          vget r.res.out i = Dbl.nan) ∧
    (∀ (n : Nat) (lambda pi : List (Dbl α)) (g : G), 0 < lambda.length → 0 < pi.length →
      ∃ st, cpp_rzip R n lambda pi g = Except.ok st ∧
        ∀ i, i < n →
          zip_invalid (vget lambda (i % lambda.length)) (vget pi (i % pi.length)) = true →
          vget st.out i = Dbl.nan) ∧
    (∀ (lambda pi : Dbl α) (w : List String) (g : G), zip_invalid lambda pi = true →
      rng_zip R lambda pi w g = (Dbl.nan, w ++ ["NaNs produced"], g)) ∧
    (∀ (n : Nat) (lambda pi : List (Dbl α)) (g : G), 0 < lambda.length → 0 < pi.length →
      zip_invalid (vget lambda (n % lambda.length)) (vget pi (n % pi.length)) = true →
      ∃ s t, cpp_rzip R (n + 1) lambda pi g = Except.ok s ∧
        cpp_rzip R n lambda pi g = Except.ok t ∧ s.gen = t.gen) := by
  refine ⟨?_, ?_, ?_, ?_, ?_, ?_⟩
  · intro x lambda pi lp hx hl hp
    refine ⟨_, cpp_dzip_run P x lambda pi lp hx hl hp, ?_⟩
    intro i hi hbad
    simp only []
    rw [vget_range_map _ _ _ hi, pdf_zip_invalid P _ _ _ _ hbad]
    cases lp <;> simp [hlog]
  · intro x lambda pi lt lp hx hl hp
    refine ⟨_, cpp_pzip_run P x lambda pi lt lp hx hl hp, ?_⟩
    intro i hi hbad
    simp only []
    rw [vget_range_map _ _ _ hi, cdf_zip_invalid P _ _ _ _ hbad]
    cases lt <;> cases lp <;> simp [hlog, Dbl.sub_nan]
  · intro p lambda pi lt lp hx hl hp
    refine ⟨_, cpp_qzip_run P p (Param.own lambda) (Param.own pi) lt lp hx hl hp, ?_⟩
    intro i hi hbad
    have hi₁ : i < max p.length
        (max ((Param.own pi).read p).length ((Param.own lambda).read p).length) := hi
    simp only []
    rw [vget_range_map _ _ _ hi₁]
    exact invcdf_zip_invalid P _ _ _ _
      (by
        simp only [Param.read] at hbad ⊢
        simp [hbad])
  · intro n lambda pi g hl hp
    obtain ⟨st, hst, _, hv⟩ := cpp_rzip_values R n lambda pi g hl hp
    exact ⟨st, hst, hv⟩
  · intro lambda pi w g hbad
    exact rng_zip_invalid R lambda pi w g hbad
  · intro n lambda pi g hl hp hbad
    exact cpp_rzip_no_draw R n lambda pi g hl hp hbad

/-- C14 (the code at the failing input): `cpp_qzip` called with the one vector
`v = [-1]` as `p` and as `lambda`, with `pi = [9/10]`, lower tail and `log_prob`
on.  The recycled `lambda` is `-1 <= 0`, but the loop `p[i] = exp(p[i])` writes
`exp(-1)` into the storage that `lambda` shares with `p`: the main loop reads
`lambda = exp(-1) > 0`, finds `p = exp(-1) < pi` and returns the quantile `0`
without a warning, where the claim has NaN. -/
theorem cpp_qzip_shared_lambda_overwritten (P : Prims α) (e : α)
    (he : P.exp (Dbl.fin (-1)) = Dbl.fin e) (he₀ : 0 < e) (he₁ : e < 9 / 10) :
    Dbl.le (Dbl.fin (-1 : α)) (Dbl.fin 0) = true ∧
    ∃ r, cpp_qzip P [Dbl.fin (-1)] Param.shared (Param.own [Dbl.fin (9 / 10)]) true true =
        Except.ok r ∧
      r.res.out = [Dbl.fin 0] ∧ r.res.warnings = [] ∧ r.p_after = [Dbl.fin e] := by
  refine ⟨by simp, ?_⟩
  have h910 : (0 : α) ≤ 9 / 10 := by norm_num
  have h910' : (9 : α) / 10 ≤ 1 := by norm_num
  have hinv : zip_invalid (Dbl.fin e) (Dbl.fin (9 / 10 : α)) = false := by
    simp [zip_invalid, he₀, h910, h910']
  refine ⟨_, cpp_qzip_run P [Dbl.fin (-1)] Param.shared (Param.own [Dbl.fin (9 / 10)])
    true true (by simp) (by simp [Param.read]) (by simp [Param.read]), ?_, ?_, ?_⟩
  · have hr1 : List.range 1 = [0] := rfl
    simp [Param.read, hr1, adjusted, vget, he, invcdf_zip, hinv, he₁,
      not_lt.mpr (le_of_lt he₀), not_lt.mpr (le_trans (le_of_lt he₁) h910')]
  · have hr1 : List.range 1 = [0] := rfl
    simp [Param.read, hr1, adjusted, vget, he, hinv,
      not_lt.mpr (le_of_lt he₀), not_lt.mpr (le_trans (le_of_lt he₁) h910')]
  · simp [adjusted, he]

/-- Witness of C14: the rational backend, whose `exp(-1)` is `1/2`. -/
theorem cpp_qzip_shared_lambda_overwritten_witness :
    Dbl.le (Dbl.fin (-1 : ℚ)) (Dbl.fin 0) = true ∧
    ∃ r, cpp_qzip Q.prims [Dbl.fin (-1)] Param.shared (Param.own [Dbl.fin (9 / 10)])
        true true = Except.ok r ∧
      r.res.out = [Dbl.fin 0] ∧ r.res.warnings = [] ∧ r.p_after = [Dbl.fin (1 / 2)] :=
  cpp_qzip_shared_lambda_overwritten Q.prims (1 / 2) (by norm_num [Q.prims, Q.exp])
    (by norm_num) (by norm_num)

/-- C15: for `lambda > 0` and `pi` in `[0,1]`, `pdf_zip(0, lambda, pi)` is
`pi + (1 - pi) * exp(-lambda)` (zero being an integer for `isInteger`),
`pdf_zip(x, lambda, pi)` is `(1 - pi) * dpois(x, lambda)` for every integer
`x > 0`, and `pdf_zip(x, lambda, pi)` is `0` for every `x < 0` and every
non-integer `x`; none of these calls raises a warning.  In particular
`pdf_zip(0, 2, 3/10) = 3/10 + 7/10 * exp(-2)`. -/
theorem pdf_zip_values (P : Prims α) (lambda pi : α) (w : List String)
    (hl : 0 < lambda) (hp₀ : 0 ≤ pi) (hp₁ : pi ≤ 1)
    (h0 : P.isInteger (Dbl.fin 0) = true) :
    pdf_zip P (Dbl.fin 0) (Dbl.fin lambda) (Dbl.fin pi) w =
      (Dbl.fin pi + Dbl.fin (1 - pi) * P.exp (Dbl.fin (-lambda)), w) ∧
    (∀ v : α, 0 < v → P.isInteger (Dbl.fin v) = true →
      pdf_zip P (Dbl.fin v) (Dbl.fin lambda) (Dbl.fin pi) w =
        (Dbl.fin (1 - pi) * P.dpois (Dbl.fin v) (Dbl.fin lambda), w)) ∧
    (∀ x : Dbl α, (Dbl.lt x (Dbl.fin 0) = true ∨ P.isInteger x = false) →
      pdf_zip P x (Dbl.fin lambda) (Dbl.fin pi) w = (Dbl.fin 0, w)) ∧
    pdf_zip P (Dbl.fin 0) (Dbl.fin 2) (Dbl.fin (3 / 10)) w =
      (Dbl.fin (3 / 10) + Dbl.fin (7 / 10) * P.exp (Dbl.fin (-2)), w) := by
  have hinv : zip_invalid (Dbl.fin lambda) (Dbl.fin pi) = false := by
    simp [zip_invalid, hl, hp₀, hp₁]
  refine ⟨?_, ?_, ?_, ?_⟩
  · simp [pdf_zip, hinv, h0]
  · intro v hv hint
    simp [pdf_zip, hinv, hint, not_lt.mpr (le_of_lt hv), ne_of_gt hv]
  · intro x hx
    rcases hx with hx | hx <;> simp [pdf_zip, hinv, hx]
  · have hinv2 : zip_invalid (Dbl.fin (2 : α)) (Dbl.fin (3 / 10)) = false := by
      simp only [zip_invalid, Dbl.le_fin_fin, Dbl.lt_fin_fin]
      norm_num
    have e : (1 : α) - 3 / 10 = 7 / 10 := by norm_num
    simp [pdf_zip, hinv2, h0, e]

/-- Witness of C15: `lambda = 2`, `pi = 3/10` on the rational backend. -/
theorem pdf_zip_values_witness :
    pdf_zip Q.prims (Dbl.fin 0) (Dbl.fin 2) (Dbl.fin (3 / 10)) [] =
      (Dbl.fin (3 / 10) + Dbl.fin (1 - 3 / 10) * Q.prims.exp (Dbl.fin (-2)), []) ∧
    (∀ v : ℚ, 0 < v → Q.prims.isInteger (Dbl.fin v) = true →
      pdf_zip Q.prims (Dbl.fin v) (Dbl.fin 2) (Dbl.fin (3 / 10)) [] =
        (Dbl.fin (1 - 3 / 10) * Q.prims.dpois (Dbl.fin v) (Dbl.fin 2), [])) ∧
    (∀ x : Dbl ℚ, (Dbl.lt x (Dbl.fin 0) = true ∨ Q.prims.isInteger x = false) →
      pdf_zip Q.prims x (Dbl.fin 2) (Dbl.fin (3 / 10)) [] = (Dbl.fin 0, [])) ∧
    pdf_zip Q.prims (Dbl.fin 0) (Dbl.fin 2) (Dbl.fin (3 / 10)) [] =
      (Dbl.fin (3 / 10) + Dbl.fin (7 / 10) * Q.prims.exp (Dbl.fin (-2)), []) :=
  pdf_zip_values Q.prims 2 (3 / 10) [] (by norm_num) (by norm_num) (by norm_num)
    (by norm_num [Q.prims, Q.isInteger])

/-- C16: for `sigma > 0`, `lambda > 0` and `pi` in `[0,1]`, with a normal cdf
primitive `Φ` and a Poisson cdf primitive `F` that are non-decreasing on
`x >= 0` with values in `[0,1]` and `Φ(0) = 1/2`, the kernels `cdf_hnorm` and
`cdf_zip` return on every finite `x` finite values `cH(x)` and `cZ(x)` that
are `0` for `x < 0`, lie in `[0,1]`, and are non-decreasing in `x` over the
whole line; no call touches the warning flag or raises a warning. -/
theorem cdf_kernels_monotone_bounded (P : Prims α) (sigma lambda pi : α) (Φ F : α → α)
    (t : Bool) (w : List String)
    (hs : 0 < sigma) (hl : 0 < lambda) (hp₀ : 0 ≤ pi) (hp₁ : pi ≤ 1)
    (hΦ : ∀ v, 0 ≤ v → P.pnorm (Dbl.fin v) (Dbl.fin 0) (Dbl.fin sigma) = Dbl.fin (Φ v))
    (hΦm : ∀ u v, 0 ≤ u → u ≤ v → Φ u ≤ Φ v)
    (hΦ₁ : ∀ v, 0 ≤ v → Φ v ≤ 1) (hΦ₀ : Φ 0 = 1 / 2)
    (hF : ∀ v, 0 ≤ v → P.ppois (Dbl.fin v) (Dbl.fin lambda) = Dbl.fin (F v))
    (hFm : ∀ u v, 0 ≤ u → u ≤ v → F u ≤ F v)
    (hFb : ∀ v, 0 ≤ v → 0 ≤ F v ∧ F v ≤ 1) :
    ∃ cH cZ : α → α,
      (∀ v, cdf_hnorm P (Dbl.fin v) (Dbl.fin sigma) t = (Dbl.fin (cH v), t)) ∧
      (∀ v, cdf_zip P (Dbl.fin v) (Dbl.fin lambda) (Dbl.fin pi) w = (Dbl.fin (cZ v), w)) ∧
      (∀ v, v < 0 → cH v = 0 ∧ cZ v = 0) ∧
      (∀ v, 0 ≤ cH v ∧ cH v ≤ 1 ∧ 0 ≤ cZ v ∧ cZ v ≤ 1) ∧
      (∀ u v, u ≤ v → cH u ≤ cH v ∧ cZ u ≤ cZ v) := by
  have hinv : zip_invalid (Dbl.fin lambda) (Dbl.fin pi) = false := by
    simp [zip_invalid, hl, hp₀, hp₁]
  have hHb : ∀ v, 0 ≤ v → 0 ≤ 2 * Φ v - 1 ∧ 2 * Φ v - 1 ≤ 1 := by
    intro v hv
    have h₁ := hΦm 0 v (le_refl 0) hv
    have h₂ := hΦ₁ v hv
    rw [hΦ₀] at h₁
    constructor <;> linarith
  have h1p : 0 ≤ 1 - pi := sub_nonneg.mpr hp₁
  have hZb : ∀ v, 0 ≤ v → 0 ≤ pi + (1 - pi) * F v ∧ pi + (1 - pi) * F v ≤ 1 := by
    intro v hv
    obtain ⟨h₁, h₂⟩ := hFb v hv
    have h₃ : 0 ≤ (1 - pi) * F v := mul_nonneg h1p h₁
    have h₄ : (1 - pi) * F v ≤ (1 - pi) * 1 := mul_le_mul_of_nonneg_left h₂ h1p
    constructor <;> linarith
  refine ⟨fun v => if v < 0 then 0 else 2 * Φ v - 1,
    fun v => if v < 0 then 0 else pi + (1 - pi) * F v, ?_, ?_, ?_, ?_, ?_⟩
  · intro v
    by_cases hv : v < 0
    · simp [cdf_hnorm, not_le.mpr hs, hv]
    · simp [cdf_hnorm, not_le.mpr hs, hv, hΦ v (not_lt.mp hv)]
  · intro v
    by_cases hv : v < 0
    · simp [cdf_zip, hinv, hv]
    · simp [cdf_zip, hinv, hv, hF v (not_lt.mp hv)]
  · intro v hv
    simp [hv]
  · intro v
    by_cases hv : v < 0
    · simp [hv]
    · simp only [hv, if_false]
      exact ⟨(hHb v (not_lt.mp hv)).1, (hHb v (not_lt.mp hv)).2,
        (hZb v (not_lt.mp hv)).1, (hZb v (not_lt.mp hv)).2⟩
  · intro u v huv
    by_cases hu : u < 0
    · by_cases hv : v < 0
      · simp [hu, hv]
      · simp only [hu, hv, if_true, if_false]
        exact ⟨(hHb v (not_lt.mp hv)).1, (hZb v (not_lt.mp hv)).1⟩
    · have hu₀ : 0 ≤ u := not_lt.mp hu
      have hv : ¬ v < 0 := not_lt.mpr (le_trans hu₀ huv)
      simp only [hu, hv, if_false]
      have h₁ := hΦm u v hu₀ huv
      have h₂ := mul_le_mul_of_nonneg_left (hFm u v hu₀ huv) h1p
      constructor <;> linarith

/-- Witness of C16: `sigma = 1`, `lambda = 1`, `pi = 1/2` on the rational backend,
whose normal cdf is `1/2 + x/(2(1+|x|))` and whose Poisson cdf is `1 - 1/(x+2)`. -/
theorem cdf_kernels_monotone_bounded_witness :
    ∃ cH cZ : ℚ → ℚ,
      (∀ v, cdf_hnorm Q.prims (Dbl.fin v) (Dbl.fin 1) false = (Dbl.fin (cH v), false)) ∧
      (∀ v, cdf_zip Q.prims (Dbl.fin v) (Dbl.fin 1) (Dbl.fin (1 / 2)) [] =
        (Dbl.fin (cZ v), [])) ∧
      (∀ v, v < 0 → cH v = 0 ∧ cZ v = 0) ∧
      (∀ v, 0 ≤ cH v ∧ cH v ≤ 1 ∧ 0 ≤ cZ v ∧ cZ v ≤ 1) ∧
      (∀ u v, u ≤ v → cH u ≤ cH v ∧ cZ u ≤ cZ v) :=
  cdf_kernels_monotone_bounded Q.prims 1 1 (1 / 2)
    (fun v => 1 / 2 + v / (2 * (1 + v))) (fun v => 1 - 1 / (v + 2)) false []
    (by norm_num) (by norm_num) (by norm_num) (by norm_num)
    (by
      intro v hv
      simp [Q.prims, Q.pnorm, abs_of_nonneg hv])
    (by
      intro u v hu huv
      have hv : 0 ≤ v := le_trans hu huv
      have h : u / (2 * (1 + u)) ≤ v / (2 * (1 + v)) := by
        rw [div_le_div_iff₀ (by linarith) (by linarith)]
        nlinarith
      linarith)
    (by
      intro v hv
      have h : v / (2 * (1 + v)) ≤ 1 / 2 := by
        rw [div_le_div_iff₀ (by linarith) (by norm_num)]
        linarith
      linarith)
    (by norm_num)
    (by
      intro v hv
      simp [Q.prims, Q.ppois, not_lt.mpr hv])
    (by
      intro u v hu huv
      have h : 1 / (v + 2) ≤ 1 / (u + 2) :=
        one_div_le_one_div_of_le (by linarith) (by linarith)
      linarith)
    (by
      intro v hv
      have h₁ : 0 ≤ 1 / (v + 2) := by positivity
      have h₂ : 1 / (v + 2) ≤ 1 := by
        rw [div_le_one (by linarith)]
        linarith
      constructor <;> linarith)

/-- C17: `cpp_qhnorm` and `cpp_qzip` hand to their kernel the adjusted
probability, the input `p` exponentiated when `log_prob` is on and then
replaced by the double `1 - p` (the exact difference, rounded) when
`lower_tail` is off; on non-empty inputs every output position equals the
scalar quantile kernel at the adjusted probability, and at every position
whose adjusted probability is below `0` or above `1` (for `cpp_qhnorm`: with
`sigma > 0`) the output is NaN and the warning "NaNs produced" is raised.  The
range test reads the rounded value: an input whose exact complement is above
`1` and rounds to `1` is in range.  For `cpp_qzip` the arguments `lambda` and
`pi` are vectors of their own or the vector passed as `p`, and the kernel reads
them as they stand after the adjustment of `p`. -/
theorem quantile_adjusted_probability (P : Prims α) :
    (∀ q : Dbl α, adjusted P true false q = q ∧ adjusted P true true q = P.exp q ∧
      adjusted P false false q = complement P q ∧
      adjusted P false true q = complement P (P.exp q)) ∧
    (∀ a : α, complement P (Dbl.fin a) = Dbl.fin (P.round (1 - a))) ∧
    (∀ (p sigma : List (Dbl α)) (lt lp : Bool), 0 < p.length → 0 < sigma.length →
      ∃ r, cpp_qhnorm P p sigma lt lp = Except.ok r ∧
        ∀ i, i < max p.length sigma.length →
          vget r.out i =
            (invcdf_hnorm P (adjusted P lt lp (vget p (i % p.length)))
              (vget sigma (i % sigma.length)) false).1 ∧
          (Dbl.lt (Dbl.fin 0) (vget sigma (i % sigma.length)) = true →
            (Dbl.lt (adjusted P lt lp (vget p (i % p.length))) (Dbl.fin 0) = true ∨
              Dbl.lt (Dbl.fin 1) (adjusted P lt lp (vget p (i % p.length))) = true) →
            vget r.out i = Dbl.nan ∧ r.warnings = ["NaNs produced"])) ∧
    (∀ (p : List (Dbl α)) (lambda pi : Param α) (lt lp : Bool),
      0 < p.length → 0 < (lambda.read p).length → 0 < (pi.read p).length →
      ∃ r, cpp_qzip P p lambda pi lt lp = Except.ok r ∧
        ∀ i, i < max p.length (max (pi.read p).length (lambda.read p).length) →
          vget r.res.out i =
            (invcdf_zip P (adjusted P lt lp (vget p (i % p.length)))
              (vget (lambda.read (p.map (adjusted P lt lp))) (i % (lambda.read p).length))
              (vget (pi.read (p.map (adjusted P lt lp))) (i % (pi.read p).length)) []).1 ∧
          ((Dbl.lt (adjusted P lt lp (vget p (i % p.length))) (Dbl.fin 0) = true ∨
              Dbl.lt (Dbl.fin 1) (adjusted P lt lp (vget p (i % p.length))) = true) →
            vget r.res.out i = Dbl.nan ∧ "NaNs produced" ∈ r.res.warnings)) := by
  refine ⟨fun q => ⟨rfl, rfl, rfl, rfl⟩, fun a => ?_, ?_, ?_⟩
  · simp [complement, Dbl.rounded]
  · intro p sigma lt lp hx hs
    refine ⟨_, cpp_qhnorm_run P p sigma lt lp hx hs, ?_⟩
    intro i hi
    have hval : vget ((List.range (max p.length sigma.length)).map (fun i =>
        (invcdf_hnorm P (adjusted P lt lp (vget p (i % p.length)))
          (vget sigma (i % sigma.length)) false).1)) i =
        (invcdf_hnorm P (adjusted P lt lp (vget p (i % p.length)))
          (vget sigma (i % sigma.length)) false).1 := by
      rw [vget_range_map _ _ _ hi]
    refine ⟨hval, ?_⟩
    intro hpos hout
    have hsn : Dbl.isNaN (vget sigma (i % sigma.length)) = false :=
      Dbl.lt_right_not_nan _ _ hpos
    have hpn : Dbl.isNaN (adjusted P lt lp (vget p (i % p.length))) = false := by
      rcases hout with h | h
      · exact Dbl.lt_left_not_nan _ _ h
      · exact Dbl.lt_right_not_nan _ _ h
    have hvp := VALID_PROB_false_of_outside _ hout
    refine ⟨?_, ?_⟩
    · simp only []
      rw [hval]
      exact invcdf_hnorm_invalid P _ _ _ (by simp [hvp]) hsn
    · have hany : (List.range (max p.length sigma.length)).any (fun i =>
          !(Dbl.isNaN (adjusted P lt lp (vget p (i % p.length))) ||
            Dbl.isNaN (vget sigma (i % sigma.length))) &&
            (Dbl.le (vget sigma (i % sigma.length)) (Dbl.fin 0) ||
              !VALID_PROB (adjusted P lt lp (vget p (i % p.length))))) = true :=
        List.any_eq_true.mpr ⟨i, List.mem_range.mpr hi, by simp [hpn, hsn, hvp]⟩
      simp only [hany, raise, if_true]
  · intro p lambda pi lt lp hx hl hp
    refine ⟨_, cpp_qzip_run P p lambda pi lt lp hx hl hp, ?_⟩
    intro i hi
    have hval : vget ((List.range
        (max p.length (max (pi.read p).length (lambda.read p).length))).map (fun i =>
        (invcdf_zip P (adjusted P lt lp (vget p (i % p.length)))
          (vget (lambda.read (p.map (adjusted P lt lp))) (i % (lambda.read p).length))
          (vget (pi.read (p.map (adjusted P lt lp))) (i % (pi.read p).length)) []).1)) i =
        (invcdf_zip P (adjusted P lt lp (vget p (i % p.length)))
          (vget (lambda.read (p.map (adjusted P lt lp))) (i % (lambda.read p).length))
          (vget (pi.read (p.map (adjusted P lt lp))) (i % (pi.read p).length)) []).1 := by
      rw [vget_range_map _ _ _ hi]
    refine ⟨hval, ?_⟩
    intro hout
    have hbad : (zip_invalid
          (vget (lambda.read (p.map (adjusted P lt lp))) (i % (lambda.read p).length))
          (vget (pi.read (p.map (adjusted P lt lp))) (i % (pi.read p).length)) ||
        Dbl.lt (adjusted P lt lp (vget p (i % p.length))) (Dbl.fin 0) ||
        Dbl.lt (Dbl.fin 1) (adjusted P lt lp (vget p (i % p.length)))) = true := by
      rcases hout with h | h <;> simp [h]
    refine ⟨?_, ?_⟩
    · simp only []
      rw [hval]
      exact invcdf_zip_invalid P _ _ _ _ hbad
    · simp only [List.mem_flatten, List.mem_map, List.mem_range]
      exact ⟨_, ⟨i, hi, rfl⟩, by simp only [hbad, if_true, List.mem_singleton]⟩

/-- Witness of C17: `cpp_qhnorm` on `p = [1/5, 2]`, `sigma = [1]`, lower tail, natural
scale; position `1` has the probability `2`. -/
theorem quantile_adjusted_probability_witness :
    ∃ r, cpp_qhnorm Q.prims [Dbl.fin (1 / 5), Dbl.fin 2] [Dbl.fin 1] true false =
        Except.ok r ∧
      ∀ i, i < max [Dbl.fin (1 / 5 : ℚ), Dbl.fin 2].length [Dbl.fin (1 : ℚ)].length →
        vget r.out i =
          (invcdf_hnorm Q.prims
            (adjusted Q.prims true false (vget [Dbl.fin (1 / 5 : ℚ), Dbl.fin 2]
              (i % [Dbl.fin (1 / 5 : ℚ), Dbl.fin 2].length)))
            (vget [Dbl.fin (1 : ℚ)] (i % [Dbl.fin (1 : ℚ)].length)) false).1 ∧
        (Dbl.lt (Dbl.fin 0) (vget [Dbl.fin (1 : ℚ)] (i % [Dbl.fin (1 : ℚ)].length)) = true →
          (Dbl.lt (adjusted Q.prims true false (vget [Dbl.fin (1 / 5 : ℚ), Dbl.fin 2]
              (i % [Dbl.fin (1 / 5 : ℚ), Dbl.fin 2].length))) (Dbl.fin 0) = true ∨
            Dbl.lt (Dbl.fin 1) (adjusted Q.prims true false
              (vget [Dbl.fin (1 / 5 : ℚ), Dbl.fin 2]
                (i % [Dbl.fin (1 / 5 : ℚ), Dbl.fin 2].length))) = true) →
          vget r.out i = Dbl.nan ∧ r.warnings = ["NaNs produced"]) :=
  (quantile_adjusted_probability Q.prims).2.2.1 [Dbl.fin (1 / 5), Dbl.fin 2] [Dbl.fin 1]
    true false (by decide) (by decide)

/-- The rounding of the complement at work: `cpp_qhnorm` on `p = [-2^-60]`,
`sigma = [1]`, upper tail, natural scale, with a rounding that takes
`1 + 2^-60` to `1` and a normal quantile that is `+Inf` at `1`.  The exact
complement `1 + 2^-60` is above `1`; the stored double is `1`, the range test
passes, and the result is `+Inf` with no warning. -/
theorem cpp_qhnorm_complement_rounds (P : Prims α)
    (hr : P.round (1 - -(1 / 2 ^ 60)) = 1)
    (hq : P.qnorm (Dbl.fin 1) (Dbl.fin 0) (Dbl.fin 1) = Dbl.pinf) :
    adjusted P false false (Dbl.fin (-(1 / 2 ^ 60))) = Dbl.fin 1 ∧
    cpp_qhnorm P [Dbl.fin (-(1 / 2 ^ 60))] [Dbl.fin 1] false false =
      Except.ok ⟨[Dbl.pinf], []⟩ := by
  have hadj : adjusted P false false (Dbl.fin (-(1 / 2 ^ 60))) = Dbl.fin 1 := by
    simp only [adjusted, Bool.false_eq_true, if_false, id, complement, Dbl.fin_sub_fin,
      Dbl.rounded, hr]
  refine ⟨hadj, ?_⟩
  rw [cpp_qhnorm_run P _ _ false false (by simp) (by simp)]
  generalize (Dbl.fin (-(1 / 2 ^ 60)) : Dbl α) = q at hadj ⊢
  have hr1 : List.range 1 = [0] := rfl
  have h2 : ((1 : α) + 1) / 2 = 1 := by norm_num
  have h0 : ¬ (1 : α) ≤ 0 := by norm_num
  simp [hr1, vget, hadj, invcdf_hnorm, VALID_PROB, raise, hq, h2, h0,
    Dbl.fin_div_fin _ _ (two_ne_zero : (2 : α) ≠ 0)]

/-- C18 (what the code does): `cpp_qzip` runs its two adjustment loops on the
argument `p` itself, so that on non-empty inputs the vector `p` holds, after
the call, the adjusted probabilities and not the values passed in, whether
`lambda` and `pi` are vectors of their own or the vector passed as `p`; with
`p = [1/5]` and `lower_tail` off it holds the double `1 - 1/5`. -/
theorem cpp_qzip_overwrites_p (P : Prims α) (p : List (Dbl α)) (lambda pi : Param α)
    (lt lp : Bool)
    (hx : 0 < p.length) (hl : 0 < (lambda.read p).length) (hp : 0 < (pi.read p).length) :
    (∃ r, cpp_qzip P p lambda pi lt lp = Except.ok r ∧
      r.p_after = p.map (adjusted P lt lp)) ∧
    (∃ r, cpp_qzip P [Dbl.fin (1 / 5)] (Param.own [Dbl.fin 1]) (Param.own [Dbl.fin (1 / 2)])
          false false = Except.ok r ∧
        r.p_after = [Dbl.fin (P.round (4 / 5))]) := by
  refine ⟨⟨_, cpp_qzip_run P p lambda pi lt lp hx hl hp, rfl⟩, ?_⟩
  refine ⟨_, cpp_qzip_run P [Dbl.fin (1 / 5)] (Param.own [Dbl.fin 1])
    (Param.own [Dbl.fin (1 / 2)]) false false
    (by simp) (by simp [Param.read]) (by simp [Param.read]), ?_⟩
  have e : (1 : α) - 5⁻¹ = 4 / 5 := by norm_num
  simp [adjusted, complement, Dbl.rounded, e]

/-- Witness of C18: `p = [1/5]`, `lambda = [1]`, `pi = [1/2]`, upper tail, on the
rational backend, whose rounding keeps `4/5`. -/
theorem cpp_qzip_overwrites_p_witness :
    Q.round (4 / 5) = 4 / 5 ∧
    (∃ r, cpp_qzip Q.prims [Dbl.fin (1 / 5)] (Param.own [Dbl.fin 1])
          (Param.own [Dbl.fin (1 / 2)]) false false = Except.ok r ∧
      r.p_after = [Dbl.fin (1 / 5 : ℚ)].map (adjusted Q.prims false false)) ∧
    (∃ r, cpp_qzip Q.prims [Dbl.fin (1 / 5)] (Param.own [Dbl.fin 1])
          (Param.own [Dbl.fin (1 / 2)]) false false = Except.ok r ∧
        r.p_after = [Dbl.fin (Q.prims.round (4 / 5))]) :=
  ⟨by norm_num [Q.round, abs_lt],
    cpp_qzip_overwrites_p Q.prims [Dbl.fin (1 / 5)] (Param.own [Dbl.fin 1])
      (Param.own [Dbl.fin (1 / 2)]) false false (by decide) (by decide) (by decide)⟩

/-- C19 (what the code does): for `lambda > 0`, `pi` in `[0,1]` and `p` in `[0,1]`
with `p >= pi`, `invcdf_zip` takes the Poisson branch; when `pi < 1` the
argument `(p - pi)/(1 - pi)` of the Poisson quantile is a number in `[0,1]`,
but when `pi = 1` (hence `p = 1`) the divisor `1 - pi` is zero and the Poisson
quantile is called on the NaN `0/0`. -/
theorem invcdf_zip_poisson_argument (P : Prims α) (p lambda pi : α) (w : List String)
    (hl : 0 < lambda) (hπ₀ : 0 ≤ pi) (hπ₁ : pi ≤ 1) (hp₀ : 0 ≤ p) (hp₁ : p ≤ 1)
    (hb : pi ≤ p) :
    (pi < 1 →
      invcdf_zip P (Dbl.fin p) (Dbl.fin lambda) (Dbl.fin pi) w =
        (P.qpois (Dbl.fin ((p - pi) / (1 - pi))) (Dbl.fin lambda), w) ∧
      0 ≤ (p - pi) / (1 - pi) ∧ (p - pi) / (1 - pi) ≤ 1) ∧
    (pi = 1 →
      (Dbl.fin 1 - Dbl.fin pi : Dbl α) = Dbl.fin 0 ∧
      (Dbl.fin p - Dbl.fin pi) / (Dbl.fin 1 - Dbl.fin pi) = Dbl.nan ∧
      invcdf_zip P (Dbl.fin p) (Dbl.fin lambda) (Dbl.fin pi) w =
        (P.qpois Dbl.nan (Dbl.fin lambda), w)) := by
  have hinv : zip_invalid (Dbl.fin lambda) (Dbl.fin pi) = false := by
    simp [zip_invalid, hl, hπ₀, hπ₁]
  refine ⟨?_, ?_⟩
  · intro hlt
    have h1p : 0 < 1 - pi := sub_pos.mpr hlt
    refine ⟨?_, div_nonneg (sub_nonneg.mpr hb) (le_of_lt h1p), ?_⟩
    · simp only [invcdf_zip, hinv, Dbl.lt_fin_fin, not_lt.mpr hp₀, not_lt.mpr hp₁,
        not_lt.mpr hb, decide_False, Bool.or_self, Bool.false_eq_true, if_false,
        Dbl.fin_sub_fin, Dbl.fin_div_fin _ _ (ne_of_gt h1p)]
    · rw [div_le_one h1p]
      linarith
  · intro h1
    have hp : p = 1 := le_antisymm hp₁ (h1 ▸ hb)
    subst h1
    subst hp
    refine ⟨by simp, by simp, ?_⟩
    simp [invcdf_zip, hinv]

/-- Witness of C19: `p = 1`, `lambda = 1`, `pi = 1` on the rational backend. -/
theorem invcdf_zip_poisson_argument_witness :
    ((1 : ℚ) < 1 →
      invcdf_zip Q.prims (Dbl.fin 1) (Dbl.fin 1) (Dbl.fin 1) [] =
        (Q.prims.qpois (Dbl.fin ((1 - 1) / (1 - 1))) (Dbl.fin 1), []) ∧
      (0 : ℚ) ≤ (1 - 1) / (1 - 1) ∧ ((1 : ℚ) - 1) / (1 - 1) ≤ 1) ∧
    ((1 : ℚ) = 1 →
      (Dbl.fin 1 - Dbl.fin 1 : Dbl ℚ) = Dbl.fin 0 ∧
      (Dbl.fin 1 - Dbl.fin 1) / (Dbl.fin 1 - Dbl.fin 1) = (Dbl.nan : Dbl ℚ) ∧
      invcdf_zip Q.prims (Dbl.fin 1) (Dbl.fin 1) (Dbl.fin 1) [] =
        (Q.prims.qpois Dbl.nan (Dbl.fin 1), [])) :=
  invcdf_zip_poisson_argument Q.prims 1 1 1 [] (by norm_num) (by norm_num) (by norm_num)
    (by norm_num) (by norm_num) (by norm_num)

/-- C20: for `lambda > 0`, `pi` in `[0,1]` and every integer `n >= 0`, with Poisson
masses `d k = dpois(k, lambda)` for `k <= n`, `exp(-lambda) = d 0` and
`ppois(n, lambda)` the sum of `d k` over `k = 0..n` (the integers `0..n` being
integers for `isInteger`), `pdf_zip(k, lambda, pi)` is a finite value `f k` for
every `k <= n` and `cdf_zip(n, lambda, pi)` is the sum of `f k` over
`k = 0..n`; no call raises a warning. -/
theorem cdf_zip_eq_sum_pdf_zip (P : Prims α) (lambda pi : α) (n : Nat) (d : Nat → α)
    (w : List String) (hl : 0 < lambda) (hp₀ : 0 ≤ pi) (hp₁ : pi ≤ 1)
    (hint : ∀ k, k ≤ n → P.isInteger (Dbl.fin (k : α)) = true)
    (hd : ∀ k, k ≤ n → P.dpois (Dbl.fin (k : α)) (Dbl.fin lambda) = Dbl.fin (d k))
    (hexp : P.exp (Dbl.fin (-lambda)) = Dbl.fin (d 0))
    (hcdf : P.ppois (Dbl.fin (n : α)) (Dbl.fin lambda) =
      Dbl.fin (Finset.sum (Finset.range (n + 1)) d)) :
    ∃ f : Nat → α,
      (∀ k, k ≤ n →
        pdf_zip P (Dbl.fin (k : α)) (Dbl.fin lambda) (Dbl.fin pi) w = (Dbl.fin (f k), w)) ∧
      cdf_zip P (Dbl.fin (n : α)) (Dbl.fin lambda) (Dbl.fin pi) w =
        (Dbl.fin (Finset.sum (Finset.range (n + 1)) f), w) := by
  have hinv : zip_invalid (Dbl.fin lambda) (Dbl.fin pi) = false := by
    simp [zip_invalid, hl, hp₀, hp₁]
  refine ⟨fun k => if k = 0 then pi + (1 - pi) * d 0 else (1 - pi) * d k, ?_, ?_⟩
  · intro k hk
    by_cases h0 : k = 0
    · subst h0
      have hi := hint 0 hk
      simp only [Nat.cast_zero] at hi
      simp [pdf_zip, hinv, hi, hexp]
    · have hpos : (0 : α) < (k : α) := Nat.cast_pos.mpr (Nat.pos_of_ne_zero h0)
      simp [pdf_zip, hinv, hint k hk, hd k hk, h0, not_lt.mpr (le_of_lt hpos),
        ne_of_gt hpos]
  · have hn : ¬ ((n : α) < 0) := not_lt.mpr (Nat.cast_nonneg n)
    rw [sum_zip_masses]
    simp [cdf_zip, hinv, hn, hcdf]

/-- Witness of C20: `lambda = 1`, `pi = 1/2`, `n = 2` on the rational backend, whose
Poisson masses are `1/((k+1)(k+2))` and whose `exp(-1)` is `1/2`. -/
theorem cdf_zip_eq_sum_pdf_zip_witness :
    ∃ f : Nat → ℚ,
      (∀ k : Nat, k ≤ 2 →
        pdf_zip Q.prims (Dbl.fin (k : ℚ)) (Dbl.fin 1) (Dbl.fin (1 / 2)) [] =
          (Dbl.fin (f k), [])) ∧
      cdf_zip Q.prims (Dbl.fin ((2 : Nat) : ℚ)) (Dbl.fin 1) (Dbl.fin (1 / 2)) [] =
        (Dbl.fin (Finset.sum (Finset.range (2 + 1)) f), []) :=
  cdf_zip_eq_sum_pdf_zip Q.prims 1 (1 / 2) 2 (fun k => 1 / (((k : ℚ) + 1) * ((k : ℚ) + 2))) []
    (by norm_num) (by norm_num) (by norm_num)
    (by
      intro k _
      simp [Q.prims, Q.isInteger])
    (by
      intro k _
      have hk : ¬ ((k : ℚ) < 0) := not_lt.mpr (Nat.cast_nonneg k)
      simp [Q.prims, Q.dpois, hk])
    (by norm_num [Q.prims, Q.exp])
    (by norm_num [Q.prims, Q.ppois, Finset.sum_range_succ])

end Claims

end ExtraDistr
